import Mathlib

/-!
Verification of the bidirectional KQL translator of the ocis-advanced-search
repository: the serializer `buildKQL` (src/src/utils/kql.ts) and the parser
`parseKqlToFilters` (the advanced-search composable, src/unnamed/part_007).
JavaScript strings are modelled as `List Char`; JavaScript numbers as
`JsNum` (NaN or a rational); stateful filter mutation as explicit record
updates on `SearchFilters`.
-/

set_option maxRecDepth 10000

namespace OcisKql

/-- JavaScript strings, modelled as lists of characters. -/
abbrev Str := List Char

/-! ## Character classes -/

/-- The characters matched by `\s` in a JavaScript regular expression (and
skipped by `trim`, `parseInt`, `parseFloat`): ASCII whitespace plus the
Unicode space separators, NBSP, and the BOM. -/
def isJsWs (c : Char) : Bool :=
  c = ' ' || c = '\t' || c = '\n' || c = '\r' || c.toNat = 0x0b || c.toNat = 0x0c ||
  c.toNat = 0xa0 || c.toNat = 0x1680 || (0x2000 ≤ c.toNat && c.toNat ≤ 0x200a) ||
  c.toNat = 0x2028 || c.toNat = 0x2029 || c.toNat = 0x202f || c.toNat = 0x205f ||
  c.toNat = 0x3000 || c.toNat = 0xfeff

/-- The punctuation characters of the character class
`[+\-=&|><!(){}[\]^"~:\\/]` used by `escapeKQL`'s wildcard branch
(kql.ts line 20) and by the parser's un-escaping regex (part_007 line 770). -/
def isPunctSpecial (c : Char) : Bool :=
  c = '+' || c = '-' || c = '=' || c = '&' || c = '|' || c = '>' || c = '<' ||
  c = '!' || c = '(' || c = ')' || c = '{' || c = '}' || c = '[' || c = ']' ||
  c = '^' || c = '"' || c = '~' || c = ':' || c = '\\' || c = '/'

/-- `KQL_SPECIAL_CHARS` (kql.ts line 11): the punctuation specials plus the
wildcards `*` and `?` plus whitespace. -/
def isKqlSpecial (c : Char) : Bool :=
  isPunctSpecial c || c = '*' || c = '?' || isJsWs c

/-- `[a-z.]` with the `i` flag: the field-name character class of the
range-comparison regex (part_007 line 814). -/
def isFieldChar (c : Char) : Bool :=
  ('a' ≤ c && c ≤ 'z') || ('A' ≤ c && c ≤ 'Z') || c = '.'

/-- Line terminators, which `.` does not match in a JavaScript regex. -/
def isLineTerm (c : Char) : Bool :=
  c = '\n' || c = '\r' || c.toNat = 0x2028 || c.toNat = 0x2029

/-- ASCII lower-casing of one character, modelling `String.toLowerCase`
on the ASCII inputs the translator deals with. -/
def lcChar (c : Char) : Char :=
  if 'A' ≤ c && c ≤ 'Z' then Char.ofNat (c.toNat + 32) else c

/-- ASCII upper-casing of one character, modelling `String.toUpperCase`
on the ASCII inputs the translator deals with. -/
def ucChar (c : Char) : Char :=
  if 'a' ≤ c && c ≤ 'z' then Char.ofNat (c.toNat - 32) else c

/-! ## JS string primitives -/

/-- `String.prototype.trim`. -/
def jsTrim (s : Str) : Str :=
  ((s.dropWhile isJsWs).reverse.dropWhile isJsWs).reverse

/-- Split on every occurrence of a single character, as
`String.prototype.split(',')` does (`"".split(',') = [""]`). -/
def splitOn (sep : Char) : Str → List Str
  | [] => [[]]
  | c :: cs =>
    if c = sep then [] :: splitOn sep cs
    else
      match splitOn sep cs with
      | h :: t => (c :: h) :: t
      | [] => [[c]]

/-- Split at the first `:`, returning the text before and after it;
`none` when `indexOf(':') === -1`. -/
def splitColon : Str → Option (Str × Str)
  | [] => none
  | c :: cs =>
    if c = ':' then some ([], cs)
    else (splitColon cs).map (fun p => (c :: p.1, p.2))

/-- Substring containment, modelling `String.prototype.includes`. -/
def containsSub : Str → Str → Bool
  | [], needle => needle.isPrefixOf []
  | c :: t, needle => needle.isPrefixOf (c :: t) || containsSub t needle

/-- `parts.join(sep)` of `Array.prototype.join`. -/
def joinSep (sep : Str) : List Str → Str
  | [] => []
  | [p] => p
  | p :: ps => p ++ sep ++ joinSep sep ps

/-! ## JavaScript numbers

A JavaScript number is modelled as `NaN` or a rational.  The source only
ever produces numbers through `parseInt(_, 10)` and `parseFloat`, and only
ever renders them through template-string interpolation.  Rendering follows
ECMAScript `Number::toString` (fixed notation for zero and magnitudes in
`[1e-6, 1e21)`, exponent notation outside) with the exact decimal digits of
the rational; infinities, and doubles whose shortest round-tripping digit
string differs from their exact expansion, are outside the model. -/

inductive JsNum where
  | nan : JsNum
  | num : ℚ → JsNum
deriving DecidableEq, Repr

/-- The digit character for `d < 10`. -/
def digitChar (d : Nat) : Char := Char.ofNat (48 + d)

/-- Numeric value of a digit character. -/
def digitVal (c : Char) : Nat := c.toNat - 48

/-- The number denoted by a most-significant-first digit string. -/
def digitsVal (s : Str) : Nat := s.foldl (fun a c => 10 * a + digitVal c) 0

/-- Decimal digits of `n`, most significant first (fuel-based so that it
reduces in the kernel). -/
def natToStrAux : Nat → Nat → Str
  | 0, _ => []
  | fuel + 1, n => if n = 0 then [] else natToStrAux fuel (n / 10) ++ [digitChar (n % 10)]

/-- Decimal rendering of a natural number. -/
def natToStr (n : Nat) : Str := if n = 0 then ['0'] else natToStrAux (n + 1) n

/-- Decimal rendering of an integer. -/
def intRender (n : Int) : Str :=
  if n < 0 then '-' :: natToStr n.natAbs else natToStr n.toNat

/-- Decimal expansion of the fractional remainder `r / den`
(stops after `fuel` digits; exact for every value the source produces). -/
def fracDigits : Nat → Nat → Nat → Str
  | 0, _, _ => []
  | fuel + 1, r, den =>
    if r = 0 then []
    else digitChar (10 * r / den) :: fracDigits fuel (10 * r % den) den

/-- Drop the trailing `'0'` digits of a digit string. -/
def trimTrailingZeros (s : Str) : Str :=
  (s.reverse.dropWhile (fun c => c = '0')).reverse

/-- Mantissa `d.ddd` of a significant-digit string, as exponent notation
writes it: the first digit, then a point and the rest when any. -/
def sciDigits (sig : Str) : Str :=
  match sig with
  | [] => ['0']
  | d :: rest => d :: (if rest = [] then [] else '.' :: rest)

/-- The fixed-notation test of ECMAScript `Number::toString`: a finite
number prints without an exponent exactly when it is zero or its
magnitude lies in `[1e-6, 1e21)`. -/
def ratFixed (q : ℚ) : Bool :=
  q.num = 0 ||
    (decide (q.den ≤ 1000000 * q.num.natAbs) &&
      decide (q.num.natAbs < 10 ^ 21 * q.den))

/-- Template-string rendering of a rational JavaScript number, following
ECMAScript `Number::toString`: plain decimal digits for zero and
magnitudes in `[1e-6, 1e21)` (fraction digits exact, without trailing
zeros, up to 100 places), and exponent notation outside that region
(`String(1e21) = "1e+21"`, `String(9.99e-7) = "9.99e-7"`), built from the
exact significant digits of the value.  JavaScript prints the shortest
digit string that round-trips through the double; the two agree on every
value whose exact expansion is that shortest form. -/
def ratRender (q : ℚ) : Str :=
  if ratFixed q then
    if q.den = 1 then intRender q.num
    else
      (if q < 0 then ['-'] else []) ++ natToStr (q.num.natAbs / q.den) ++
        '.' :: fracDigits 100 (q.num.natAbs % q.den) q.den
  else if 10 ^ 21 * q.den ≤ q.num.natAbs then
    (if q < 0 then ['-'] else []) ++
      sciDigits (trimTrailingZeros (natToStr (q.num.natAbs / q.den) ++
        fracDigits 100 (q.num.natAbs % q.den) q.den)) ++
      'e' :: '+' :: natToStr ((natToStr (q.num.natAbs / q.den)).length - 1)
  else
    (if q < 0 then ['-'] else []) ++
      sciDigits (trimTrailingZeros
        ((fracDigits 200 q.num.natAbs q.den).dropWhile (fun c => c = '0'))) ++
      'e' :: '-' :: natToStr
        (((fracDigits 200 q.num.natAbs q.den).takeWhile (fun c => c = '0')).length + 1)

/-- Template-string interpolation `${n}` of a JavaScript number. -/
def jsNumRender : JsNum → Str
  | .nan => "NaN".toList
  | .num q => ratRender q

/-- `n > 0` on a JavaScript number (`NaN > 0` is false). -/
def jsNumPos : JsNum → Bool
  | .nan => false
  | .num q => 0 < q

/-- The digit-prefix stage shared by `parseInt`'s sign branches. -/
def intCore (t : Str) : JsNum :=
  let ds := t.takeWhile Char.isDigit
  if ds = [] then .nan else .num (digitsVal ds : ℚ)

/-- `parseInt(s, 10)`: skip whitespace, optional sign, then the longest
prefix of decimal digits; `NaN` when that prefix is empty. -/
def jsParseInt (s : Str) : JsNum :=
  let s1 := s.dropWhile isJsWs
  if s1.head? = some '+' then intCore (s1.drop 1)
  else if s1.head? = some '-' then
    match intCore (s1.drop 1) with
    | .nan => .nan
    | .num q => .num (-q)
  else intCore s1

/-- The decimal-literal stage of `parseFloat` after the sign: longest
prefix of digits, optional `.digits` fraction, optional exponent. -/
def floatCore (neg : Bool) (s2 : Str) : JsNum :=
  let ip := s2.takeWhile Char.isDigit
  let r2 := s2.dropWhile Char.isDigit
  let fp : Str :=
    if r2.head? = some '.' then (r2.drop 1).takeWhile Char.isDigit else []
  let r3 : Str :=
    if r2.head? = some '.' then (r2.drop 1).dropWhile Char.isDigit else r2
  if ip = [] ∧ fp = [] then .nan
  else
    let expVal : Option Int :=
      if r3.head? = some 'e' ∨ r3.head? = some 'E' then
        let r := r3.drop 1
        let eneg : Bool := r.head? = some '-'
        let r4 : Str :=
          if r.head? = some '+' ∨ r.head? = some '-' then r.drop 1 else r
        let eds := r4.takeWhile Char.isDigit
        if eds = [] then none
        else some (if eneg then -(digitsVal eds : Int) else (digitsVal eds : Int))
      else none
    let mag : ℚ :=
      if fp = [] ∧ expVal = none then (digitsVal ip : ℚ)
      else
        ((digitsVal ip : ℚ) + (digitsVal fp : ℚ) / ((10 : ℚ) ^ fp.length)) *
          (10 : ℚ) ^ (expVal.getD 0)
    .num (if neg then -mag else mag)

/-- `parseFloat(s)`: skip whitespace, optional sign, longest decimal
literal prefix (integer digits, optional fraction, optional exponent);
`NaN` when no digits are found.  `Infinity` is outside the model (it maps
to `NaN` here; no claim exercises it). -/
def jsParseFloat (s : Str) : JsNum :=
  let s1 := s.dropWhile isJsWs
  if s1.head? = some '+' then floatCore false (s1.drop 1)
  else if s1.head? = some '-' then floatCore true (s1.drop 1)
  else floatCore false s1

/-! ## Data model

`SearchFilters` is declared in the repository's `types.ts`, which is not
under `src/`; the shape below follows its use throughout `kql.ts` and the
composable, and §3 of the spec.  Absent optional strings are the empty
string (JavaScript falsiness), absent ranges are `none`. -/

structure NumericRange where
  min : Option JsNum := none
  max : Option JsNum := none
deriving DecidableEq, Repr

/-- A date range; `stop` renders the source's `end` field (a Lean keyword). -/
structure DateRange where
  start : Str := []
  stop : Str := []
deriving DecidableEq, Repr

structure StandardFilters where
  name : Str := []
  /-- `'file' | 'folder'` in types.ts; the parser can store other raw
  strings through its `as` cast, so the model is a string. -/
  type : Str := []
  mediaType : Str := []
  sizeRange : Option NumericRange := none
  modifiedRange : Option DateRange := none
  tags : Str := []
  content : Str := []
deriving DecidableEq, Repr

structure PhotoFilters where
  cameraMake : Str := []
  cameraModel : Str := []
  takenDateRange : Option DateRange := none
  isoRange : Option NumericRange := none
  fNumberRange : Option NumericRange := none
  focalLengthRange : Option NumericRange := none
  orientation : Option JsNum := none
deriving DecidableEq, Repr

structure SearchFilters where
  term : Str := []
  standard : StandardFilters := {}
  photo : PhotoFilters := {}
deriving DecidableEq, Repr

/-- Modelled from the spec: `createEmptyFilters` lives in the missing
`types.ts`; per §3/§4.3 the empty FilterState has every field absent. -/
def createEmptyFilters : SearchFilters := {}

/-! ## Serializer (kql.ts) -/

/-- Escape every character satisfying `p` with a backslash: the effect of
`value.replace(/[…]/g, '\\$&')` for a single-character class. -/
def escMap (p : Char → Bool) : Str → Str
  | [] => []
  | c :: cs => (if p c then ['\\', c] else [c]) ++ escMap p cs

/-- `escapeKQL` (kql.ts lines 16-23): keep `*`/`?` unescaped when present,
otherwise escape the full special set including whitespace. -/
def escapeKQL (v : Str) : Str :=
  if v.contains '*' || v.contains '?' then escMap isPunctSpecial v
  else escMap isKqlSpecial v

/-- The test `/^\d{4}-\d{2}-\d{2}$/` of `formatDateForKQL`. -/
def isYMDShape (s : Str) : Bool :=
  match s with
  | [a, b, c, d, h1, e, f, h2, g, h] =>
    [a, b, c, d, e, f, g, h].all Char.isDigit && h1 = '-' && h2 = '-'
  | _ => false

/-- `formatDateForKQL` (kql.ts lines 28-39).  The `else` branch runs the
date through `new Date(...)`/`toISOString` (reformat when parseable, the
input unchanged otherwise); that host-environment date parser is modelled
by the explicit parameter `fb`, and every theorem quantifies over it. -/
def formatDateForKQL (fb : Str → Str) (date : Str) : Str :=
  if isYMDShape date then date else fb date

/-- `buildRangeQuery` (kql.ts lines 45-63). -/
def buildRangeQuery (field : Str) (range : NumericRange) : Option Str :=
  if range.min = none ∧ range.max = none then none
  else
    let parts : List Str :=
      (match range.min with
       | some m => [field ++ ">=".toList ++ jsNumRender m]
       | none => []) ++
      (match range.max with
       | some m => [field ++ "<=".toList ++ jsNumRender m]
       | none => [])
    if parts.length = 2 then
      some ('(' :: joinSep " AND ".toList parts ++ [')'])
    else some (parts.headD [])

/-- `buildDateRangeQuery` (kql.ts lines 69-87). -/
def buildDateRangeQuery (fb : Str → Str) (field : Str) (range : DateRange) :
    Option Str :=
  if range.start = [] ∧ range.stop = [] then none
  else
    let parts : List Str :=
      (if range.start ≠ [] then
        [field ++ ">=".toList ++ formatDateForKQL fb range.start]
       else []) ++
      (if range.stop ≠ [] then
        [field ++ "<=".toList ++ formatDateForKQL fb range.stop]
       else [])
    if parts.length = 2 then
      some ('(' :: joinSep " AND ".toList parts ++ [')'])
    else some (parts.headD [])

/-- `buildStandardKQL` (kql.ts lines 105-157). -/
def buildStandardKQL (fb : Str → Str) (standard : StandardFilters)
    (term : Str) : List Str :=
  (if jsTrim term ≠ [] then
    (if ¬ term.contains ':' then
      ["name:*".toList ++ escapeKQL (jsTrim term) ++ ['*']]
     else [jsTrim term])
   else []) ++
  (if standard.name ≠ [] then ["name:".toList ++ escapeKQL standard.name] else []) ++
  (if standard.type = "file".toList then ["Type:1".toList]
   else if standard.type = "folder".toList then ["Type:2".toList]
   else []) ++
  (match standard.sizeRange with
   | some r => (buildRangeQuery "size".toList r).toList
   | none => []) ++
  (match standard.modifiedRange with
   | some r => (buildDateRangeQuery fb "mtime".toList r).toList
   | none => []) ++
  (if standard.mediaType ≠ [] then
    ["mediatype:".toList ++ escapeKQL standard.mediaType]
   else []) ++
  (if standard.tags ≠ [] then
    (let tagList := ((splitOn ',' standard.tags).map jsTrim).filter (· ≠ [])
     match tagList with
     | [t] => ["tags:".toList ++ escapeKQL t]
     | [] => []
     | ts =>
       ['(' :: joinSep " OR ".toList (ts.map (fun t => "tags:".toList ++ escapeKQL t)) ++ [')']])
   else []) ++
  (if standard.content ≠ [] then
    ["content:".toList ++ escapeKQL standard.content]
   else [])

/-- `buildPhotoKQL` (kql.ts lines 162-198). -/
def buildPhotoKQL (fb : Str → Str) (photo : PhotoFilters) : List Str :=
  (if photo.cameraMake ≠ [] then
    ["photo.cameramake:".toList ++ escapeKQL photo.cameraMake]
   else []) ++
  (if photo.cameraModel ≠ [] then
    ["photo.cameramodel:".toList ++ escapeKQL photo.cameraModel]
   else []) ++
  (match photo.takenDateRange with
   | some r => (buildDateRangeQuery fb "photo.takendatetime".toList r).toList
   | none => []) ++
  (match photo.isoRange with
   | some r => (buildRangeQuery "photo.iso".toList r).toList
   | none => []) ++
  (match photo.fNumberRange with
   | some r => (buildRangeQuery "photo.fnumber".toList r).toList
   | none => []) ++
  (match photo.focalLengthRange with
   | some r => (buildRangeQuery "photo.focallength".toList r).toList
   | none => []) ++
  (match photo.orientation with
   | some o =>
     if jsNumPos o then ["photo.orientation:".toList ++ jsNumRender o] else []
   | none => [])

/-- `buildKQL` (kql.ts lines 203-210): join all clauses with ` AND `, or
`*` when none were emitted. -/
def buildKQL (fb : Str → Str) (filters : SearchFilters) : Str :=
  let parts := buildStandardKQL fb filters.standard filters.term ++
    buildPhotoKQL fb filters.photo
  if parts ≠ [] then joinSep " AND ".toList parts else "*".toList

/-! ## Parser (part_007)

The parser works on the composable's reactive state; the model threads the
`SearchFilters` value explicitly.  `parseKqlPart` recurses into
parenthesised groups; the model uses fuel (one unit per unwrapping level,
started at the input length plus one, which strictly dominates the
recursion depth since every unwrap removes two characters and splitting
never lengthens a piece). -/

/-- One attempt of the split regex `/\s+(AND)\s+/i` at the start of `s`
(which must begin with whitespace): greedy whitespace run, then `AND`
case-insensitively, then a greedy whitespace run.  Returns the captured
`AND` text and the remainder after the match. -/
def matchSep (s : Str) : Option (Str × Str) :=
  let w1 := s.takeWhile isJsWs
  let r1 := s.dropWhile isJsWs
  let and3 := r1.take 3
  let r2 := r1.drop 3
  if w1 = [] then none
  else if (and3.map ucChar == "AND".toList) && r2.head?.any isJsWs then
    some (and3, r2.dropWhile isJsWs)
  else none

/-- Scanner for `kql.split(/\s+(AND)\s+/i)`: the token list alternates
text pieces and captured `AND` separators, exactly as JavaScript's
`split` with a capture group.  A failed separator attempt inside a
whitespace run fails at every position of the run, so the scanner may
consume the run whole.  Fuel-based (one unit per step; each step consumes
at least one character). -/
def splitAndGoF : Nat → Str → Str → List Str
  | 0, cur, _ => [cur]
  | _ + 1, cur, [] => [cur]
  | fuel + 1, cur, c :: cs =>
    if isJsWs c then
      match matchSep (c :: cs) with
      | some (cap, rest) => cur :: cap :: splitAndGoF fuel [] rest
      | none =>
        splitAndGoF fuel (cur ++ (c :: cs).takeWhile isJsWs)
          ((c :: cs).dropWhile isJsWs)
    else splitAndGoF fuel (cur ++ [c]) cs

/-- `kql.split(/\s+(AND)\s+/i)`. -/
def jsSplitAnd (s : Str) : List Str := splitAndGoF (s.length + 1) [] s

/-- Drop the captured separators, giving the pieces of the capture-free
split `/\s+AND\s+/i` (used on range-group interiors, part_007 line 724). -/
def dropCaps : List Str → List Str
  | [] => []
  | [t] => [t]
  | t :: _ :: rest => t :: dropCaps rest

/-- `inner.split(/\s+AND\s+/i)` without a capture group. -/
def jsSplitAndNC (s : Str) : List Str := dropCaps (jsSplitAnd s)

/-- The `AND` test of the split loop: `token.toUpperCase() === 'AND'`. -/
def tokenIsAnd (t : Str) : Bool := t.map ucChar == "AND".toList

/-- Parenthesis counting of `splitKqlParts` (depth may go negative, as in
the source, hence `Int`). -/
def countDepth (d : Int) (t : Str) : Int :=
  t.foldl (fun d c => if c = '(' then d + 1 else if c = ')' then d - 1 else d) d

/-- The accumulation loop of `splitKqlParts` (part_007 lines 688-711):
separators at depth 0 cut, separators at other depths are re-joined as a
literal `' AND '`. -/
def splitFoldGo : List Str → List Str → Str → Int → List Str
  | [], parts, current, _ =>
    if jsTrim current ≠ [] then parts ++ [jsTrim current] else parts
  | t :: ts, parts, current, depth =>
    if tokenIsAnd t then
      if depth = 0 then
        splitFoldGo ts
          (if jsTrim current ≠ [] then parts ++ [jsTrim current] else parts)
          [] depth
      else splitFoldGo ts parts (current ++ " AND ".toList) depth
    else splitFoldGo ts parts (current ++ t) (countDepth depth t)

/-- `splitKqlParts` (part_007 lines 681-713). -/
def splitKqlParts (kql : Str) : List Str :=
  splitFoldGo (jsSplitAnd kql) [] [] 0

/-- A parsed range comparison (part_007 `parseRangePart` result). -/
structure RangeCmp where
  field : Str
  op : Str
  value : Str
deriving DecidableEq, Repr

/-- `parseRangePart` (part_007 lines 813-823): the anchored regex
`/^([a-z.]+)(>=|<=|>|<)(.+)$/i`; the field is lower-cased, the value may
not be empty or contain a line terminator (`.` does not match those). -/
def parseRangePart (part : Str) : Option RangeCmp :=
  let fld := part.takeWhile isFieldChar
  let rest := part.dropWhile isFieldChar
  if fld = [] then none
  else
    let op : Str :=
      if rest.take 2 = ">=".toList then ">=".toList
      else if rest.take 2 = "<=".toList then "<=".toList
      else if rest.head? = some '>' then ['>']
      else if rest.head? = some '<' then ['<']
      else []
    if op = [] then none
    else
      let v := rest.drop op.length
      if v ≠ [] ∧ v.all (fun c => ¬ isLineTerm c) then
        some ⟨fld.map lcChar, op, v⟩
      else none

/-- One iteration of the min/max collection loop of
`applyRangeToFilters` (part_007 lines 839-845). -/
def boundStep (mm : Option Str × Option Str) (r : RangeCmp) :
    Option Str × Option Str :=
  if r.op = ">=".toList || r.op = ['>'] then (some r.value, mm.2)
  else if r.op = "<=".toList || r.op = ['<'] then (mm.1, some r.value)
  else mm

/-- The min/max collection loop of `applyRangeToFilters`
(part_007 lines 833-845): a `>=`/`>` comparison sets the min, a
`<=`/`<` comparison sets the max, later entries overwriting. -/
def applyBounds (r1 : RangeCmp) (r2 : Option RangeCmp) :
    Option Str × Option Str :=
  (r1 :: r2.toList).foldl boundStep (none, none)

/-- `applyRangeToFilters` (part_007 lines 828-887). -/
def applyRangeToFilters (f : SearchFilters) (field : Str) (r1 : RangeCmp)
    (r2 : Option RangeCmp) : SearchFilters :=
  let mm := applyBounds r1 r2
  if field = "size".toList then
    {f with standard.sizeRange := some ⟨mm.1.map jsParseInt, mm.2.map jsParseInt⟩}
  else if field = "mtime".toList then
    {f with standard.modifiedRange := some ⟨mm.1.getD [], mm.2.getD []⟩}
  else if field = "photo.takendatetime".toList then
    {f with photo.takenDateRange := some ⟨mm.1.getD [], mm.2.getD []⟩}
  else if field = "photo.iso".toList then
    {f with photo.isoRange := some ⟨mm.1.map jsParseInt, mm.2.map jsParseInt⟩}
  else if field = "photo.fnumber".toList then
    {f with photo.fNumberRange := some ⟨mm.1.map jsParseFloat, mm.2.map jsParseFloat⟩}
  else if field = "photo.focallength".toList then
    {f with photo.focalLengthRange := some ⟨mm.1.map jsParseFloat, mm.2.map jsParseFloat⟩}
  else f

/-- The un-escaping `value.replace(/\\([+\-=&|><!(){}[\]^"~:\\/])/g, '$1')`
(part_007 line 770): a backslash is removed exactly when it immediately
precedes a punctuation special. -/
def unescapeKQL : Str → Str
  | [] => []
  | c :: rest =>
    if c = '\\' then
      match rest with
      | [] => ['\\']
      | d :: rest2 =>
        if isPunctSpecial d then d :: unescapeKQL rest2
        else '\\' :: unescapeKQL (d :: rest2)
    else c :: unescapeKQL rest

/-- Surrounding-quote stripping (part_007 lines 764-767). -/
def stripQuotes (v : Str) : Str :=
  if (v.head? = some '"' ∧ v.getLast? = some '"') ∨
      (v.head? = some (Char.ofNat 39) ∧ v.getLast? = some (Char.ofNat 39)) then
    (v.drop 1).dropLast
  else v

/-- The `field:value` switch of `parseKqlPart` (part_007 lines 773-807);
an unknown field only logs and leaves the state unchanged. -/
def knownFieldUpdate (f : SearchFilters) (field value : Str) : SearchFilters :=
  if field = "name".toList then {f with standard.name := value}
  else if field = "type".toList then
    {f with standard.type :=
      if value = ['1'] then "file".toList
      else if value = ['2'] then "folder".toList
      else value}
  else if field = "mediatype".toList then {f with standard.mediaType := value}
  else if field = "tags".toList ∨ field = "tag".toList then
    {f with standard.tags :=
      if f.standard.tags ≠ [] then f.standard.tags ++ ',' :: value else value}
  else if field = "content".toList then {f with standard.content := value}
  else if field = "photo.cameramake".toList then {f with photo.cameraMake := value}
  else if field = "photo.cameramodel".toList then {f with photo.cameraModel := value}
  else if field = "photo.orientation".toList then
    {f with photo.orientation := some (jsParseInt value)}
  else f

/-- `parseKqlPart` (part_007 lines 718-808), fuel-based for the recursion
into parenthesised groups. -/
def parseKqlPartF : Nat → SearchFilters → Str → SearchFilters
  | 0, f, _ => f
  | fuel + 1, f, part =>
    if part.head? = some '(' ∧ part.getLast? = some ')' then
      let inner := (part.drop 1).dropLast
      let merged : Option SearchFilters :=
        if containsSub inner " AND ".toList then
          match jsSplitAndNC inner with
          | [rp1, rp2] =>
            match parseRangePart rp1, parseRangePart rp2 with
            | some a, some b =>
              if a.field = b.field then
                some (applyRangeToFilters f a.field a (some b))
              else none
            | _, _ => none
          | _ => none
        else none
      match merged with
      | some f' => f'
      | none =>
        (splitKqlParts inner).foldl
          (fun acc sp => parseKqlPartF fuel acc (jsTrim sp)) f
    else
      match parseRangePart part with
      | some r => applyRangeToFilters f r.field r none
      | none =>
        match splitColon part with
        | none =>
          if jsTrim part ≠ [] then
            {f with term :=
              (if f.term ≠ [] then f.term ++ [' '] else []) ++ jsTrim part}
          else f
        | some (fld, v) =>
          knownFieldUpdate f (fld.map lcChar) (unescapeKQL (stripQuotes v))

/-- `parseKqlToFilters` (part_007 lines 662-676). -/
def parseKqlToFilters (kql : Str) : SearchFilters :=
  if kql = [] ∨ kql = ['*'] then createEmptyFilters
  else
    (splitKqlParts kql).foldl
      (fun f p => parseKqlPartF (kql.length + 1) f (jsTrim p))
      createEmptyFilters

/-! ## Claim-side definitions -/

/-- The escaping function as the spec sentence states it: every
metacharacter and whitespace is escaped, except that a value containing a
wildcard keeps `*` and `?` unescaped while every other special character
(whitespace included) is still escaped.  Written from the spec's words,
to be compared with `escapeKQL` from the source. -/
def escapeKQLSpec (v : Str) : Str :=
  if v.contains '*' || v.contains '?' then
    escMap (fun c => isKqlSpecial c && !(c = '*' || c = '?')) v
  else escMap isKqlSpecial v

/-- A numeric range is absent or carries at least one bound (claim C9). -/
def numRangeOk : Option NumericRange → Prop
  | none => True
  | some r => r.min.isSome ∨ r.max.isSome

/-- A date range is absent or carries at least one bound (claim C9). -/
def dateRangeOk : Option DateRange → Prop
  | none => True
  | some r => r.start ≠ [] ∨ r.stop ≠ []

/-- Every range field of the FilterState is absent or has a bound. -/
def rangesOk (f : SearchFilters) : Prop :=
  numRangeOk f.standard.sizeRange ∧ dateRangeOk f.standard.modifiedRange ∧
  dateRangeOk f.photo.takenDateRange ∧ numRangeOk f.photo.isoRange ∧
  numRangeOk f.photo.fNumberRange ∧ numRangeOk f.photo.focalLengthRange

/-- Characters surviving the escape/un-escape round trip untouched:
letters, digits, and the dot. -/
def plainChar (c : Char) : Bool :=
  ('a' ≤ c && c ≤ 'z') || ('A' ≤ c && c ≤ 'Z') || ('0' ≤ c && c ≤ '9') || c = '.'

/-- A string of round-trip-safe characters. -/
def plainStr (s : Str) : Bool := s.all plainChar

/-- Characters of a fixed-notation numeric rendering: digits, the minus
sign, or the decimal point. -/
def numValChar (c : Char) : Bool := Char.isDigit c || c = '-' || c = '.'

/-- A bound that survives serialize-then-`parseInt`: absent, or an
integer below `1e21` in magnitude (larger magnitudes render in exponent
notation, which `parseInt` truncates at the `e`). -/
def intBound : Option JsNum → Bool
  | none => true
  | some (.num q) => q.den = 1 && decide (q.num.natAbs < 10 ^ 21)
  | some .nan => false

/-- A bound that survives serialize-then-`parseFloat`: absent, or a
number with a plain finite decimal rendering — denominator dividing
`10^6` and magnitude below `1e21`. -/
def floatBound : Option JsNum → Bool
  | none => true
  | some (.num q) =>
    1000000 % q.den = 0 && decide (q.num.natAbs < 10 ^ 21 * q.den)
  | some .nan => false

/-- A `parseInt`-parsed numeric range that round-trips: integer bounds,
at least one set. -/
def goodNumRange : Option NumericRange → Bool
  | none => true
  | some r => intBound r.min && intBound r.max && (r.min.isSome || r.max.isSome)

/-- A `parseFloat`-parsed numeric range that round-trips: finite-decimal
bounds, at least one set. -/
def goodFloatRange : Option NumericRange → Bool
  | none => true
  | some r =>
    floatBound r.min && floatBound r.max && (r.min.isSome || r.max.isSome)

/-- A date range that round-trips: bounds in `YYYY-MM-DD` shape, at least
one set. -/
def goodDateRange : Option DateRange → Bool
  | none => true
  | some r =>
    (r.start = [] || isYMDShape r.start) && (r.stop = [] || isYMDShape r.stop) &&
      (decide (r.start ≠ []) || decide (r.stop ≠ []))

/-- The class of FilterStates for which the round trip
`parseKqlToFilters (buildKQL fb f) = f` holds: empty free-text term,
plain-character string values, a legal `type`, well-formed ranges with
integer `size`/`iso` bounds and finite-decimal (possibly negative or
fractional) `fNumber`/`focalLength` bounds, all below `1e21` in
magnitude, `YYYY-MM-DD` dates, and an orientation that is absent or a
positive integer below `1e21`. -/
def roundTrippable (f : SearchFilters) : Bool :=
  decide (f.term = []) && plainStr f.standard.name &&
  (decide (f.standard.type = []) || decide (f.standard.type = "file".toList) ||
    decide (f.standard.type = "folder".toList)) &&
  plainStr f.standard.mediaType && goodNumRange f.standard.sizeRange &&
  goodDateRange f.standard.modifiedRange && plainStr f.standard.tags &&
  plainStr f.standard.content && plainStr f.photo.cameraMake &&
  plainStr f.photo.cameraModel && goodDateRange f.photo.takenDateRange &&
  goodNumRange f.photo.isoRange && goodFloatRange f.photo.fNumberRange &&
  goodFloatRange f.photo.focalLengthRange &&
  (match f.photo.orientation with
   | none => true
   | some (.num q) => q.den = 1 && 1 ≤ q.num && decide (q.num.natAbs < 10 ^ 21)
   | some .nan => false)

/-- No whitespace character occurs in `s`. -/
def NoWsStr (s : Str) : Prop := ∀ c ∈ s, isJsWs c = false

/-- No parenthesis occurs in `s`. -/
def NoParenStr (s : Str) : Prop := ∀ c ∈ s, c ≠ '(' ∧ c ≠ ')'

instance (s : Str) : Decidable (NoWsStr s) := by
  unfold NoWsStr
  infer_instance

instance (s : Str) : Decidable (NoParenStr s) := by
  unfold NoParenStr
  infer_instance

/-- A whitespace-free, parenthesis-free, non-`AND` top-level clause. -/
def PlainPart (p : Str) : Prop :=
  p ≠ [] ∧ NoWsStr p ∧ NoParenStr p ∧ tokenIsAnd p = false

/-- A parenthesised two-comparison range group
`(w1 AND w2)` with whitespace-free, parenthesis-free halves. -/
def GroupPart (p : Str) : Prop :=
  ∃ w1 w2, p = '(' :: (w1 ++ " AND ".toList ++ w2) ++ [')'] ∧
    w1 ≠ [] ∧ w2 ≠ [] ∧ NoWsStr w1 ∧ NoWsStr w2 ∧ NoParenStr w1 ∧ NoParenStr w2

/-- The clause shapes emitted by the serializer under `roundTrippable`. -/
def GoodPart (p : Str) : Prop := PlainPart p ∨ GroupPart p

/-! ## Character facts -/

theorem charLe_iff (a b : Char) : a ≤ b ↔ a.toNat ≤ b.toNat := Iff.rfl

theorem u32Le_iff (a b : UInt32) : a ≤ b ↔ a.toNat ≤ b.toNat := Iff.rfl

theorem charEq_iff (a b : Char) : a = b ↔ a.toNat = b.toNat :=
  ⟨fun h => by rw [h], fun h => Char.eq_of_val_eq (UInt32.ext h)⟩

@[simp] theorem cvSpace : (' ' : Char).toNat = 32 := rfl
@[simp] theorem cvTab : ('\t' : Char).toNat = 9 := rfl
@[simp] theorem cvLf : ('\n' : Char).toNat = 10 := rfl
@[simp] theorem cvCr : ('\r' : Char).toNat = 13 := rfl
@[simp] theorem cvPlus : ('+' : Char).toNat = 43 := rfl
@[simp] theorem cvMinus : ('-' : Char).toNat = 45 := rfl
@[simp] theorem cvEqs : ('=' : Char).toNat = 61 := rfl
@[simp] theorem cvAmp : ('&' : Char).toNat = 38 := rfl
@[simp] theorem cvBar : ('|' : Char).toNat = 124 := rfl
@[simp] theorem cvGt : ('>' : Char).toNat = 62 := rfl
@[simp] theorem cvLt : ('<' : Char).toNat = 60 := rfl
@[simp] theorem cvBang : ('!' : Char).toNat = 33 := rfl
@[simp] theorem cvLpar : ('(' : Char).toNat = 40 := rfl
@[simp] theorem cvRpar : (')' : Char).toNat = 41 := rfl
@[simp] theorem cvLbrace : ('{' : Char).toNat = 123 := rfl
@[simp] theorem cvRbrace : ('}' : Char).toNat = 125 := rfl
@[simp] theorem cvLbrack : ('[' : Char).toNat = 91 := rfl
@[simp] theorem cvRbrack : (']' : Char).toNat = 93 := rfl
@[simp] theorem cvCaret : ('^' : Char).toNat = 94 := rfl
@[simp] theorem cvQuote : ('"' : Char).toNat = 34 := rfl
@[simp] theorem cvTilde : ('~' : Char).toNat = 126 := rfl
@[simp] theorem cvColon : (':' : Char).toNat = 58 := rfl
@[simp] theorem cvBackslash : ('\\' : Char).toNat = 92 := rfl
@[simp] theorem cvSlash : ('/' : Char).toNat = 47 := rfl
@[simp] theorem cvStar : ('*' : Char).toNat = 42 := rfl
@[simp] theorem cvQmark : ('?' : Char).toNat = 63 := rfl
@[simp] theorem cvDot : ('.' : Char).toNat = 46 := rfl
@[simp] theorem cvComma : (',' : Char).toNat = 44 := rfl
@[simp] theorem cvLa : ('a' : Char).toNat = 97 := rfl
@[simp] theorem cvLz : ('z' : Char).toNat = 122 := rfl
@[simp] theorem cvUA : ('A' : Char).toNat = 65 := rfl
@[simp] theorem cvUZ : ('Z' : Char).toNat = 90 := rfl
@[simp] theorem cvUN : ('N' : Char).toNat = 78 := rfl
@[simp] theorem cvUD : ('D' : Char).toNat = 68 := rfl
@[simp] theorem cvLe : ('e' : Char).toNat = 101 := rfl
@[simp] theorem cvUE : ('E' : Char).toNat = 69 := rfl
@[simp] theorem cvD0 : ('0' : Char).toNat = 48 := rfl
@[simp] theorem cvD9 : ('9' : Char).toNat = 57 := rfl
@[simp] theorem cvApos : (Char.ofNat 39).toNat = 39 := rfl
@[simp] theorem cvU48 : (48 : UInt32).toNat = 48 := rfl
@[simp] theorem cvU57 : (57 : UInt32).toNat = 57 := rfl

theorem isDigit_iff (c : Char) :
    Char.isDigit c = true ↔ 48 ≤ c.toNat ∧ c.toNat ≤ 57 := by
  simp only [Char.isDigit, ge_iff_le, Bool.and_eq_true, decide_eq_true_eq]
  constructor
  · intro h
    exact ⟨(u32Le_iff _ _).mp h.1, (u32Le_iff _ _).mp h.2⟩
  · intro h
    exact ⟨(u32Le_iff _ _).mpr (by simpa using h.1), (u32Le_iff _ _).mpr (by simpa using h.2)⟩

theorem plainChar_toNat (c : Char) (h : plainChar c = true) :
    (97 ≤ c.toNat ∧ c.toNat ≤ 122) ∨ (65 ≤ c.toNat ∧ c.toNat ≤ 90) ∨
      (48 ≤ c.toNat ∧ c.toNat ≤ 57) ∨ c.toNat = 46 := by
  simp only [plainChar, Bool.or_eq_true, Bool.and_eq_true, decide_eq_true_eq,
    charLe_iff, charEq_iff, cvLa, cvLz, cvUA, cvUZ, cvD0, cvD9, cvDot] at h
  tauto

theorem isJsWs_eq_false_of_toNat (c : Char)
    (h : 33 ≤ c.toNat ∧ c.toNat ≤ 159) : isJsWs c = false := by
  simp only [isJsWs, Bool.or_eq_false_iff, decide_eq_false_iff_not, charEq_iff,
    Bool.and_eq_false_iff, cvSpace, cvTab, cvLf, cvCr]
  omega

theorem plain_not_ws (c : Char) (h : plainChar c = true) : isJsWs c = false := by
  have := plainChar_toNat c h
  apply isJsWs_eq_false_of_toNat
  omega

theorem plain_not_punct (c : Char) (h : plainChar c = true) :
    isPunctSpecial c = false := by
  have := plainChar_toNat c h
  simp only [isPunctSpecial, Bool.or_eq_false_iff, decide_eq_false_iff_not,
    charEq_iff, cvPlus, cvMinus, cvEqs, cvAmp, cvBar, cvGt, cvLt, cvBang,
    cvLpar, cvRpar, cvLbrace, cvRbrace, cvLbrack, cvRbrack, cvCaret, cvQuote,
    cvTilde, cvColon, cvBackslash, cvSlash]
  omega

theorem plain_not_special (c : Char) (h : plainChar c = true) :
    isKqlSpecial c = false := by
  simp only [isKqlSpecial, Bool.or_eq_false_iff, decide_eq_false_iff_not,
    charEq_iff, cvStar, cvQmark]
  refine ⟨⟨⟨by rw [← Bool.not_eq_true]; simp [plain_not_punct c h], ?_⟩, ?_⟩, ?_⟩
  · have := plainChar_toNat c h; omega
  · have := plainChar_toNat c h; omega
  · rw [plain_not_ws c h]

theorem plain_not_lineterm (c : Char) (h : plainChar c = true) :
    isLineTerm c = false := by
  have := plainChar_toNat c h
  simp only [isLineTerm, Bool.or_eq_false_iff, decide_eq_false_iff_not,
    charEq_iff, cvLf, cvCr]
  omega

theorem plain_ne (c : Char) (h : plainChar c = true) :
    c ≠ '(' ∧ c ≠ ')' ∧ c ≠ ':' ∧ c ≠ '\\' ∧ c ≠ '*' ∧ c ≠ '?' ∧ c ≠ '"' ∧
      c ≠ Char.ofNat 39 ∧ c ≠ ',' ∧ c ≠ '>' ∧ c ≠ '<' ∧ c ≠ '+' ∧ c ≠ '-' := by
  have := plainChar_toNat c h
  simp only [ne_eq, charEq_iff, cvLpar, cvRpar, cvColon, cvBackslash, cvStar,
    cvQmark, cvQuote, cvApos, cvComma, cvGt, cvLt, cvPlus, cvMinus]
  omega

theorem digit_plain (c : Char) (h : Char.isDigit c = true) : plainChar c = true := by
  rw [isDigit_iff] at h
  simp only [plainChar, Bool.or_eq_true, Bool.and_eq_true, decide_eq_true_eq,
    charLe_iff, cvLa, cvLz, cvUA, cvUZ, cvD0, cvD9]
  omega

theorem digit_not_ws (c : Char) (h : Char.isDigit c = true) : isJsWs c = false :=
  plain_not_ws c (digit_plain c h)

theorem digit_ne (c : Char) (h : Char.isDigit c = true) :
    c ≠ '+' ∧ c ≠ '-' ∧ c ≠ '.' ∧ c ≠ 'e' ∧ c ≠ 'E' ∧ c ≠ ':' := by
  rw [isDigit_iff] at h
  simp only [ne_eq, charEq_iff, cvPlus, cvMinus, cvDot, cvLe, cvUE, cvColon]
  omega

theorem digit_not_fieldChar (c : Char) (h : Char.isDigit c = true) :
    isFieldChar c = false := by
  rw [isDigit_iff] at h
  simp only [isFieldChar, Bool.or_eq_false_iff, Bool.and_eq_false_iff,
    decide_eq_false_iff_not, charLe_iff, charEq_iff, cvLa, cvLz, cvUA, cvUZ, cvDot]
  omega

theorem digit_not_lineterm (c : Char) (h : Char.isDigit c = true) :
    isLineTerm c = false :=
  plain_not_lineterm c (digit_plain c h)

/-! ## List and string helper lemmas -/

theorem takeWhile_app (p : Char → Bool) (xs ys : Str)
    (h : ∀ c ∈ xs, p c = true) :
    (xs ++ ys).takeWhile p = xs ++ ys.takeWhile p := by
  induction xs with
  | nil => simp
  | cons c cs ih =>
    have hc : p c = true := h c (by simp)
    simp only [List.cons_append, List.takeWhile_cons, hc, if_true]
    rw [ih (fun c hc => h c (by simp [hc]))]

theorem dropWhile_app (p : Char → Bool) (xs ys : Str)
    (h : ∀ c ∈ xs, p c = true) :
    (xs ++ ys).dropWhile p = ys.dropWhile p := by
  induction xs with
  | nil => simp
  | cons c cs ih =>
    have hc : p c = true := h c (by simp)
    simp only [List.cons_append, List.dropWhile_cons, hc, if_true]
    exact ih (fun c hc => h c (by simp [hc]))

theorem takeWhile_nil_of_head (p : Char → Bool) (ys : Str)
    (h : ∀ c ∈ ys.head?, p c = false) : ys.takeWhile p = [] := by
  cases ys with
  | nil => rfl
  | cons c cs =>
    have := h c (by simp)
    simp [List.takeWhile_cons, this]

theorem dropWhile_self_of_head (p : Char → Bool) (ys : Str)
    (h : ∀ c ∈ ys.head?, p c = false) : ys.dropWhile p = ys := by
  cases ys with
  | nil => rfl
  | cons c cs =>
    have := h c (by simp)
    simp [List.dropWhile_cons, this]

theorem dropWhile_self_of_takeWhile_nil (p : Char → Bool) (ys : Str)
    (h : ys.takeWhile p = []) : ys.dropWhile p = ys := by
  cases ys with
  | nil => rfl
  | cons c cs =>
    by_cases hc : p c = true
    · simp [List.takeWhile_cons, hc] at h
    · simp only [Bool.not_eq_true] at hc
      simp [List.dropWhile_cons, hc]

theorem head?_app_of_ne (xs ys : Str) (h : xs ≠ []) :
    (xs ++ ys).head? = xs.head? := by
  cases xs with
  | nil => exact absurd rfl h
  | cons c cs => simp

theorem getLast?_app_single (l : Str) (a : Char) :
    (l ++ [a]).getLast? = some a :=
  List.getLast?_concat l

theorem dropLast_app_single (l : Str) (a : Char) :
    (l ++ [a]).dropLast = l :=
  List.dropLast_concat

theorem jsTrim_eq_self (s : Str)
    (h1 : ∀ c ∈ s.head?, isJsWs c = false)
    (h2 : ∀ c ∈ s.getLast?, isJsWs c = false) : jsTrim s = s := by
  unfold jsTrim
  rw [dropWhile_self_of_head _ _ h1]
  rw [dropWhile_self_of_head _ _ (by rw [List.head?_reverse]; exact h2)]
  exact List.reverse_reverse s

theorem jsTrim_nows (s : Str) (h : NoWsStr s) : jsTrim s = s := by
  apply jsTrim_eq_self
  · intro c hc
    cases s with
    | nil => simp at hc
    | cons a tl => simp at hc; exact h _ (by simp [hc])
  · intro c hc
    have : c ∈ s := by
      have := List.mem_of_mem_head? (l := s.reverse) (a := c)
        (by rw [List.head?_reverse]; exact hc)
      simpa using this
    exact h _ this

theorem splitColon_app (fld v : Str) (h : ∀ c ∈ fld, c ≠ ':') :
    splitColon (fld ++ ':' :: v) = some (fld, v) := by
  induction fld with
  | nil => simp [splitColon]
  | cons c cs ih =>
    have hc : c ≠ ':' := h c (by simp)
    simp only [List.cons_append, splitColon, hc, if_false, List.append_eq]
    rw [ih (fun c hc => h c (by simp [hc]))]
    rfl

theorem unescape_cons_ne (c : Char) (cs : Str) (h : c ≠ '\\') :
    unescapeKQL (c :: cs) = c :: unescapeKQL cs := by
  rw [unescapeKQL.eq_def]
  simp [h]

theorem unescape_id (s : Str) (h : ∀ c ∈ s, c ≠ '\\') : unescapeKQL s = s := by
  induction s with
  | nil => rfl
  | cons c cs ih =>
    rw [unescape_cons_ne c cs (h c (by simp))]
    rw [ih (fun c hc => h c (by simp [hc]))]

theorem unescape_esc (d : Char) (rest : Str) (h : isPunctSpecial d = true) :
    unescapeKQL ('\\' :: d :: rest) = d :: unescapeKQL rest := by
  rw [unescapeKQL.eq_def]
  simp [h]

theorem unescape_noesc (d : Char) (rest : Str) (h : isPunctSpecial d = false) :
    unescapeKQL ('\\' :: d :: rest) = '\\' :: unescapeKQL (d :: rest) := by
  rw [unescapeKQL.eq_def]
  simp [h]

theorem escMap_id (p : Char → Bool) (s : Str) (h : ∀ c ∈ s, p c = false) :
    escMap p s = s := by
  induction s with
  | nil => rfl
  | cons c cs ih =>
    have := h c (by simp)
    simp only [escMap, this, if_false]
    rw [ih (fun c hc => h c (by simp [hc]))]
    rfl

theorem contains_false (s : Str) (a : Char) (h : ∀ c ∈ s, c ≠ a) :
    s.contains a = false := by
  induction s with
  | nil => rfl
  | cons c cs ih =>
    have hc : c ≠ a := h c (by simp)
    have hb : (a == c) = false := by simp [Ne.symm hc]
    simp only [List.contains_cons, hb, Bool.false_or]
    exact ih (fun c hc => h c (by simp [hc]))

theorem plainStr_mem (v : Str) (h : plainStr v = true) :
    ∀ c ∈ v, plainChar c = true := by
  intro c hc
  exact List.all_eq_true.mp h c hc

theorem escapeKQL_plain (v : Str) (h : plainStr v = true) : escapeKQL v = v := by
  have hmem := plainStr_mem v h
  have hstar : v.contains '*' = false :=
    contains_false v '*' (fun c hc => (plain_ne c (hmem c hc)).2.2.2.2.1)
  have hq : v.contains '?' = false :=
    contains_false v '?' (fun c hc => (plain_ne c (hmem c hc)).2.2.2.2.2.1)
  unfold escapeKQL
  rw [hstar, hq]
  simp only [Bool.or_self, Bool.false_eq_true, if_false]
  exact escMap_id _ v (fun c hc => plain_not_special c (hmem c hc))

theorem isPrefixOf_self_app (n b : Str) : n.isPrefixOf (n ++ b) = true := by
  induction n with
  | nil => simp [List.isPrefixOf]
  | cons c cs ih => simp [List.isPrefixOf, ih]

theorem containsSub_of_isPrefixOf (hay n : Str) (h : n.isPrefixOf hay = true) :
    containsSub hay n = true := by
  cases hay with
  | nil => simpa [containsSub] using h
  | cons c t => simp [containsSub, h]

theorem containsSub_app (a n b : Str) : containsSub (a ++ (n ++ b)) n = true := by
  induction a with
  | nil =>
    simp only [List.nil_append]
    exact containsSub_of_isPrefixOf _ _ (isPrefixOf_self_app n b)
  | cons c cs ih =>
    simp only [List.cons_append, containsSub, List.append_eq, ih, Bool.or_true]

theorem tokenIsAnd_eq (t : Str) :
    tokenIsAnd t = true ↔ t.map ucChar = ['A', 'N', 'D'] := by
  unfold tokenIsAnd
  rw [beq_iff_eq]
  rfl

theorem tokenIsAnd_iff (t : Str) :
    tokenIsAnd t = true ↔
      ∃ a b c, t = [a, b, c] ∧ ucChar a = 'A' ∧ ucChar b = 'N' ∧ ucChar c = 'D' := by
  rw [tokenIsAnd_eq]
  constructor
  · intro h
    have hlen : t.length = 3 := by
      have := congrArg List.length h
      simpa using this
    match t, hlen with
    | [a, b, c], _ =>
      simp only [List.map_cons, List.map_nil, List.cons.injEq, and_true] at h
      exact ⟨a, b, c, rfl, h.1, h.2.1, h.2.2⟩
  · rintro ⟨a, b, c, rfl, h1, h2, h3⟩
    simp [h1, h2, h3]

theorem tokenIsAnd_false_of_len (t : Str) (h : t.length ≠ 3) :
    tokenIsAnd t = false := by
  rw [← Bool.not_eq_true, tokenIsAnd_iff]
  rintro ⟨a, b, c, heq, -⟩
  rw [heq] at h
  simp at h

theorem tokenIsAnd_false_rpar (w : Str) :
    tokenIsAnd (w ++ [')']) = false := by
  rw [← Bool.not_eq_true, tokenIsAnd_iff]
  rintro ⟨a, b, c, heq, -, -, h3⟩
  have : c = ')' := by
    have := getLast?_app_single w ')'
    rw [heq] at this
    simpa using this
  rw [this] at h3
  simp [ucChar, charLe_iff] at h3

theorem countDepth_cons (d : Int) (c : Char) (t : Str) :
    countDepth d (c :: t) =
      countDepth (if c = '(' then d + 1 else if c = ')' then d - 1 else d) t := by
  simp [countDepth]

theorem countDepth_noparen (t : Str) (h : NoParenStr t) :
    ∀ d, countDepth d t = d := by
  induction t with
  | nil => intro d; rfl
  | cons c cs ih =>
    intro d
    have hc := h c (by simp)
    rw [countDepth_cons]
    rw [if_neg hc.1, if_neg hc.2]
    exact ih (fun c hc => h c (by simp [hc])) d

/-! ## Number lemmas -/

theorem digitChar_isDigit (d : Nat) (h : d < 10) :
    Char.isDigit (digitChar d) = true := by
  interval_cases d <;> decide

theorem digitVal_digitChar (d : Nat) (h : d < 10) :
    digitVal (digitChar d) = d := by
  interval_cases d <;> decide

theorem natToStrAux_digits (fuel n : Nat) :
    ∀ c ∈ natToStrAux fuel n, Char.isDigit c = true := by
  induction fuel generalizing n with
  | zero => intro c hc; simp [natToStrAux] at hc
  | succ fuel ih =>
    intro c hc
    by_cases hn : n = 0
    · simp [natToStrAux, hn] at hc
    · rw [natToStrAux, if_neg hn] at hc
      rcases List.mem_append.mp hc with h1 | h2
      · exact ih (n / 10) c h1
      · have : c = digitChar (n % 10) := by simpa using h2
        rw [this]
        exact digitChar_isDigit _ (Nat.mod_lt n (by omega))

theorem natToStr_digits (n : Nat) : ∀ c ∈ natToStr n, Char.isDigit c = true := by
  intro c hc
  unfold natToStr at hc
  by_cases hn : n = 0
  · rw [if_pos hn] at hc
    have : c = '0' := by simpa using hc
    rw [this]; decide
  · rw [if_neg hn] at hc
    exact natToStrAux_digits _ _ c hc

theorem digitsVal_app_single (xs : Str) (c : Char) :
    digitsVal (xs ++ [c]) = 10 * digitsVal xs + digitVal c := by
  unfold digitsVal
  rw [List.foldl_append]
  rfl

theorem digitsVal_natToStrAux (fuel n : Nat) (h : n ≤ fuel) :
    digitsVal (natToStrAux fuel n) = n := by
  induction fuel generalizing n with
  | zero =>
    have : n = 0 := by omega
    simp [natToStrAux, this, digitsVal]
  | succ fuel ih =>
    by_cases hn : n = 0
    · simp [natToStrAux, hn, digitsVal]
    · rw [natToStrAux, if_neg hn, digitsVal_app_single]
      have hlt : n / 10 ≤ fuel := by
        have h2 : n / 10 < n := Nat.div_lt_self (Nat.pos_of_ne_zero hn) (by norm_num)
        omega
      rw [ih (n / 10) hlt]
      rw [digitVal_digitChar _ (Nat.mod_lt n (by omega))]
      omega

theorem digitsVal_natToStr (n : Nat) : digitsVal (natToStr n) = n := by
  unfold natToStr
  by_cases hn : n = 0
  · rw [if_pos hn, hn]; rfl
  · rw [if_neg hn]
    exact digitsVal_natToStrAux (n + 1) n (by omega)

theorem natToStr_ne_nil (n : Nat) : natToStr n ≠ [] := by
  unfold natToStr
  by_cases hn : n = 0
  · rw [if_pos hn]; simp
  · rw [if_neg hn, natToStrAux, if_neg hn]
    simp

theorem takeWhile_all_eq_self (p : Char → Bool) (s : Str)
    (h : ∀ c ∈ s, p c = true) : s.takeWhile p = s := by
  have := takeWhile_app p s [] h
  simpa using this

theorem jsParseInt_natToStr (n : Nat) : jsParseInt (natToStr n) = .num (n : ℚ) := by
  obtain ⟨c, cs, hcons⟩ := List.exists_cons_of_ne_nil (natToStr_ne_nil n)
  have hdig := natToStr_digits n
  have hchead : Char.isDigit c = true := by
    apply hdig; rw [hcons]; simp
  have hdrop : (natToStr n).dropWhile isJsWs = natToStr n := by
    apply dropWhile_self_of_head
    intro d hd
    rw [hcons] at hd
    simp at hd
    subst hd
    exact digit_not_ws _ hchead
  have hne := digit_ne c hchead
  have hh : (natToStr n).head? = some c := by rw [hcons]; rfl
  unfold jsParseInt
  simp only [hdrop, hh]
  rw [if_neg (by simp [hne.1]), if_neg (by simp [hne.2.1])]
  unfold intCore
  rw [takeWhile_all_eq_self _ _ hdig]
  rw [if_neg (natToStr_ne_nil n), digitsVal_natToStr]

theorem dropWhile_all_eq_nil (p : Char → Bool) (s : Str)
    (h : ∀ c ∈ s, p c = true) : s.dropWhile p = [] := by
  induction s with
  | nil => rfl
  | cons c cs ih =>
    rw [List.dropWhile_cons, if_pos (h c (by simp))]
    exact ih (fun c hc => h c (by simp [hc]))

theorem floatCore_digits (s : Str) (hne : s ≠ [])
    (h : ∀ c ∈ s, Char.isDigit c = true) :
    floatCore false s = .num (digitsVal s : ℚ) := by
  unfold floatCore
  simp only [takeWhile_all_eq_self _ _ h, dropWhile_all_eq_nil _ _ h,
    List.head?_nil]
  simp [hne]

theorem jsParseFloat_natToStr (n : Nat) :
    jsParseFloat (natToStr n) = .num (n : ℚ) := by
  obtain ⟨c, cs, hcons⟩ := List.exists_cons_of_ne_nil (natToStr_ne_nil n)
  have hdig := natToStr_digits n
  have hchead : Char.isDigit c = true := by
    apply hdig; rw [hcons]; simp
  have hdrop : (natToStr n).dropWhile isJsWs = natToStr n := by
    apply dropWhile_self_of_head
    intro d hd
    rw [hcons] at hd
    simp at hd
    subst hd
    exact digit_not_ws _ hchead
  have hne := digit_ne c hchead
  have hh : (natToStr n).head? = some c := by rw [hcons]; rfl
  unfold jsParseFloat
  simp only [hdrop, hh]
  rw [if_neg (by simp [hne.1]), if_neg (by simp [hne.2.1])]
  rw [floatCore_digits _ (natToStr_ne_nil n) hdig, digitsVal_natToStr]

theorem ratFixed_int (q : ℚ) (h1 : q.den = 1) (h3 : q.num.natAbs < 10 ^ 21) :
    ratFixed q = true := by
  unfold ratFixed
  by_cases h0 : q.num = 0
  · simp [h0]
  · have h4 : 1 ≤ q.num.natAbs := Int.natAbs_pos.mpr h0
    simp only [Bool.or_eq_true, Bool.and_eq_true, decide_eq_true_eq]
    refine Or.inr ⟨by rw [h1]; omega, by rw [h1, Nat.mul_one]; exact h3⟩

theorem jsNumRender_nonnegInt (q : ℚ) (h1 : q.den = 1) (h2 : 0 ≤ q.num)
    (h3 : q.num.natAbs < 10 ^ 21) :
    jsNumRender (.num q) = natToStr q.num.toNat := by
  rw [show jsNumRender (.num q) = ratRender q from rfl]
  unfold ratRender intRender
  rw [if_pos (ratFixed_int q h1 h3), if_pos h1, if_neg (by omega)]

theorem jsNumRender_negInt (q : ℚ) (h1 : q.den = 1) (h2 : q.num < 0)
    (h3 : q.num.natAbs < 10 ^ 21) :
    jsNumRender (.num q) = '-' :: natToStr q.num.natAbs := by
  rw [show jsNumRender (.num q) = ratRender q from rfl]
  unfold ratRender intRender
  rw [if_pos (ratFixed_int q h1 h3), if_pos h1, if_pos h2]

theorem rat_coe_toNat (q : ℚ) (h1 : q.den = 1) (h2 : 0 ≤ q.num) :
    ((q.num.toNat : ℕ) : ℚ) = q := by
  have hq : ((q.num : ℤ) : ℚ) = q := by
    have := Rat.num_div_den q
    rw [h1] at this
    simpa using this
  rw [← hq]
  norm_cast
  exact Int.toNat_of_nonneg h2

theorem rat_intCast (q : ℚ) (h1 : q.den = 1) : ((q.num : ℤ) : ℚ) = q := by
  have := Rat.num_div_den q
  rw [h1] at this
  simpa using this

theorem rat_neg_natAbs (q : ℚ) (h1 : q.den = 1) (h2 : q.num < 0) :
    -((q.num.natAbs : ℕ) : ℚ) = q := by
  have h3 : ((q.num.natAbs : ℕ) : ℤ) = -q.num := by omega
  have h4 : ((q.num.natAbs : ℕ) : ℚ) = (((q.num.natAbs : ℕ) : ℤ) : ℚ) :=
    (Int.cast_natCast _).symm
  rw [h4, h3, Int.cast_neg, neg_neg]
  exact rat_intCast q h1

theorem intCore_natToStr (n : Nat) : intCore (natToStr n) = .num (n : ℚ) := by
  unfold intCore
  rw [takeWhile_all_eq_self _ _ (natToStr_digits n)]
  rw [if_neg (natToStr_ne_nil n), digitsVal_natToStr]

theorem jsParseInt_negDigits (n : Nat) :
    jsParseInt ('-' :: natToStr n) = .num (-(n : ℚ)) := by
  unfold jsParseInt
  have hdrop : ('-' :: natToStr n).dropWhile isJsWs = '-' :: natToStr n := by
    apply dropWhile_self_of_head
    intro d hd
    simp only [List.head?_cons, Option.mem_def, Option.some.injEq] at hd
    subst hd
    decide
  simp only [hdrop]
  rw [if_neg (by simp), if_pos (by simp)]
  rw [show ('-' :: natToStr n).drop 1 = natToStr n from rfl, intCore_natToStr]

theorem floatCore_digits_neg (s : Str) (hne : s ≠ [])
    (h : ∀ c ∈ s, Char.isDigit c = true) :
    floatCore true s = .num (-(digitsVal s : ℚ)) := by
  unfold floatCore
  simp only [takeWhile_all_eq_self _ _ h, dropWhile_all_eq_nil _ _ h,
    List.head?_nil]
  simp [hne]

theorem jsParseFloat_negDigits (n : Nat) :
    jsParseFloat ('-' :: natToStr n) = .num (-(n : ℚ)) := by
  unfold jsParseFloat
  have hdrop : ('-' :: natToStr n).dropWhile isJsWs = '-' :: natToStr n := by
    apply dropWhile_self_of_head
    intro d hd
    simp only [List.head?_cons, Option.mem_def, Option.some.injEq] at hd
    subst hd
    decide
  simp only [hdrop]
  rw [if_neg (by simp), if_pos (by simp)]
  rw [show ('-' :: natToStr n).drop 1 = natToStr n from rfl]
  rw [floatCore_digits_neg _ (natToStr_ne_nil n) (natToStr_digits n),
    digitsVal_natToStr]

theorem numValChar_toNat (c : Char) (h : numValChar c = true) :
    (48 ≤ c.toNat ∧ c.toNat ≤ 57) ∨ c.toNat = 45 ∨ c.toNat = 46 := by
  simp only [numValChar, Bool.or_eq_true, decide_eq_true_eq, charEq_iff,
    cvMinus, cvDot, isDigit_iff] at h
  tauto

theorem numValChar_not_ws (c : Char) (h : numValChar c = true) :
    isJsWs c = false := by
  have := numValChar_toNat c h
  apply isJsWs_eq_false_of_toNat
  omega

theorem numValChar_noparen (c : Char) (h : numValChar c = true) :
    c ≠ '(' ∧ c ≠ ')' := by
  have := numValChar_toNat c h
  simp only [ne_eq, charEq_iff, cvLpar, cvRpar]
  omega

theorem numValChar_not_lineterm (c : Char) (h : numValChar c = true) :
    isLineTerm c = false := by
  have := numValChar_toNat c h
  simp only [isLineTerm, Bool.or_eq_false_iff, decide_eq_false_iff_not,
    charEq_iff, cvLf, cvCr]
  omega

theorem digit_numValChar (c : Char) (h : Char.isDigit c = true) :
    numValChar c = true := by
  simp [numValChar, h]

/-- Every bound allowed by `intBound` renders as a plain (possibly
negative) decimal numeral that both `parseInt` and `parseFloat` read back
exactly. -/
theorem int_render_spec (q : ℚ) (h1 : q.den = 1) (h3 : q.num.natAbs < 10 ^ 21) :
    ∃ v : Str, jsNumRender (.num q) = v ∧ v ≠ [] ∧
      (∀ c ∈ v, numValChar c = true) ∧ jsParseInt v = .num q ∧
      jsParseFloat v = .num q := by
  by_cases h2 : 0 ≤ q.num
  · refine ⟨natToStr q.num.toNat, jsNumRender_nonnegInt q h1 h2 h3,
      natToStr_ne_nil _, ?_, ?_, ?_⟩
    · intro c hc
      exact digit_numValChar c (natToStr_digits _ c hc)
    · rw [jsParseInt_natToStr, rat_coe_toNat q h1 h2]
    · rw [jsParseFloat_natToStr, rat_coe_toNat q h1 h2]
  · push_neg at h2
    refine ⟨'-' :: natToStr q.num.natAbs, jsNumRender_negInt q h1 h2 h3,
      by simp, ?_, ?_, ?_⟩
    · intro c hc
      rcases List.mem_cons.mp hc with rfl | hc
      · decide
      · exact digit_numValChar c (natToStr_digits _ c hc)
    · rw [jsParseInt_negDigits, rat_neg_natAbs q h1 h2]
    · rw [jsParseFloat_negDigits, rat_neg_natAbs q h1 h2]

theorem digitsVal_foldl (s : Str) : ∀ (a : Nat),
    s.foldl (fun x c => 10 * x + digitVal c) a = a * 10 ^ s.length + digitsVal s := by
  induction s with
  | nil => intro a; simp [digitsVal]
  | cons c t ih =>
    intro a
    show t.foldl _ (10 * a + digitVal c) = _
    rw [ih (10 * a + digitVal c)]
    have h2 : digitsVal (c :: t) = digitVal c * 10 ^ t.length + digitsVal t := by
      show t.foldl _ (10 * 0 + digitVal c) = _
      rw [ih (10 * 0 + digitVal c)]
      ring
    rw [h2]
    simp only [List.length_cons]
    ring

/-- `fracDigits` emits decimal digits whose value is exactly the
remainder: `digitsVal F * den = r * 10 ^ |F|`, provided the expansion
terminates within the fuel (`den ∣ 10 ^ fuel · r`). -/
theorem fracDigits_spec : ∀ (fuel r den : Nat), 0 < den → r < den →
    (10 ^ fuel * r) % den = 0 →
    (∀ c ∈ fracDigits fuel r den, Char.isDigit c = true) ∧
    digitsVal (fracDigits fuel r den) * den =
      r * 10 ^ (fracDigits fuel r den).length ∧
    (r ≠ 0 → fracDigits fuel r den ≠ []) := by
  intro fuel
  induction fuel with
  | zero =>
    intro r den hden hr hdvd
    have hr0 : r = 0 := by
      rw [pow_zero, one_mul] at hdvd
      exact Nat.eq_zero_of_dvd_of_lt (Nat.dvd_of_mod_eq_zero hdvd) hr
    subst hr0
    exact ⟨by simp [fracDigits], by simp [fracDigits, digitsVal],
      fun h => absurd rfl h⟩
  | succ fuel ih =>
    intro r den hden hr hdvd
    by_cases hr0 : r = 0
    · subst hr0
      rw [show fracDigits (fuel + 1) 0 den = [] from by
        rw [fracDigits, if_pos rfl]]
      exact ⟨by simp, by simp [digitsVal], fun h => absurd rfl h⟩
    · have hstep : fracDigits (fuel + 1) r den =
          digitChar (10 * r / den) :: fracDigits fuel (10 * r % den) den := by
        rw [fracDigits, if_neg hr0]
      have hr' : 10 * r % den < den := Nat.mod_lt _ hden
      have hd10 : 10 * r / den < 10 := by
        rw [Nat.div_lt_iff_lt_mul hden]
        omega
      have hdvd' : (10 ^ fuel * (10 * r % den)) % den = 0 := by
        have hd : den ∣ 10 ^ (fuel + 1) * r := Nat.dvd_of_mod_eq_zero hdvd
        have heq : 10 ^ (fuel + 1) * r =
            den * (10 ^ fuel * (10 * r / den)) + 10 ^ fuel * (10 * r % den) := by
          have h10 : den * (10 * r / den) + 10 * r % den = 10 * r :=
            Nat.div_add_mod _ _
          calc 10 ^ (fuel + 1) * r = 10 ^ fuel * (10 * r) := by ring
            _ = 10 ^ fuel * (den * (10 * r / den) + 10 * r % den) := by rw [h10]
            _ = den * (10 ^ fuel * (10 * r / den)) +
                10 ^ fuel * (10 * r % den) := by ring
        rw [heq] at hd
        exact Nat.mod_eq_zero_of_dvd
          ((Nat.dvd_add_right (dvd_mul_right den _)).mp hd)
      obtain ⟨hdig, hval, hne⟩ := ih (10 * r % den) den hden hr' hdvd'
      refine ⟨?_, ?_, ?_⟩
      · intro c hc
        rw [hstep] at hc
        rcases List.mem_cons.mp hc with rfl | hc
        · exact digitChar_isDigit _ hd10
        · exact hdig c hc
      · rw [hstep]
        set F := fracDigits fuel (10 * r % den) den with hF
        have hdv : digitsVal (digitChar (10 * r / den) :: F) =
            (10 * r / den) * 10 ^ F.length + digitsVal F := by
          show F.foldl _ (10 * 0 + digitVal (digitChar (10 * r / den))) = _
          rw [digitsVal_foldl, digitVal_digitChar _ hd10]
          ring
        rw [hdv, List.length_cons]
        have hdm : den * (10 * r / den) + 10 * r % den = 10 * r :=
          Nat.div_add_mod _ _
        calc ((10 * r / den) * 10 ^ F.length + digitsVal F) * den
            = (10 * r / den) * den * 10 ^ F.length + digitsVal F * den := by ring
          _ = (10 * r / den) * den * 10 ^ F.length +
              (10 * r % den) * 10 ^ F.length := by rw [hval]
          _ = (den * (10 * r / den) + 10 * r % den) * 10 ^ F.length := by ring
          _ = (10 * r) * 10 ^ F.length := by rw [hdm]
          _ = r * 10 ^ (F.length + 1) := by ring
      · intro _
        rw [hstep]
        simp

theorem floatCore_frac (neg : Bool) (I F : Str) (hIne : I ≠ []) (hFne : F ≠ [])
    (hI : ∀ c ∈ I, Char.isDigit c = true)
    (hF : ∀ c ∈ F, Char.isDigit c = true) :
    floatCore neg (I ++ '.' :: F) =
      .num (if neg then
          -((digitsVal I : ℚ) + (digitsVal F : ℚ) / (10 : ℚ) ^ F.length)
        else (digitsVal I : ℚ) + (digitsVal F : ℚ) / (10 : ℚ) ^ F.length) := by
  have hip : (I ++ '.' :: F).takeWhile Char.isDigit = I := by
    rw [takeWhile_app _ _ _ hI,
      takeWhile_nil_of_head _ ('.' :: F)
        (by intro d hd
            simp only [List.head?_cons, Option.mem_def, Option.some.injEq] at hd
            subst hd
            decide)]
    simp
  have hr2 : (I ++ '.' :: F).dropWhile Char.isDigit = '.' :: F := by
    rw [dropWhile_app _ _ _ hI]
    exact dropWhile_self_of_head _ ('.' :: F)
      (by intro d hd
          simp only [List.head?_cons, Option.mem_def, Option.some.injEq] at hd
          subst hd
          decide)
  have hfp : (('.' :: F : Str).drop 1).takeWhile Char.isDigit = F := by
    rw [show ('.' :: F : Str).drop 1 = F from rfl]
    exact takeWhile_all_eq_self _ _ hF
  have hr3 : (('.' :: F : Str).drop 1).dropWhile Char.isDigit = [] := by
    rw [show ('.' :: F : Str).drop 1 = F from rfl]
    exact dropWhile_all_eq_nil _ _ hF
  unfold floatCore
  simp only [hip, hr2, List.head?_cons, hfp, hr3, Option.some.injEq,
    List.head?_nil, reduceCtorEq, if_true, if_false, or_self, false_or,
    or_false, hIne, hFne, false_and, and_false, true_and, and_true,
    eq_self_iff_true, Option.getD_none, zpow_zero, mul_one]

theorem jsParseFloat_fracPos (I F : Str) (hIne : I ≠ []) (hFne : F ≠ [])
    (hI : ∀ c ∈ I, Char.isDigit c = true)
    (hF : ∀ c ∈ F, Char.isDigit c = true) :
    jsParseFloat (I ++ '.' :: F) =
      .num ((digitsVal I : ℚ) + (digitsVal F : ℚ) / (10 : ℚ) ^ F.length) := by
  obtain ⟨c, I2, rfl⟩ := List.exists_cons_of_ne_nil hIne
  have hc : Char.isDigit c = true := hI c (by simp)
  have hne := digit_ne c hc
  unfold jsParseFloat
  have hdrop : ((c :: I2) ++ '.' :: F).dropWhile isJsWs =
      (c :: I2) ++ '.' :: F := by
    apply dropWhile_self_of_head
    intro d hd
    rw [List.cons_append, List.head?_cons] at hd
    simp only [Option.mem_def, Option.some.injEq] at hd
    subst hd
    exact digit_not_ws _ hc
  simp only [hdrop]
  rw [if_neg (by simp [hne.1]), if_neg (by simp [hne.2.1])]
  rw [floatCore_frac false (c :: I2) F hIne hFne hI hF]
  rw [if_neg (by simp)]

theorem jsParseFloat_fracNeg (I F : Str) (hIne : I ≠ []) (hFne : F ≠ [])
    (hI : ∀ c ∈ I, Char.isDigit c = true)
    (hF : ∀ c ∈ F, Char.isDigit c = true) :
    jsParseFloat ('-' :: (I ++ '.' :: F)) =
      .num (-((digitsVal I : ℚ) + (digitsVal F : ℚ) / (10 : ℚ) ^ F.length)) := by
  unfold jsParseFloat
  have hdrop : ('-' :: (I ++ '.' :: F)).dropWhile isJsWs =
      '-' :: (I ++ '.' :: F) := by
    apply dropWhile_self_of_head
    intro d hd
    simp only [List.head?_cons, Option.mem_def, Option.some.injEq] at hd
    subst hd
    decide
  simp only [hdrop]
  rw [if_neg (by simp), if_pos (by simp)]
  rw [show ('-' :: (I ++ '.' :: F)).drop 1 = I ++ '.' :: F from rfl]
  rw [floatCore_frac true I F hIne hFne hI hF]
  rw [if_pos rfl]

/-- Every bound allowed by `floatBound` renders as a plain decimal
numeral (possibly signed, possibly with a fraction part) that
`parseFloat` reads back exactly. -/
theorem float_render_spec (q : ℚ) (hden : 1000000 % q.den = 0)
    (habs : q.num.natAbs < 10 ^ 21 * q.den) :
    ∃ v : Str, jsNumRender (.num q) = v ∧ v ≠ [] ∧
      (∀ c ∈ v, numValChar c = true) ∧ jsParseFloat v = .num q := by
  have hdpos : 0 < q.den := q.pos
  by_cases h1 : q.den = 1
  · obtain ⟨v, hv, hvne, hvc, _, hpf⟩ :=
      int_render_spec q h1 (by rw [h1, Nat.mul_one] at habs; exact habs)
    exact ⟨v, hv, hvne, hvc, hpf⟩
  · have hden1 : 1 < q.den := by omega
    have hnum0 : q.num ≠ 0 := by
      intro h0
      have hq0 : q = 0 := Rat.num_eq_zero.mp h0
      rw [hq0, show (0 : ℚ).den = 1 from rfl] at hden1
      omega
    have hfix : ratFixed q = true := by
      unfold ratFixed
      simp only [Bool.or_eq_true, Bool.and_eq_true, decide_eq_true_eq]
      refine Or.inr ⟨?_, habs⟩
      have hd6 : q.den ∣ 1000000 := Nat.dvd_of_mod_eq_zero hden
      have hle : q.den ≤ 1000000 := Nat.le_of_dvd (by norm_num) hd6
      have h4 : 1 ≤ q.num.natAbs := Int.natAbs_pos.mpr hnum0
      calc q.den ≤ 1000000 := hle
        _ ≤ 1000000 * q.num.natAbs :=
          le_mul_of_one_le_right (Nat.zero_le _) h4
    have hrend : jsNumRender (.num q) =
        (if q < 0 then ['-'] else []) ++
          (natToStr (q.num.natAbs / q.den) ++
            '.' :: fracDigits 100 (q.num.natAbs % q.den) q.den) := by
      rw [show jsNumRender (.num q) = ratRender q from rfl]
      unfold ratRender
      rw [if_pos hfix, if_neg h1, List.append_assoc]
    have hrlt : q.num.natAbs % q.den < q.den := Nat.mod_lt _ hdpos
    have hrne : q.num.natAbs % q.den ≠ 0 := by
      intro h0
      have hdvd : q.den ∣ q.num.natAbs := Nat.dvd_of_mod_eq_zero h0
      have hcop : Nat.gcd q.num.natAbs q.den = 1 := q.reduced
      have hdg : q.den ∣ Nat.gcd q.num.natAbs q.den := Nat.dvd_gcd hdvd dvd_rfl
      rw [hcop] at hdg
      have := Nat.le_of_dvd one_pos hdg
      omega
    have hdvd100 : (10 ^ 100 * (q.num.natAbs % q.den)) % q.den = 0 := by
      have hd6 : q.den ∣ 1000000 := Nat.dvd_of_mod_eq_zero hden
      have hdp : q.den ∣ 10 ^ 100 := by
        have h6 : (1000000 : ℕ) = 10 ^ 6 := by norm_num
        exact dvd_trans (h6 ▸ hd6) (pow_dvd_pow 10 (by norm_num))
      exact Nat.mod_eq_zero_of_dvd (Dvd.dvd.mul_right hdp _)
    obtain ⟨hFdig, hFval, hFne0⟩ :=
      fracDigits_spec 100 (q.num.natAbs % q.den) q.den hdpos hrlt hdvd100
    have hFne : fracDigits 100 (q.num.natAbs % q.den) q.den ≠ [] := hFne0 hrne
    have hIdig := natToStr_digits (q.num.natAbs / q.den)
    have hIne := natToStr_ne_nil (q.num.natAbs / q.den)
    have hqval : (digitsVal (natToStr (q.num.natAbs / q.den)) : ℚ) +
        (digitsVal (fracDigits 100 (q.num.natAbs % q.den) q.den) : ℚ) /
          (10 : ℚ) ^ (fracDigits 100 (q.num.natAbs % q.den) q.den).length =
        ((q.num.natAbs : ℕ) : ℚ) / (q.den : ℕ) := by
      rw [digitsVal_natToStr]
      have hfq : (digitsVal (fracDigits 100 (q.num.natAbs % q.den) q.den) : ℚ) /
          (10 : ℚ) ^ (fracDigits 100 (q.num.natAbs % q.den) q.den).length =
          ((q.num.natAbs % q.den : ℕ) : ℚ) / (q.den : ℕ) := by
        rw [div_eq_div_iff (by positivity) (by positivity)]
        exact_mod_cast hFval
      rw [hfq]
      have hnd : ((q.num.natAbs / q.den : ℕ) : ℚ) * (q.den : ℕ) +
          ((q.num.natAbs % q.den : ℕ) : ℚ) = ((q.num.natAbs : ℕ) : ℚ) := by
        push_cast
        rw [mul_comm]
        exact_mod_cast Nat.div_add_mod q.num.natAbs q.den
      have hdq : ((q.den : ℕ) : ℚ) ≠ 0 := by positivity
      field_simp
      linarith [hnd]
    have hvchars : ∀ c ∈ (natToStr (q.num.natAbs / q.den) ++
        '.' :: fracDigits 100 (q.num.natAbs % q.den) q.den),
        numValChar c = true := by
      intro c hc
      rcases List.mem_append.mp hc with hc | hc
      · exact digit_numValChar c (hIdig c hc)
      · rcases List.mem_cons.mp hc with rfl | hc
        · decide
        · exact digit_numValChar c (hFdig c hc)
    by_cases hq0 : q < 0
    · refine ⟨'-' :: (natToStr (q.num.natAbs / q.den) ++
        '.' :: fracDigits 100 (q.num.natAbs % q.den) q.den), ?_, by simp, ?_, ?_⟩
      · rw [hrend, if_pos hq0]
        rfl
      · intro c hc
        rcases List.mem_cons.mp hc with rfl | hc
        · decide
        · exact hvchars c hc
      · rw [jsParseFloat_fracNeg _ _ hIne hFne hIdig hFdig, hqval]
        have hnlt : q.num < 0 := by
          by_contra hge
          push_neg at hge
          exact absurd (Rat.num_nonneg.mp hge) (not_le.mpr hq0)
        have habs2 : ((q.num.natAbs : ℕ) : ℚ) = -((q.num : ℤ) : ℚ) := by
          have h3 : ((q.num.natAbs : ℕ) : ℤ) = -q.num := by omega
          have h4 : ((q.num.natAbs : ℕ) : ℚ) =
              (((q.num.natAbs : ℕ) : ℤ) : ℚ) := (Int.cast_natCast _).symm
          rw [h4, h3, Int.cast_neg]
        rw [habs2, neg_div, neg_neg, Rat.num_div_den]
    · refine ⟨natToStr (q.num.natAbs / q.den) ++
        '.' :: fracDigits 100 (q.num.natAbs % q.den) q.den, ?_, by simp, hvchars, ?_⟩
      · rw [hrend, if_neg hq0, List.nil_append]
      · rw [jsParseFloat_fracPos _ _ hIne hFne hIdig hFdig, hqval]
        have hge : 0 ≤ q.num := Rat.num_nonneg.mpr (not_lt.mp hq0)
        have habs2 : ((q.num.natAbs : ℕ) : ℚ) = ((q.num : ℤ) : ℚ) := by
          have h3 : ((q.num.natAbs : ℕ) : ℤ) = q.num := by omega
          have h4 : ((q.num.natAbs : ℕ) : ℚ) =
              (((q.num.natAbs : ℕ) : ℤ) : ℚ) := (Int.cast_natCast _).symm
          rw [h4, h3]
        rw [habs2, Rat.num_div_den]

/-! ## Serializer shape lemmas -/

theorem buildRangeQuery_min (f : Str) (m : JsNum) :
    buildRangeQuery f ⟨some m, none⟩ = some (f ++ ">=".toList ++ jsNumRender m) := by
  simp [buildRangeQuery, joinSep]

theorem buildRangeQuery_max (f : Str) (m : JsNum) :
    buildRangeQuery f ⟨none, some m⟩ = some (f ++ "<=".toList ++ jsNumRender m) := by
  simp [buildRangeQuery, joinSep]

theorem buildRangeQuery_both (f : Str) (m M : JsNum) :
    buildRangeQuery f ⟨some m, some M⟩ =
      some ('(' :: ((f ++ ">=".toList ++ jsNumRender m) ++ " AND ".toList ++
        (f ++ "<=".toList ++ jsNumRender M)) ++ [')']) := by
  simp [buildRangeQuery, joinSep]

theorem buildRangeQuery_none (f : Str) :
    buildRangeQuery f ⟨none, none⟩ = none := by
  simp [buildRangeQuery]

theorem buildDateRangeQuery_start (fb : Str → Str) (f s : Str) (h : s ≠ []) :
    buildDateRangeQuery fb f ⟨s, []⟩ =
      some (f ++ ">=".toList ++ formatDateForKQL fb s) := by
  simp [buildDateRangeQuery, joinSep, h]

theorem buildDateRangeQuery_stop (fb : Str → Str) (f e : Str) (h : e ≠ []) :
    buildDateRangeQuery fb f ⟨[], e⟩ =
      some (f ++ "<=".toList ++ formatDateForKQL fb e) := by
  simp [buildDateRangeQuery, joinSep, h]

theorem buildDateRangeQuery_both (fb : Str → Str) (f s e : Str)
    (hs : s ≠ []) (he : e ≠ []) :
    buildDateRangeQuery fb f ⟨s, e⟩ =
      some ('(' :: ((f ++ ">=".toList ++ formatDateForKQL fb s) ++ " AND ".toList ++
        (f ++ "<=".toList ++ formatDateForKQL fb e)) ++ [')']) := by
  simp [buildDateRangeQuery, joinSep, hs, he]

theorem buildDateRangeQuery_none (fb : Str → Str) (f : Str) :
    buildDateRangeQuery fb f ⟨[], []⟩ = none := by
  simp [buildDateRangeQuery]

/-! ## Scanner lemmas -/

theorem sag_succ_cons (fuel : Nat) (cur : Str) (c : Char) (cs : Str) :
    splitAndGoF (fuel + 1) cur (c :: cs) =
      if isJsWs c then
        match matchSep (c :: cs) with
        | some (cap, rest) => cur :: cap :: splitAndGoF fuel [] rest
        | none =>
          splitAndGoF fuel (cur ++ (c :: cs).takeWhile isJsWs)
            ((c :: cs).dropWhile isJsWs)
      else splitAndGoF fuel (cur ++ [c]) cs := rfl

theorem sag_succ_nil (fuel : Nat) (cur : Str) :
    splitAndGoF (fuel + 1) cur [] = [cur] := rfl

theorem matchSep_len (s : Str) (cap rest : Str)
    (h : matchSep s = some (cap, rest)) : rest.length + 4 ≤ s.length := by
  unfold matchSep at h
  by_cases hw : s.takeWhile isJsWs = []
  · rw [if_pos hw] at h; simp at h
  · rw [if_neg hw] at h
    by_cases hc : ((((s.dropWhile isJsWs).take 3).map ucChar == "AND".toList) &&
        ((s.dropWhile isJsWs).drop 3).head?.any isJsWs) = true
    · rw [if_pos hc] at h
      simp only [Option.some.injEq, Prod.mk.injEq] at h
      have hrest : rest = ((s.dropWhile isJsWs).drop 3).dropWhile isJsWs := h.2.symm
      have hand : (((s.dropWhile isJsWs).take 3).map ucChar == "AND".toList) = true :=
        (Bool.and_eq_true_iff.mp hc).1
      have h3 : ((s.dropWhile isJsWs).take 3).length = 3 := by
        have := congrArg List.length (beq_iff_eq.mp hand)
        simpa using this
      have h3' : 3 ≤ (s.dropWhile isJsWs).length := by
        rw [List.length_take] at h3
        omega
      have hlen1 : rest.length ≤ (s.dropWhile isJsWs).length - 3 := by
        rw [hrest]
        have h1 := (List.dropWhile_sublist
          (p := isJsWs) (l := (s.dropWhile isJsWs).drop 3)).length_le
        rw [List.length_drop] at h1
        exact h1
      have hs : (s.takeWhile isJsWs).length + (s.dropWhile isJsWs).length
          = s.length := by
        rw [← List.length_append, List.takeWhile_append_dropWhile]
      have hw1 : 1 ≤ (s.takeWhile isJsWs).length := List.length_pos.mpr hw
      omega
    · rw [if_neg hc] at h; simp at h

theorem sag_fuel : ∀ n m cur s, s.length < n → s.length < m →
    splitAndGoF n cur s = splitAndGoF m cur s := by
  intro n
  induction n with
  | zero => intro m cur s h1 h2; omega
  | succ n ih =>
    intro m cur s h1 h2
    cases m with
    | zero => omega
    | succ m =>
      cases s with
      | nil => rfl
      | cons c cs =>
        rw [sag_succ_cons, sag_succ_cons]
        by_cases hws : isJsWs c = true
        · rw [if_pos hws, if_pos hws]
          cases hm : matchSep (c :: cs) with
          | none =>
            have hlt : ((c :: cs).dropWhile isJsWs).length < n ∧
                ((c :: cs).dropWhile isJsWs).length < m := by
              have heq : (c :: cs).dropWhile isJsWs = cs.dropWhile isJsWs := by
                rw [List.dropWhile_cons, if_pos hws]
              rw [heq]
              have := (List.dropWhile_sublist (p := isJsWs) (l := cs)).length_le
              simp only [List.length_cons] at h1 h2
              omega
            exact ih m _ _ hlt.1 hlt.2
          | some caprest =>
            obtain ⟨cap, rest⟩ := caprest
            have := matchSep_len _ _ _ hm
            simp only [List.length_cons] at h1 h2 this
            show cur :: cap :: splitAndGoF n [] rest =
              cur :: cap :: splitAndGoF m [] rest
            rw [ih m [] rest (by omega) (by omega)]
        · rw [if_neg hws, if_neg hws]
          apply ih
          · simp only [List.length_cons] at h1; omega
          · simp only [List.length_cons] at h2; omega

theorem sag_app_nonws : ∀ (p : Str), NoWsStr p → ∀ cur rest n m,
    (p ++ rest).length < n → rest.length < m →
    splitAndGoF n cur (p ++ rest) = splitAndGoF m (cur ++ p) rest := by
  intro p
  induction p with
  | nil =>
    intro _ cur rest n m h1 h2
    simp only [List.nil_append] at h1 ⊢
    rw [List.append_nil]
    exact sag_fuel n m cur rest h1 h2
  | cons c p' ih =>
    intro h cur rest n m h1 h2
    cases n with
    | zero => simp at h1
    | succ n =>
      rw [List.cons_append, sag_succ_cons]
      rw [if_neg (by rw [h c (by simp)]; simp)]
      rw [ih (fun d hd => h d (by simp [hd])) (cur ++ [c]) rest n m
        (by simpa using Nat.lt_of_succ_lt_succ (by simpa using h1)) h2]
      rw [List.append_assoc]
      rfl

theorem wsSpace : isJsWs ' ' = true := by decide

theorem matchSep_sepApp (rest : Str) (h : rest.takeWhile isJsWs = []) :
    matchSep (" AND ".toList ++ rest) = some ("AND".toList, rest) := by
  have hA : isJsWs 'A' = false := by decide
  have hsep : (" AND ".toList ++ rest) = ' ' :: 'A' :: 'N' :: 'D' :: ' ' :: rest := rfl
  have htake : (' ' :: 'A' :: 'N' :: 'D' :: ' ' :: rest).takeWhile isJsWs = [' '] := by
    rw [List.takeWhile_cons, if_pos wsSpace, List.takeWhile_cons, if_neg (by rw [hA]; simp)]
  have hdrop : (' ' :: 'A' :: 'N' :: 'D' :: ' ' :: rest).dropWhile isJsWs =
      'A' :: 'N' :: 'D' :: ' ' :: rest := by
    rw [List.dropWhile_cons, if_pos wsSpace, List.dropWhile_cons, if_neg (by rw [hA]; simp)]
  rw [hsep]
  unfold matchSep
  simp only [htake, hdrop, List.take_succ_cons, List.take_zero, List.drop_succ_cons,
    List.drop_zero, List.head?_cons]
  rw [if_neg (by simp)]
  rw [if_pos (by decide)]
  rw [List.dropWhile_cons, if_pos wsSpace, dropWhile_self_of_takeWhile_nil _ _ h]
  rfl

theorem sag_sepApp (cur rest : Str) (n m : Nat) (h : rest.takeWhile isJsWs = [])
    (h1 : (" AND ".toList ++ rest).length < n) (h2 : rest.length < m) :
    splitAndGoF n cur (" AND ".toList ++ rest) =
      cur :: "AND".toList :: splitAndGoF m [] rest := by
  cases n with
  | zero => simp at h1
  | succ n =>
    have hsep : (" AND ".toList ++ rest) = ' ' :: ('A' :: 'N' :: 'D' :: ' ' :: rest) := rfl
    rw [hsep, sag_succ_cons, if_pos wsSpace]
    rw [show (' ' :: ('A' :: 'N' :: 'D' :: ' ' :: rest)) = " AND ".toList ++ rest from rfl]
    rw [matchSep_sepApp rest h]
    have hlen : rest.length < n := by
      simp only [List.length_append, List.length_cons] at h1
      simp at h1
      omega
    show cur :: "AND".toList :: splitAndGoF n [] rest =
      cur :: "AND".toList :: splitAndGoF m [] rest
    rw [sag_fuel n m [] rest hlen h2]

theorem jsSplitAnd_plain (p : Str) (h : NoWsStr p) : jsSplitAnd p = [p] := by
  unfold jsSplitAnd
  have := sag_app_nonws p h [] [] (p.length + 1) 1
    (by simp) (by simp)
  rw [List.append_nil] at this
  rw [this]
  rfl

/-! ## Fold lemmas for splitKqlParts -/

theorem tokenIsAnd_nil : tokenIsAnd ([] : Str) = false := by decide

theorem tokenIsAnd_and : tokenIsAnd ("AND".toList) = true := by decide

theorem tokenIsAnd_false_lparen (t : Str) : tokenIsAnd ('(' :: t) = false := by
  rw [← Bool.not_eq_true, tokenIsAnd_iff]
  rintro ⟨a, b, c, heq, h1, -, -⟩
  have ha : a = '(' := by injection heq with h' _; exact h'.symm
  rw [ha] at h1
  simp [ucChar, charLe_iff] at h1

theorem splitFoldGo_nil (parts : List Str) (cur : Str) (depth : Int) :
    splitFoldGo [] parts cur depth =
      if jsTrim cur ≠ [] then parts ++ [jsTrim cur] else parts := rfl

theorem splitFoldGo_text (t : Str) (ts : List Str) (parts : List Str) (cur : Str)
    (depth : Int) (hnota : tokenIsAnd t = false) :
    splitFoldGo (t :: ts) parts cur depth =
      splitFoldGo ts parts (cur ++ t) (countDepth depth t) := by
  simp only [splitFoldGo, hnota, Bool.false_eq_true, if_false]

theorem splitFoldGo_and0 (t : Str) (ts : List Str) (parts : List Str) (cur : Str)
    (ha : tokenIsAnd t = true) :
    splitFoldGo (t :: ts) parts cur 0 =
      splitFoldGo ts (if jsTrim cur ≠ [] then parts ++ [jsTrim cur] else parts)
        [] 0 := by
  simp only [splitFoldGo, ha, if_true]

theorem splitFoldGo_and_pos (t : Str) (ts : List Str) (parts : List Str)
    (cur : Str) (depth : Int) (ha : tokenIsAnd t = true) (hd : depth ≠ 0) :
    splitFoldGo (t :: ts) parts cur depth =
      splitFoldGo ts parts (cur ++ " AND ".toList) depth := by
  simp only [splitFoldGo, ha, if_true]
  rw [if_neg hd]

theorem fold_plain_end (p : Str) (acc : List Str) (hp : PlainPart p) :
    splitFoldGo [p] acc [] 0 = acc ++ [p] := by
  obtain ⟨hne, hws, hpar, hnota⟩ := hp
  rw [splitFoldGo_text _ _ _ _ _ hnota, splitFoldGo_nil, List.nil_append,
    jsTrim_nows p hws, if_pos hne]

theorem fold_plain_mid (p cap : Str) (ts : List Str) (acc : List Str)
    (hp : PlainPart p) (hcap : tokenIsAnd cap = true) :
    splitFoldGo (p :: cap :: ts) acc [] 0 = splitFoldGo ts (acc ++ [p]) [] 0 := by
  obtain ⟨hne, hws, hpar, hnota⟩ := hp
  rw [splitFoldGo_text _ _ _ _ _ hnota, List.nil_append,
    countDepth_noparen p hpar 0, splitFoldGo_and0 _ _ _ _ hcap,
    jsTrim_nows p hws, if_pos hne]

theorem group_cur_eq (w1 w2 : Str) :
    (([] ++ ('(' :: w1)) ++ " AND ".toList) ++ (w2 ++ [')']) =
      '(' :: (w1 ++ " AND ".toList ++ w2) ++ [')'] := by
  simp [List.append_assoc]

theorem group_trim (w1 w2 : Str) :
    jsTrim ('(' :: (w1 ++ " AND ".toList ++ w2) ++ [')']) =
      '(' :: (w1 ++ " AND ".toList ++ w2) ++ [')'] := by
  apply jsTrim_eq_self
  · intro c hc
    rw [head?_app_of_ne _ _ (by simp)] at hc
    simp only [List.head?_cons, Option.mem_def, Option.some.injEq] at hc
    subst hc
    decide
  · intro c hc
    rw [getLast?_app_single] at hc
    simp only [Option.mem_def, Option.some.injEq] at hc
    subst hc
    decide

theorem group_ne_nil (w1 w2 : Str) :
    '(' :: (w1 ++ " AND ".toList ++ w2) ++ [')'] ≠ ([] : Str) := by
  simp

theorem fold_group_core (w1 w2 : Str) (ts : List Str) (acc : List Str)
    (hw1p : NoParenStr w1) (hw2p : NoParenStr w2) :
    splitFoldGo (('(' :: w1) :: "AND".toList :: (w2 ++ [')']) :: ts) acc [] 0 =
      splitFoldGo ts acc
        ('(' :: (w1 ++ " AND ".toList ++ w2) ++ [')'])
        0 := by
  rw [splitFoldGo_text _ _ _ _ _ (tokenIsAnd_false_lparen w1)]
  have hd1 : countDepth 0 ('(' :: w1) = 1 := by
    rw [countDepth_cons, if_pos rfl, countDepth_noparen w1 hw1p]
    norm_num
  rw [hd1, splitFoldGo_and_pos _ _ _ _ _ tokenIsAnd_and (by norm_num),
    splitFoldGo_text _ _ _ _ _ (tokenIsAnd_false_rpar w2)]
  have hd2 : countDepth 1 (w2 ++ [')']) = 0 := by
    have : ∀ d, countDepth d (w2 ++ [')']) = d - 1 := by
      intro d
      unfold countDepth
      rw [List.foldl_append]
      have hyp : w2.foldl (fun d c => if c = '(' then d + 1 else
          if c = ')' then d - 1 else d) d = d := countDepth_noparen w2 hw2p d
      rw [hyp]
      simp
    rw [this]
    norm_num
  rw [hd2, group_cur_eq]

theorem fold_group_end (w1 w2 : Str) (acc : List Str)
    (hw1p : NoParenStr w1) (hw2p : NoParenStr w2) :
    splitFoldGo [('(' :: w1), "AND".toList, (w2 ++ [')'])] acc [] 0 =
      acc ++ ['(' :: (w1 ++ " AND ".toList ++ w2) ++ [')']] := by
  rw [fold_group_core w1 w2 [] acc hw1p hw2p, splitFoldGo_nil, group_trim,
    if_pos (group_ne_nil w1 w2)]

theorem fold_group_mid (w1 w2 cap : Str) (ts : List Str) (acc : List Str)
    (hw1p : NoParenStr w1) (hw2p : NoParenStr w2) (hcap : tokenIsAnd cap = true) :
    splitFoldGo (('(' :: w1) :: "AND".toList :: (w2 ++ [')']) :: cap :: ts) acc [] 0 =
      splitFoldGo ts (acc ++ ['(' :: (w1 ++ " AND ".toList ++ w2) ++ [')']]) [] 0 := by
  rw [fold_group_core w1 w2 (cap :: ts) acc hw1p hw2p,
    splitFoldGo_and0 _ _ _ _ hcap, group_trim, if_pos (group_ne_nil w1 w2)]

/-! ## Scanning a joined clause list -/

theorem scan_plain_mid (p rest : Str) (hws : NoWsStr p)
    (hrest : rest.takeWhile isJsWs = []) :
    jsSplitAnd (p ++ (" AND ".toList ++ rest)) =
      p :: "AND".toList :: jsSplitAnd rest := by
  unfold jsSplitAnd
  rw [sag_app_nonws p hws [] (" AND ".toList ++ rest) _
    ((" AND ".toList ++ rest).length + 1) (by omega) (by omega)]
  rw [List.nil_append]
  rw [sag_sepApp p rest _ (rest.length + 1) hrest (by omega) (by omega)]

theorem nonws_app_rpar (w : Str) (h : NoWsStr w) : NoWsStr (w ++ [')']) := by
  intro c hc
  rcases List.mem_append.mp hc with h1 | h2
  · exact h c h1
  · have : c = ')' := by simpa using h2
    rw [this]; decide

theorem nonws_lparen_cons (w : Str) (h : NoWsStr w) : NoWsStr ('(' :: w) := by
  intro c hc
  rcases List.mem_cons.mp hc with h1 | h2
  · rw [h1]; decide
  · exact h c h2

theorem takeWhile_ws_nil_of_ne_nonws (w : Str) (hne : w ≠ [])
    (hws : NoWsStr w) (tail : Str) : ((w ++ tail).takeWhile isJsWs) = [] := by
  obtain ⟨c, w', hc⟩ := List.exists_cons_of_ne_nil hne
  subst hc
  rw [List.cons_append]
  apply takeWhile_nil_of_head
  intro d hd
  simp only [List.head?_cons, Option.mem_def, Option.some.injEq] at hd
  subst hd
  exact hws c (by simp)

theorem scan_group_shape (w1 w2 tail : Str) :
    ('(' :: (w1 ++ " AND ".toList ++ w2) ++ [')']) ++ tail =
      ('(' :: w1) ++ (" AND ".toList ++ (w2 ++ ([')'] ++ tail))) := by
  simp [List.append_assoc]

theorem scan_group_end (w1 w2 : Str) (hw1n : w1 ≠ []) (hw2n : w2 ≠ [])
    (hw1ws : NoWsStr w1) (hw2ws : NoWsStr w2) :
    jsSplitAnd ('(' :: (w1 ++ " AND ".toList ++ w2) ++ [')']) =
      [('(' :: w1), "AND".toList, (w2 ++ [')'])] := by
  have hshape : ('(' :: (w1 ++ " AND ".toList ++ w2) ++ [')']) =
      ('(' :: w1) ++ (" AND ".toList ++ (w2 ++ [')'])) := by
    have := scan_group_shape w1 w2 []
    simpa using this
  rw [hshape]
  unfold jsSplitAnd
  rw [sag_app_nonws ('(' :: w1) (nonws_lparen_cons w1 hw1ws) []
    (" AND ".toList ++ (w2 ++ [')'])) _
    ((" AND ".toList ++ (w2 ++ [')'])).length + 1) (by omega) (by omega)]
  rw [List.nil_append]
  rw [sag_sepApp _ _ _ ((w2 ++ [')']).length + 1)
    (takeWhile_ws_nil_of_ne_nonws w2 hw2n hw2ws [')'])
    (by omega) (by omega)]
  rw [show splitAndGoF ((w2 ++ [')']).length + 1) [] (w2 ++ [')']) =
    jsSplitAnd (w2 ++ [')']) from rfl]
  rw [jsSplitAnd_plain _ (nonws_app_rpar w2 hw2ws)]

theorem scan_group_mid (w1 w2 rest : Str) (hw1n : w1 ≠ []) (hw2n : w2 ≠ [])
    (hw1ws : NoWsStr w1) (hw2ws : NoWsStr w2)
    (hrest : rest.takeWhile isJsWs = []) :
    jsSplitAnd (('(' :: (w1 ++ " AND ".toList ++ w2) ++ [')']) ++
        (" AND ".toList ++ rest)) =
      ('(' :: w1) :: "AND".toList :: (w2 ++ [')']) :: "AND".toList ::
        jsSplitAnd rest := by
  rw [scan_group_shape w1 w2 (" AND ".toList ++ rest)]
  unfold jsSplitAnd
  rw [sag_app_nonws ('(' :: w1) (nonws_lparen_cons w1 hw1ws) [] _ _
    ((" AND ".toList ++ (w2 ++ ([')'] ++ (" AND ".toList ++ rest)))).length + 1)
    (by omega) (by omega)]
  rw [List.nil_append]
  rw [sag_sepApp _ _ _ ((w2 ++ ([')'] ++ (" AND ".toList ++ rest))).length + 1)
    (takeWhile_ws_nil_of_ne_nonws w2 hw2n hw2ws _)
    (by omega) (by omega)]
  rw [show w2 ++ ([')'] ++ (" AND ".toList ++ rest)) =
    (w2 ++ [')']) ++ (" AND ".toList ++ rest) by simp [List.append_assoc]]
  rw [sag_app_nonws (w2 ++ [')']) (nonws_app_rpar w2 hw2ws) [] _ _
    ((" AND ".toList ++ rest).length + 1) (by omega) (by omega)]
  rw [List.nil_append]
  rw [sag_sepApp _ _ _ (rest.length + 1) hrest (by omega) (by omega)]

theorem joinSep_cons2 (sep p q : Str) (qs : List Str) :
    joinSep sep (p :: q :: qs) = p ++ sep ++ joinSep sep (q :: qs) := by
  rw [joinSep]
  simp

theorem good_head (q : Str) (hq : GoodPart q) :
    ∃ c q', q = c :: q' ∧ isJsWs c = false := by
  rcases hq with ⟨hne, hws, -, -⟩ | ⟨w1, w2, heq, -⟩
  · obtain ⟨c, q', hc⟩ := List.exists_cons_of_ne_nil hne
    exact ⟨c, q', hc, hws c (by rw [hc]; simp)⟩
  · exact ⟨'(', _, heq, by decide⟩

theorem good_head_takeWhile (q : Str) (qs : List Str) (hq : GoodPart q) :
    (joinSep " AND ".toList (q :: qs)).takeWhile isJsWs = [] := by
  obtain ⟨c, q', hc, hcws⟩ := good_head q hq
  cases qs with
  | nil =>
    rw [show joinSep " AND ".toList [q] = q from rfl, hc]
    apply takeWhile_nil_of_head
    intro d hd
    simp only [List.head?_cons, Option.mem_def, Option.some.injEq] at hd
    subst hd
    exact hcws
  | cons r rs =>
    rw [joinSep_cons2, List.append_assoc, hc, List.cons_append]
    apply takeWhile_nil_of_head
    intro d hd
    simp only [List.head?_cons, Option.mem_def, Option.some.injEq] at hd
    subst hd
    exact hcws

theorem splitFold_join : ∀ (parts : List Str),
    (∀ p ∈ parts, GoodPart p) → ∀ acc,
    splitFoldGo (jsSplitAnd (joinSep " AND ".toList parts)) acc [] 0 =
      acc ++ parts := by
  intro parts
  induction parts with
  | nil =>
    intro _ acc
    rw [show joinSep " AND ".toList [] = [] from rfl,
      show jsSplitAnd ([] : Str) = [[]] from rfl,
      splitFoldGo_text _ _ _ _ _ tokenIsAnd_nil, splitFoldGo_nil]
    rw [if_neg (by simp [jsTrim])]
    simp
  | cons p ps ih =>
    intro h acc
    have hp := h p (by simp)
    cases ps with
    | nil =>
      rw [show joinSep " AND ".toList [p] = p from rfl]
      rcases hp with hplain | ⟨w1, w2, heq, hw1n, hw2n, hw1ws, hw2ws, hw1p, hw2p⟩
      · rw [jsSplitAnd_plain p hplain.2.1, fold_plain_end p acc hplain]
      · rw [heq, scan_group_end w1 w2 hw1n hw2n hw1ws hw2ws,
          fold_group_end w1 w2 acc hw1p hw2p]
    | cons q qs =>
      have hq := h q (by simp)
      have hj : joinSep " AND ".toList (p :: q :: qs) =
          p ++ (" AND ".toList ++ joinSep " AND ".toList (q :: qs)) := by
        rw [joinSep_cons2, List.append_assoc]
      have hhead := good_head_takeWhile q qs hq
      have htail : ∀ r ∈ q :: qs, GoodPart r := fun r hr => h r (by simp [hr])
      rcases hp with hplain | ⟨w1, w2, heq, hw1n, hw2n, hw1ws, hw2ws, hw1p, hw2p⟩
      · rw [hj, scan_plain_mid p _ hplain.2.1 hhead,
          fold_plain_mid p _ _ acc hplain tokenIsAnd_and,
          ih htail (acc ++ [p])]
        simp
      · rw [hj, heq, scan_group_mid w1 w2 _ hw1n hw2n hw1ws hw2ws hhead,
          fold_group_mid w1 w2 _ _ acc hw1p hw2p tokenIsAnd_and,
          ih htail _]
        simp

theorem splitKqlParts_joinSep (parts : List Str)
    (h : ∀ p ∈ parts, GoodPart p) :
    splitKqlParts (joinSep " AND ".toList parts) = parts := by
  unfold splitKqlParts
  rw [splitFold_join parts h []]
  simp

/-! ## Range-comparison and dispatch lemmas -/

theorem parseRangePart_colon (fs v : Str) (hf : ∀ c ∈ fs, isFieldChar c = true) :
    parseRangePart (fs ++ ':' :: v) = none := by
  simp only [parseRangePart]
  rw [takeWhile_app _ _ _ hf, dropWhile_app _ _ _ hf]
  rw [takeWhile_nil_of_head _ (':' :: v)
    (by intro c hc; simp at hc; subst hc; decide)]
  rw [dropWhile_self_of_head _ (':' :: v)
    (by intro c hc; simp at hc; subst hc; decide)]
  rw [List.append_nil]
  by_cases hfe : fs = []
  · rw [if_pos hfe]
  · rw [if_neg hfe]
    have hop : (if (':' :: v).take 2 = ">=".toList then (">=".toList : Str)
        else if (':' :: v).take 2 = "<=".toList then "<=".toList
        else if (':' :: v).head? = some '>' then ['>']
        else if (':' :: v).head? = some '<' then ['<']
        else []) = [] := by
      rw [if_neg (by cases v <;> simp), if_neg (by cases v <;> simp),
        if_neg (by simp), if_neg (by simp)]
    rw [hop, if_pos rfl]

theorem parseRangePart_ge (fs val : Str) (hf : ∀ c ∈ fs, isFieldChar c = true)
    (hfne : fs ≠ []) (hvne : val ≠ [])
    (hvl : ∀ c ∈ val, isLineTerm c = false) :
    parseRangePart (fs ++ '>' :: '=' :: val) =
      some ⟨fs.map lcChar, ">=".toList, val⟩ := by
  simp only [parseRangePart]
  rw [takeWhile_app _ _ _ hf, dropWhile_app _ _ _ hf]
  rw [takeWhile_nil_of_head _ ('>' :: '=' :: val)
    (by intro c hc; simp at hc; subst hc; decide)]
  rw [dropWhile_self_of_head _ ('>' :: '=' :: val)
    (by intro c hc; simp at hc; subst hc; decide)]
  rw [List.append_nil, if_neg hfne]
  have hop : (if ('>' :: '=' :: val).take 2 = ">=".toList then (">=".toList : Str)
      else if ('>' :: '=' :: val).take 2 = "<=".toList then "<=".toList
      else if ('>' :: '=' :: val).head? = some '>' then ['>']
      else if ('>' :: '=' :: val).head? = some '<' then ['<']
      else []) = ">=".toList := by
    rw [if_pos (by simp)]
  rw [hop]
  rw [if_neg (by simp)]
  rw [show ('>' :: '=' :: val).drop (">=".toList : Str).length = val from rfl]
  rw [if_pos ⟨hvne, List.all_eq_true.mpr (fun c hc => by simp [hvl c hc])⟩]

theorem parseRangePart_le (fs val : Str) (hf : ∀ c ∈ fs, isFieldChar c = true)
    (hfne : fs ≠ []) (hvne : val ≠ [])
    (hvl : ∀ c ∈ val, isLineTerm c = false) :
    parseRangePart (fs ++ '<' :: '=' :: val) =
      some ⟨fs.map lcChar, "<=".toList, val⟩ := by
  simp only [parseRangePart]
  rw [takeWhile_app _ _ _ hf, dropWhile_app _ _ _ hf]
  rw [takeWhile_nil_of_head _ ('<' :: '=' :: val)
    (by intro c hc; simp at hc; subst hc; decide)]
  rw [dropWhile_self_of_head _ ('<' :: '=' :: val)
    (by intro c hc; simp at hc; subst hc; decide)]
  rw [List.append_nil, if_neg hfne]
  have hop : (if ('<' :: '=' :: val).take 2 = ">=".toList then (">=".toList : Str)
      else if ('<' :: '=' :: val).take 2 = "<=".toList then "<=".toList
      else if ('<' :: '=' :: val).head? = some '>' then ['>']
      else if ('<' :: '=' :: val).head? = some '<' then ['<']
      else []) = "<=".toList := by
    rw [if_neg (by simp), if_pos (by simp)]
  rw [hop]
  rw [if_neg (by simp)]
  rw [show ('<' :: '=' :: val).drop ("<=".toList : Str).length = val from rfl]
  rw [if_pos ⟨hvne, List.all_eq_true.mpr (fun c hc => by simp [hvl c hc])⟩]

theorem applyBounds_single_ge (r1 : RangeCmp)
    (h : r1.op = ">=".toList ∨ r1.op = ['>']) :
    applyBounds r1 none = (some r1.value, none) := by
  rcases h with h | h <;> simp [applyBounds, boundStep, h]

theorem applyBounds_single_le (r1 : RangeCmp)
    (h : r1.op = "<=".toList ∨ r1.op = ['<']) :
    applyBounds r1 none = (none, some r1.value) := by
  rcases h with h | h <;> simp [applyBounds, boundStep, h]

theorem applyBounds_ge_le (r1 r2 : RangeCmp)
    (h1 : r1.op = ">=".toList ∨ r1.op = ['>'])
    (h2 : r2.op = "<=".toList ∨ r2.op = ['<']) :
    applyBounds r1 (some r2) = (some r1.value, some r2.value) := by
  rcases h1 with h1 | h1 <;> rcases h2 with h2 | h2 <;>
    simp [applyBounds, boundStep, h1, h2]

theorem applyRange_size (f : SearchFilters) (r1 : RangeCmp) (r2 : Option RangeCmp) :
    applyRangeToFilters f "size".toList r1 r2 =
      {f with standard.sizeRange := some ⟨(applyBounds r1 r2).1.map jsParseInt,
        (applyBounds r1 r2).2.map jsParseInt⟩} := by
  simp [applyRangeToFilters]

theorem applyRange_mtime (f : SearchFilters) (r1 : RangeCmp) (r2 : Option RangeCmp) :
    applyRangeToFilters f "mtime".toList r1 r2 =
      {f with standard.modifiedRange := some ⟨(applyBounds r1 r2).1.getD [],
        (applyBounds r1 r2).2.getD []⟩} := by
  simp [applyRangeToFilters]

theorem applyRange_taken (f : SearchFilters) (r1 : RangeCmp) (r2 : Option RangeCmp) :
    applyRangeToFilters f "photo.takendatetime".toList r1 r2 =
      {f with photo.takenDateRange := some ⟨(applyBounds r1 r2).1.getD [],
        (applyBounds r1 r2).2.getD []⟩} := by
  simp [applyRangeToFilters]

theorem applyRange_iso (f : SearchFilters) (r1 : RangeCmp) (r2 : Option RangeCmp) :
    applyRangeToFilters f "photo.iso".toList r1 r2 =
      {f with photo.isoRange := some ⟨(applyBounds r1 r2).1.map jsParseInt,
        (applyBounds r1 r2).2.map jsParseInt⟩} := by
  simp [applyRangeToFilters]

theorem applyRange_fnumber (f : SearchFilters) (r1 : RangeCmp) (r2 : Option RangeCmp) :
    applyRangeToFilters f "photo.fnumber".toList r1 r2 =
      {f with photo.fNumberRange := some ⟨(applyBounds r1 r2).1.map jsParseFloat,
        (applyBounds r1 r2).2.map jsParseFloat⟩} := by
  simp [applyRangeToFilters]

theorem applyRange_focal (f : SearchFilters) (r1 : RangeCmp) (r2 : Option RangeCmp) :
    applyRangeToFilters f "photo.focallength".toList r1 r2 =
      {f with photo.focalLengthRange := some ⟨(applyBounds r1 r2).1.map jsParseFloat,
        (applyBounds r1 r2).2.map jsParseFloat⟩} := by
  simp [applyRangeToFilters]

theorem parseKqlPartF_range (fuel : Nat) (f : SearchFilters) (part : Str)
    (r : RangeCmp)
    (hpar : ¬(part.head? = some '(' ∧ part.getLast? = some ')'))
    (hr : parseRangePart part = some r) :
    parseKqlPartF (fuel + 1) f part = applyRangeToFilters f r.field r none := by
  simp only [parseKqlPartF]
  rw [if_neg hpar, hr]

theorem parseKqlPartF_field (fuel : Nat) (f : SearchFilters) (part : Str)
    (fs v : Str)
    (hpar : ¬(part.head? = some '(' ∧ part.getLast? = some ')'))
    (hr : parseRangePart part = none)
    (hcol : splitColon part = some (fs, v)) :
    parseKqlPartF (fuel + 1) f part =
      knownFieldUpdate f (fs.map lcChar) (unescapeKQL (stripQuotes v)) := by
  simp only [parseKqlPartF]
  rw [if_neg hpar, hr, hcol]

theorem parseKqlPartF_free (fuel : Nat) (f : SearchFilters) (part : Str)
    (hpar : ¬(part.head? = some '(' ∧ part.getLast? = some ')'))
    (hr : parseRangePart part = none)
    (hcol : splitColon part = none)
    (htrim : jsTrim part ≠ []) :
    parseKqlPartF (fuel + 1) f part =
      {f with term := (if f.term ≠ [] then f.term ++ [' '] else []) ++ jsTrim part} := by
  simp only [parseKqlPartF]
  rw [if_neg hpar, hr, hcol, if_pos htrim]

theorem takeWhile_ws_nil_of_nonws (w : Str) (hws : NoWsStr w) :
    w.takeWhile isJsWs = [] := by
  cases w with
  | nil => rfl
  | cons a t =>
    apply takeWhile_nil_of_head
    intro c hc
    simp only [List.head?_cons, Option.mem_def, Option.some.injEq] at hc
    subst hc
    exact hws a (by simp)

theorem parseKqlPartF_merge (fuel : Nat) (f : SearchFilters) (w1 w2 : Str)
    (a b : RangeCmp)
    (h1 : parseRangePart w1 = some a) (h2 : parseRangePart w2 = some b)
    (hab : a.field = b.field)
    (hw1ws : NoWsStr w1) (hw2ws : NoWsStr w2) :
    parseKqlPartF (fuel + 1) f ('(' :: (w1 ++ " AND ".toList ++ w2) ++ [')']) =
      applyRangeToFilters f a.field a (some b) := by
  have hpar : ('(' :: (w1 ++ " AND ".toList ++ w2) ++ [')']).head? = some '(' ∧
      ('(' :: (w1 ++ " AND ".toList ++ w2) ++ [')']).getLast? = some ')' := by
    constructor
    · rw [head?_app_of_ne _ _ (by simp)]
      rfl
    · exact getLast?_app_single _ _
  have hinner : (('(' :: (w1 ++ " AND ".toList ++ w2) ++ [')']).drop 1).dropLast =
      w1 ++ " AND ".toList ++ w2 := by
    rw [show ('(' :: (w1 ++ " AND ".toList ++ w2) ++ [')']).drop 1 =
      (w1 ++ " AND ".toList ++ w2) ++ [')'] from rfl]
    exact dropLast_app_single _ _
  have hcont : containsSub (w1 ++ " AND ".toList ++ w2) " AND ".toList = true := by
    rw [List.append_assoc]
    exact containsSub_app w1 " AND ".toList w2
  have hsplit : jsSplitAndNC (w1 ++ " AND ".toList ++ w2) = [w1, w2] := by
    unfold jsSplitAndNC
    rw [List.append_assoc]
    rw [scan_plain_mid w1 w2 hw1ws (takeWhile_ws_nil_of_nonws w2 hw2ws)]
    rw [jsSplitAnd_plain w2 hw2ws]
    rfl
  simp only [parseKqlPartF]
  rw [if_pos hpar, hinner, hcont, if_pos rfl, hsplit]
  simp only [h1, h2]
  rw [if_pos hab]

/-! ## Clause-level lemmas -/

theorem fieldChar_toNat (c : Char) (h : isFieldChar c = true) :
    (97 ≤ c.toNat ∧ c.toNat ≤ 122) ∨ (65 ≤ c.toNat ∧ c.toNat ≤ 90) ∨
      c.toNat = 46 := by
  simp only [isFieldChar, Bool.or_eq_true, Bool.and_eq_true, decide_eq_true_eq,
    charLe_iff, charEq_iff, cvLa, cvLz, cvUA, cvUZ, cvDot] at h
  tauto

theorem fieldChar_ne (c : Char) (h : isFieldChar c = true) :
    c ≠ ':' ∧ c ≠ '(' ∧ c ≠ ')' := by
  have := fieldChar_toNat c h
  simp only [ne_eq, charEq_iff, cvColon, cvLpar, cvRpar]
  omega

theorem fieldChar_not_ws (c : Char) (h : isFieldChar c = true) :
    isJsWs c = false := by
  have := fieldChar_toNat c h
  apply isJsWs_eq_false_of_toNat
  omega

theorem stripQuotes_plain (v : Str) (hv : plainStr v = true) :
    stripQuotes v = v := by
  cases v with
  | nil => rfl
  | cons a t =>
    have ha := plain_ne a (plainStr_mem _ hv a (by simp))
    unfold stripQuotes
    rw [if_neg]
    rintro (⟨h1, -⟩ | ⟨h1, -⟩) <;> simp only [List.head?_cons,
      Option.some.injEq] at h1
    · exact ha.2.2.2.2.2.2.1 h1
    · exact ha.2.2.2.2.2.2.2.1 h1

theorem unescape_plain (v : Str) (hv : plainStr v = true) : unescapeKQL v = v :=
  unescape_id v (fun c hc => (plain_ne c (plainStr_mem _ hv c hc)).2.2.2.1)

theorem parse_colon_clause (fuel : Nat) (f : SearchFilters) (fs v : Str)
    (hf : ∀ c ∈ fs, isFieldChar c = true) (hfne : fs ≠ []) :
    parseKqlPartF (fuel + 1) f (fs ++ ':' :: v) =
      knownFieldUpdate f (fs.map lcChar) (unescapeKQL (stripQuotes v)) := by
  obtain ⟨c, fs', hc⟩ := List.exists_cons_of_ne_nil hfne
  have hcf : isFieldChar c = true := hf c (by rw [hc]; simp)
  apply parseKqlPartF_field
  · rintro ⟨hh, -⟩
    rw [hc, List.cons_append, List.head?_cons] at hh
    have : c = '(' := by simpa using hh
    exact (fieldChar_ne c hcf).2.1 this
  · exact parseRangePart_colon fs v hf
  · exact splitColon_app fs v (fun c hc => (fieldChar_ne c (hf c hc)).1)

theorem parse_plain_clause (fuel : Nat) (f : SearchFilters) (fs v : Str)
    (hf : ∀ c ∈ fs, isFieldChar c = true) (hfne : fs ≠ [])
    (hv : plainStr v = true) :
    parseKqlPartF (fuel + 1) f (fs ++ ':' :: v) =
      knownFieldUpdate f (fs.map lcChar) v := by
  rw [parse_colon_clause fuel f fs v hf hfne, stripQuotes_plain v hv,
    unescape_plain v hv]

theorem kfu_name (f : SearchFilters) (v : Str) :
    knownFieldUpdate f "name".toList v = {f with standard.name := v} := by
  simp [knownFieldUpdate]

theorem kfu_type (f : SearchFilters) (v : Str) :
    knownFieldUpdate f "type".toList v =
      {f with standard.type :=
        if v = ['1'] then "file".toList
        else if v = ['2'] then "folder".toList else v} := by
  simp [knownFieldUpdate]

theorem kfu_mediatype (f : SearchFilters) (v : Str) :
    knownFieldUpdate f "mediatype".toList v = {f with standard.mediaType := v} := by
  simp [knownFieldUpdate]

theorem kfu_tags (f : SearchFilters) (v : Str) :
    knownFieldUpdate f "tags".toList v =
      {f with standard.tags :=
        if f.standard.tags ≠ [] then f.standard.tags ++ ',' :: v else v} := by
  simp [knownFieldUpdate]

theorem kfu_content (f : SearchFilters) (v : Str) :
    knownFieldUpdate f "content".toList v = {f with standard.content := v} := by
  simp [knownFieldUpdate]

theorem kfu_cameramake (f : SearchFilters) (v : Str) :
    knownFieldUpdate f "photo.cameramake".toList v =
      {f with photo.cameraMake := v} := by
  simp [knownFieldUpdate]

theorem kfu_cameramodel (f : SearchFilters) (v : Str) :
    knownFieldUpdate f "photo.cameramodel".toList v =
      {f with photo.cameraModel := v} := by
  simp [knownFieldUpdate]

theorem kfu_orientation (f : SearchFilters) (v : Str) :
    knownFieldUpdate f "photo.orientation".toList v =
      {f with photo.orientation := some (jsParseInt v)} := by
  simp [knownFieldUpdate]

theorem ymd_shape (s : Str) (h : isYMDShape s = true) :
    ∃ a b c d e f g k, s = [a, b, c, d, '-', e, f, '-', g, k] ∧
      Char.isDigit a = true ∧ Char.isDigit b = true ∧ Char.isDigit c = true ∧
      Char.isDigit d = true ∧ Char.isDigit e = true ∧ Char.isDigit f = true ∧
      Char.isDigit g = true ∧ Char.isDigit k = true := by
  unfold isYMDShape at h
  split at h
  · rename_i a b c d h1 e f h2 g k
    simp only [Bool.and_eq_true, decide_eq_true_eq, List.all_cons,
      List.all_nil, Bool.and_true] at h
    exact ⟨a, b, c, d, e, f, g, k, by rw [h.1.2, h.2],
      h.1.1.1, h.1.1.2.1, h.1.1.2.2.1, h.1.1.2.2.2.1, h.1.1.2.2.2.2.1,
      h.1.1.2.2.2.2.2.1, h.1.1.2.2.2.2.2.2.1, h.1.1.2.2.2.2.2.2.2⟩
  · simp at h

theorem ymd_chars (s : Str) (h : isYMDShape s = true) :
    ∀ c ∈ s, Char.isDigit c = true ∨ c = '-' := by
  obtain ⟨a, b, c, d, e, f, g, k, heq, h1, h2, h3, h4, h5, h6, h7, h8⟩ :=
    ymd_shape s h
  intro x hx
  rw [heq] at hx
  simp only [List.mem_cons, List.not_mem_nil, or_false] at hx
  rcases hx with rfl | rfl | rfl | rfl | rfl | rfl | rfl | rfl | rfl | rfl
  · exact Or.inl h1
  · exact Or.inl h2
  · exact Or.inl h3
  · exact Or.inl h4
  · exact Or.inr rfl
  · exact Or.inl h5
  · exact Or.inl h6
  · exact Or.inr rfl
  · exact Or.inl h7
  · exact Or.inl h8

theorem ymd_ne_nil (s : Str) (h : isYMDShape s = true) : s ≠ [] := by
  obtain ⟨a, b, c, d, e, f, g, k, heq, -⟩ := ymd_shape s h
  rw [heq]
  simp

theorem ymd_not_ws (s : Str) (h : isYMDShape s = true) : NoWsStr s := by
  intro c hc
  rcases ymd_chars s h c hc with hd | hd
  · exact digit_not_ws c hd
  · rw [hd]; decide

theorem ymd_noparen (s : Str) (h : isYMDShape s = true) : NoParenStr s := by
  intro c hc
  rcases ymd_chars s h c hc with hd | hd
  · have := isDigit_iff c |>.mp hd
    simp only [ne_eq, charEq_iff, cvLpar, cvRpar]
    omega
  · rw [hd]; decide

theorem ymd_not_lineterm (s : Str) (h : isYMDShape s = true) :
    ∀ c ∈ s, isLineTerm c = false := by
  intro c hc
  rcases ymd_chars s h c hc with hd | hd
  · exact digit_not_lineterm c hd
  · rw [hd]; decide

theorem formatDate_ymd (fb : Str → Str) (s : Str) (h : isYMDShape s = true) :
    formatDateForKQL fb s = s := by
  unfold formatDateForKQL
  rw [if_pos h]

theorem nows_app (a b : Str) (ha : NoWsStr a) (hb : NoWsStr b) :
    NoWsStr (a ++ b) := by
  intro c hc
  rcases List.mem_append.mp hc with h1 | h1
  · exact ha c h1
  · exact hb c h1

theorem noparen_app (a b : Str) (ha : NoParenStr a) (hb : NoParenStr b) :
    NoParenStr (a ++ b) := by
  intro c hc
  rcases List.mem_append.mp hc with h1 | h1
  · exact ha c h1
  · exact hb c h1

theorem nows_plain (v : Str) (hv : plainStr v = true) : NoWsStr v :=
  fun c hc => plain_not_ws c (plainStr_mem _ hv c hc)

theorem noparen_plain (v : Str) (hv : plainStr v = true) : NoParenStr v :=
  fun c hc => ⟨(plain_ne c (plainStr_mem _ hv c hc)).1,
    (plain_ne c (plainStr_mem _ hv c hc)).2.1⟩

theorem nows_digits (v : Str) (hv : ∀ c ∈ v, Char.isDigit c = true) : NoWsStr v :=
  fun c hc => digit_not_ws c (hv c hc)

theorem noparen_digits (v : Str) (hv : ∀ c ∈ v, Char.isDigit c = true) :
    NoParenStr v := by
  intro c hc
  have := (isDigit_iff c).mp (hv c hc)
  simp only [ne_eq, charEq_iff, cvLpar, cvRpar]
  omega

theorem plainStr_digits (v : Str) (hv : ∀ c ∈ v, Char.isDigit c = true) :
    plainStr v = true :=
  List.all_eq_true.mpr (fun c hc => digit_plain c (hv c hc))

/-! ## Range-invariant lemmas -/

theorem parseRangePart_ops (part : Str) (r : RangeCmp)
    (h : parseRangePart part = some r) :
    (r.op = ">=".toList ∨ r.op = ['>'] ∨ r.op = "<=".toList ∨ r.op = ['<']) ∧
      r.value ≠ [] := by
  simp only [parseRangePart] at h
  set rest := part.dropWhile isFieldChar with hrest
  set opE := (if rest.take 2 = ">=".toList then (">=".toList : Str)
      else if rest.take 2 = "<=".toList then "<=".toList
      else if rest.head? = some '>' then ['>']
      else if rest.head? = some '<' then ['<']
      else []) with hopE
  have hcases : opE = ">=".toList ∨ opE = ['>'] ∨ opE = "<=".toList ∨
      opE = ['<'] ∨ opE = [] := by
    rw [hopE]
    split_ifs <;> tauto
  split at h
  · simp at h
  · split at h
    · simp at h
    · rename_i hopne
      split at h
      · rename_i hvc
        simp only [Option.some.injEq] at h
        subst h
        refine ⟨?_, hvc.1⟩
        rcases hcases with hh | hh | hh | hh | hh
        · exact Or.inl hh
        · exact Or.inr (Or.inl hh)
        · exact Or.inr (Or.inr (Or.inl hh))
        · exact Or.inr (Or.inr (Or.inr hh))
        · exact absurd hh hopne
      · simp at h

theorem applyBounds_spec (r1 : RangeCmp) (r2 : Option RangeCmp)
    (h1 : r1.op = ">=".toList ∨ r1.op = ['>'] ∨ r1.op = "<=".toList ∨ r1.op = ['<'])
    (hv1 : r1.value ≠ [])
    (hv2 : ∀ b, r2 = some b → b.value ≠ []) :
    ((applyBounds r1 r2).1.isSome ∨ (applyBounds r1 r2).2.isSome) ∧
    (∀ v, (applyBounds r1 r2).1 = some v → v ≠ []) ∧
    (∀ v, (applyBounds r1 r2).2 = some v → v ≠ []) := by
  have hm1 : boundStep (none, none) r1 = (some r1.value, none) ∨
      boundStep (none, none) r1 = (none, some r1.value) := by
    rcases h1 with h | h | h | h
    · exact Or.inl (by simp [boundStep, h])
    · exact Or.inl (by simp [boundStep, h])
    · exact Or.inr (by simp [boundStep, h])
    · exact Or.inr (by simp [boundStep, h])
  cases r2 with
  | none =>
    have heq : applyBounds r1 none = boundStep (none, none) r1 := rfl
    rw [heq]
    rcases hm1 with hm | hm <;> rw [hm]
    · exact ⟨Or.inl rfl, fun v hv => by simp at hv; exact hv ▸ hv1,
        fun v hv => by simp at hv⟩
    · exact ⟨Or.inr rfl, fun v hv => by simp at hv,
        fun v hv => by simp at hv; exact hv ▸ hv1⟩
  | some b =>
    have hb := hv2 b rfl
    have heq : applyBounds r1 (some b) =
        boundStep (boundStep (none, none) r1) b := rfl
    rw [heq]
    by_cases hbge : (b.op = ">=".toList || b.op = ['>']) = true
    · have hstep : boundStep (boundStep (none, none) r1) b =
          (some b.value, (boundStep (none, none) r1).2) := by
        unfold boundStep
        rw [if_pos hbge]
      rw [hstep]
      rcases hm1 with hm | hm <;> rw [hm]
      · exact ⟨Or.inl rfl, fun v hv => by simp at hv; exact hv ▸ hb,
          fun v hv => by simp at hv⟩
      · exact ⟨Or.inl rfl, fun v hv => by simp at hv; exact hv ▸ hb,
          fun v hv => by simp at hv; exact hv ▸ hv1⟩
    · by_cases hble : (b.op = "<=".toList || b.op = ['<']) = true
      · have hstep : boundStep (boundStep (none, none) r1) b =
            ((boundStep (none, none) r1).1, some b.value) := by
          unfold boundStep
          rw [if_neg hbge, if_pos hble]
        rw [hstep]
        rcases hm1 with hm | hm <;> rw [hm]
        · exact ⟨Or.inr rfl, fun v hv => by simp at hv; exact hv ▸ hv1,
            fun v hv => by simp at hv; exact hv ▸ hb⟩
        · exact ⟨Or.inr rfl, fun v hv => by simp at hv,
            fun v hv => by simp at hv; exact hv ▸ hb⟩
      · have hstep : boundStep (boundStep (none, none) r1) b =
            boundStep (none, none) r1 := by
          unfold boundStep
          rw [if_neg hbge, if_neg hble]
        rw [hstep]
        rcases hm1 with hm | hm <;> rw [hm]
        · exact ⟨Or.inl rfl, fun v hv => by simp at hv; exact hv ▸ hv1,
            fun v hv => by simp at hv⟩
        · exact ⟨Or.inr rfl, fun v hv => by simp at hv,
            fun v hv => by simp at hv; exact hv ▸ hv1⟩

theorem rangesOk_applyRange (f : SearchFilters) (field : Str) (r1 : RangeCmp)
    (r2 : Option RangeCmp)
    (h1 : r1.op = ">=".toList ∨ r1.op = ['>'] ∨ r1.op = "<=".toList ∨ r1.op = ['<'])
    (hv1 : r1.value ≠ [])
    (hv2 : ∀ b, r2 = some b → b.value ≠ [])
    (hok : rangesOk f) : rangesOk (applyRangeToFilters f field r1 r2) := by
  obtain ⟨hs, hb1, hb2⟩ := applyBounds_spec r1 r2 h1 hv1 hv2
  obtain ⟨o1, o2, o3, o4, o5, o6⟩ := hok
  have hnum : numRangeOk (some ⟨(applyBounds r1 r2).1.map jsParseInt,
      (applyBounds r1 r2).2.map jsParseInt⟩) := by
    unfold numRangeOk
    rcases hs with h | h
    · left; simpa using h
    · right; simpa using h
  have hnum' : numRangeOk (some ⟨(applyBounds r1 r2).1.map jsParseFloat,
      (applyBounds r1 r2).2.map jsParseFloat⟩) := by
    unfold numRangeOk
    rcases hs with h | h
    · left; simpa using h
    · right; simpa using h
  have hdate : dateRangeOk (some ⟨(applyBounds r1 r2).1.getD [],
      (applyBounds r1 r2).2.getD []⟩) := by
    unfold dateRangeOk
    rcases hs with h | h
    · obtain ⟨v, hv⟩ := Option.isSome_iff_exists.mp h
      left
      rw [hv]
      simpa using hb1 v hv
    · obtain ⟨v, hv⟩ := Option.isSome_iff_exists.mp h
      right
      rw [hv]
      simpa using hb2 v hv
  unfold applyRangeToFilters
  split_ifs <;> exact ⟨by first | exact hnum | exact o1,
    by first | exact hdate | exact o2,
    by first | exact hdate | exact o3,
    by first | exact hnum | exact o4,
    by first | exact hnum' | exact o5,
    by first | exact hnum' | exact o6⟩

theorem rangesOk_kfu (f : SearchFilters) (field value : Str)
    (hok : rangesOk f) : rangesOk (knownFieldUpdate f field value) := by
  unfold knownFieldUpdate
  split_ifs <;> exact hok

theorem rangesOk_empty : rangesOk createEmptyFilters :=
  ⟨trivial, trivial, trivial, trivial, trivial, trivial⟩

theorem rangesOk_parseKqlPartF : ∀ (fuel : Nat) (f : SearchFilters) (part : Str),
    rangesOk f → rangesOk (parseKqlPartF fuel f part) := by
  intro fuel
  induction fuel with
  | zero => intro f part h; exact h
  | succ n ih =>
    intro f part h
    have hfold : ∀ (l : List Str) (g : SearchFilters), rangesOk g →
        rangesOk (l.foldl (fun acc sp => parseKqlPartF n acc (jsTrim sp)) g) := by
      intro l
      induction l with
      | nil => intro g hg; exact hg
      | cons p ps ihl =>
        intro g hg
        exact ihl _ (ih g _ hg)
    simp only [parseKqlPartF]
    by_cases hpar : part.head? = some '(' ∧ part.getLast? = some ')'
    · rw [if_pos hpar]
      split
      · rename_i f' heq
        split at heq
        · split at heq
          · rename_i rp1 rp2 heq2
            split at heq
            · rename_i a b hr1 hr2
              split at heq
              · rename_i hab
                simp only [Option.some.injEq] at heq
                subst heq
                obtain ⟨ho1, hov1⟩ := parseRangePart_ops rp1 a hr1
                obtain ⟨-, hov2⟩ := parseRangePart_ops rp2 b hr2
                exact rangesOk_applyRange f a.field a (some b) ho1 hov1
                  (fun c hc => by cases hc; exact hov2) h
              · simp at heq
            · simp at heq
          · simp at heq
        · simp at heq
      · exact hfold _ _ h
    · rw [if_neg hpar]
      split
      · rename_i r hr
        obtain ⟨ho, hov⟩ := parseRangePart_ops part r hr
        exact rangesOk_applyRange f r.field r none ho hov (by simp) h
      · split
        · split
          · exact h
          · exact h
        · exact rangesOk_kfu f _ _ h

/-! ## Claim theorems -/

/-- C2: a fully parenthesis-wrapped top-level clause whose interior is
exactly two whitespace-free range comparisons on the same field joined by
` AND ` is unwrapped and merged into the corresponding FilterState range
field by `applyRangeToFilters`; the min/max collection takes the min from
a `>=`/`>` comparison and the max from a `<=`/`<` comparison; in
particular `"photo.cameramake:Canon AND (photo.iso>=100 AND photo.iso<=800)"`
parses to `cameraMake = "Canon"` and `isoRange = {min: 100, max: 800}`. -/
theorem claim_C2 :
    (∀ fuel f w1 w2 a b, parseRangePart w1 = some a → parseRangePart w2 = some b →
      a.field = b.field → NoWsStr w1 → NoWsStr w2 →
      parseKqlPartF (fuel + 1) f ('(' :: (w1 ++ " AND ".toList ++ w2) ++ [')']) =
        applyRangeToFilters f a.field a (some b)) ∧
    (∀ a b : RangeCmp, (a.op = ">=".toList ∨ a.op = ['>']) →
      (b.op = "<=".toList ∨ b.op = ['<']) →
      applyBounds a (some b) = (some a.value, some b.value)) ∧
    parseKqlToFilters
        "photo.cameramake:Canon AND (photo.iso>=100 AND photo.iso<=800)".toList =
      {photo := {cameraMake := "Canon".toList
                 isoRange := some ⟨some (.num 100), some (.num 800)⟩}} := by
  refine ⟨?_, ?_, by decide⟩
  · intro fuel f w1 w2 a b h1 h2 hab hw1 hw2
    exact parseKqlPartF_merge fuel f w1 w2 a b h1 h2 hab hw1 hw2
  · intro a b h1 h2
    exact applyBounds_ge_le a b h1 h2

theorem claim_C2_witness :
    parseKqlPartF 1 createEmptyFilters
        "(photo.iso>=100 AND photo.iso<=800)".toList =
      applyRangeToFilters createEmptyFilters "photo.iso".toList
        ⟨"photo.iso".toList, ">=".toList, "100".toList⟩
        (some ⟨"photo.iso".toList, "<=".toList, "800".toList⟩) := by
  have h := claim_C2.1 0 createEmptyFilters
    "photo.iso>=100".toList "photo.iso<=800".toList
    ⟨"photo.iso".toList, ">=".toList, "100".toList⟩
    ⟨"photo.iso".toList, "<=".toList, "800".toList⟩
    (by decide) (by decide) (by decide) (by decide) (by decide)
  exact h

/-- C3: a range serializer emits the single comparison `field>=min` or
`field<=max` when one bound is present and the parenthesised
`(field>=min AND field<=max)` group when both are; in particular
`sizeRange = {min: 100, max: 1000}` gives `(size>=100 AND size<=1000)`. -/
theorem claim_C3 :
    (∀ field m, buildRangeQuery field ⟨some m, none⟩ =
      some (field ++ ">=".toList ++ jsNumRender m)) ∧
    (∀ field m, buildRangeQuery field ⟨none, some m⟩ =
      some (field ++ "<=".toList ++ jsNumRender m)) ∧
    (∀ field m M, buildRangeQuery field ⟨some m, some M⟩ =
      some ('(' :: ((field ++ ">=".toList ++ jsNumRender m) ++ " AND ".toList ++
        (field ++ "<=".toList ++ jsNumRender M)) ++ [')'])) ∧
    (∀ fb field s, s ≠ [] → buildDateRangeQuery fb field ⟨s, []⟩ =
      some (field ++ ">=".toList ++ formatDateForKQL fb s)) ∧
    (∀ fb field e, e ≠ [] → buildDateRangeQuery fb field ⟨[], e⟩ =
      some (field ++ "<=".toList ++ formatDateForKQL fb e)) ∧
    (∀ fb field s e, s ≠ [] → e ≠ [] → buildDateRangeQuery fb field ⟨s, e⟩ =
      some ('(' :: ((field ++ ">=".toList ++ formatDateForKQL fb s) ++
        " AND ".toList ++ (field ++ "<=".toList ++ formatDateForKQL fb e)) ++ [')'])) ∧
    buildRangeQuery "size".toList ⟨some (.num 100), some (.num 1000)⟩ =
      some "(size>=100 AND size<=1000)".toList := by
  exact ⟨buildRangeQuery_min, buildRangeQuery_max, buildRangeQuery_both,
    buildDateRangeQuery_start, buildDateRangeQuery_stop, buildDateRangeQuery_both,
    by decide⟩

theorem claim_C3_witness :
    buildDateRangeQuery id "mtime".toList
        ⟨"2024-01-01".toList, "2024-12-31".toList⟩ =
      some "(mtime>=2024-01-01 AND mtime<=2024-12-31)".toList := by
  have h := claim_C3.2.2.2.2.2.1 id "mtime".toList
    "2024-01-01".toList "2024-12-31".toList (by decide) (by decide)
  rw [h]
  decide

/-- C4 counterexample: the claim that in the wildcard branch `escapeKQL`
still escapes every other special character including whitespace is false:
on `"a b*"` the source leaves the space unescaped while the claim's
reading (`escapeKQLSpec`) escapes it. -/
theorem claim_C4_counterexample :
    escapeKQL "a b*".toList ≠ escapeKQLSpec "a b*".toList ∧
    escapeKQL "a b*".toList = "a b*".toList ∧
    escapeKQLSpec "a b*".toList = "a\\ b*".toList := by
  refine ⟨by decide, by decide, by decide⟩

/-- C4 (amended): `escapeKQL` backslash-escapes every special character
(punctuation, wildcards and whitespace) when the value contains no
wildcard, and when the value contains `*` or `?` it escapes only the
punctuation specials, leaving the wildcards AND whitespace unescaped;
`escapeKQL "Canon EOS"` escapes the space, `escapeKQL "*.pdf"` is
unchanged. -/
theorem claim_C4 :
    (∀ v, (v.contains '*' || v.contains '?') = false →
      escapeKQL v = escMap isKqlSpecial v) ∧
    (∀ v, (v.contains '*' || v.contains '?') = true →
      escapeKQL v = escMap isPunctSpecial v) ∧
    escapeKQL "Canon EOS".toList = "Canon\\ EOS".toList ∧
    escapeKQL "*.pdf".toList = "*.pdf".toList := by
  refine ⟨?_, ?_, by decide, by decide⟩
  · intro v h
    unfold escapeKQL
    rw [h, if_neg (by simp)]
  · intro v h
    unfold escapeKQL
    rw [h, if_pos rfl]

theorem claim_C4_witness :
    escapeKQL "a b".toList = escMap isKqlSpecial "a b".toList :=
  claim_C4.1 "a b".toList (by decide)

/-- C5: the `type` field serializes to the numeric codes `Type:1` (file)
and `Type:2` (folder), and the parser maps the codes back. -/
theorem claim_C5 :
    (∀ fb, buildKQL fb {standard := {type := "folder".toList}} = "Type:2".toList) ∧
    parseKqlToFilters "Type:2".toList = {standard := {type := "folder".toList}} ∧
    (∀ fb, buildKQL fb {standard := {type := "file".toList}} = "Type:1".toList) ∧
    parseKqlToFilters "Type:1".toList = {standard := {type := "file".toList}} := by
  refine ⟨fun fb => rfl, by decide, fun fb => rfl, by decide⟩

/-- C6: a `field:value` clause whose lower-cased field name is not in the
recognized table leaves the FilterState unchanged: nothing is stored and
nothing is appended to the free-text term. -/
theorem claim_C6 :
    ∀ fuel f fs v, (∀ c ∈ fs, isFieldChar c = true) → fs ≠ [] →
      fs.map lcChar ∉ ["name".toList, "type".toList, "mediatype".toList,
        "tags".toList, "tag".toList, "content".toList,
        "photo.cameramake".toList, "photo.cameramodel".toList,
        "photo.orientation".toList] →
      parseKqlPartF (fuel + 1) f (fs ++ ':' :: v) = f := by
  intro fuel f fs v hf hfne hnot
  rw [parse_colon_clause fuel f fs v hf hfne]
  simp only [List.mem_cons, List.not_mem_nil, or_false, not_or] at hnot
  unfold knownFieldUpdate
  rw [if_neg hnot.1, if_neg hnot.2.1, if_neg hnot.2.2.1,
    if_neg (not_or.mpr ⟨hnot.2.2.2.1, hnot.2.2.2.2.1⟩),
    if_neg hnot.2.2.2.2.2.1, if_neg hnot.2.2.2.2.2.2.1,
    if_neg hnot.2.2.2.2.2.2.2.1, if_neg hnot.2.2.2.2.2.2.2.2]

theorem claim_C6_witness :
    parseKqlPartF 1 createEmptyFilters "foo:bar".toList = createEmptyFilters := by
  have h := claim_C6 0 createEmptyFilters "foo".toList "bar".toList
    (by decide) (by decide) (by decide)
  exact h

/-- C7: the parser is a total function (every input yields a FilterState);
a clause that is not parenthesis-wrapped, matches no range comparison and
contains no colon is appended to the free-text `term`; in particular
parsing `"banana smoothie"` yields `term = "banana smoothie"` with all
structured fields empty. -/
theorem claim_C7 :
    (∀ s, ∃ f, parseKqlToFilters s = f) ∧
    (∀ fuel f part, ¬(part.head? = some '(' ∧ part.getLast? = some ')') →
      parseRangePart part = none → splitColon part = none → jsTrim part ≠ [] →
      parseKqlPartF (fuel + 1) f part =
        {f with term := (if f.term ≠ [] then f.term ++ [' '] else []) ++ jsTrim part}) ∧
    parseKqlToFilters "banana smoothie".toList = {term := "banana smoothie".toList} := by
  refine ⟨fun s => ⟨_, rfl⟩, ?_, by decide⟩
  intro fuel f part hpar hr hcol htrim
  exact parseKqlPartF_free fuel f part hpar hr hcol htrim

theorem claim_C7_witness :
    parseKqlPartF 1 createEmptyFilters "banana".toList =
      {term := "banana".toList} := by
  have h := claim_C7.2.1 0 createEmptyFilters "banana".toList
    (by decide) (by decide) (by decide) (by decide)
  rw [h]
  decide

/-- C8: the serializer joins all emitted clauses with ` AND ` and returns
the wildcard-all token `*` when no clause was emitted; in particular the
empty FilterState serializes to `*`. -/
theorem claim_C8 :
    (∀ fb, buildKQL fb createEmptyFilters = "*".toList) ∧
    (∀ fb filters, buildKQL fb filters =
      (if (buildStandardKQL fb filters.standard filters.term ++
          buildPhotoKQL fb filters.photo) ≠ [] then
        joinSep " AND ".toList (buildStandardKQL fb filters.standard filters.term ++
          buildPhotoKQL fb filters.photo)
       else "*".toList)) := by
  exact ⟨fun fb => rfl, fun fb filters => rfl⟩

/-- C9: every range field the parser writes has at least one bound set
(for any input string whatsoever), and the serializer emits no clause for
a range whose bounds are all absent. -/
theorem claim_C9 :
    (∀ kql, rangesOk (parseKqlToFilters kql)) ∧
    (∀ field, buildRangeQuery field ⟨none, none⟩ = none) ∧
    (∀ fb field, buildDateRangeQuery fb field ⟨[], []⟩ = none) := by
  refine ⟨?_, buildRangeQuery_none, buildDateRangeQuery_none⟩
  intro kql
  unfold parseKqlToFilters
  split
  · exact rangesOk_empty
  · have hfold : ∀ (l : List Str) (g : SearchFilters), rangesOk g →
        rangesOk (l.foldl
          (fun f p => parseKqlPartF (kql.length + 1) f (jsTrim p)) g) := by
      intro l
      induction l with
      | nil => exact fun g hg => hg
      | cons p ps ihl =>
        exact fun g hg => ihl _ (rangesOk_parseKqlPartF _ _ _ hg)
    exact hfold _ _ rangesOk_empty

/-- C10: the parser's un-escaping removes a backslash exactly when it
immediately precedes a punctuation metacharacter; a backslash before
whitespace (as the serializer emits for spaces in wildcard-free values)
stays in the stored value, so parsing `"name:my\ file"` stores the name
`"my\ file"` with the backslash kept. -/
theorem claim_C10 :
    (∀ c rest, isPunctSpecial c = true →
      unescapeKQL ('\\' :: c :: rest) = c :: unescapeKQL rest) ∧
    (∀ c rest, isPunctSpecial c = false →
      unescapeKQL ('\\' :: c :: rest) = '\\' :: unescapeKQL (c :: rest)) ∧
    parseKqlToFilters "name:my\\ file".toList =
      {standard := {name := "my\\ file".toList}} := by
  refine ⟨?_, ?_, by decide⟩
  · intro c rest h
    exact unescape_esc c rest h
  · intro c rest h
    exact unescape_noesc c rest h

theorem claim_C10_witness :
    unescapeKQL ('\\' :: ':' :: "x".toList) = ':' :: unescapeKQL "x".toList :=
  claim_C10.1 ':' "x".toList (by decide)

/-! ## Round-trip helper lemmas (towards claim C1) -/

theorem fieldChar_ne_star (c : Char) (h : isFieldChar c = true) : c ≠ '*' := by
  have := fieldChar_toNat c h
  simp only [ne_eq, charEq_iff, cvStar]
  omega

theorem head_ne_star_field (fs rest : Str) (hf : ∀ c ∈ fs, isFieldChar c = true)
    (hfne : fs ≠ []) : (fs ++ rest).head? ≠ some '*' := by
  obtain ⟨c, fs2, rfl⟩ := List.exists_cons_of_ne_nil hfne
  rw [List.cons_append, List.head?_cons]
  intro hc
  simp only [Option.some.injEq] at hc
  exact fieldChar_ne_star c (hf c (by simp)) hc

theorem head_ne_star_group (w : Str) :
    ('(' :: w ++ [')']).head? ≠ some '*' := by
  rw [head?_app_of_ne _ _ (by simp), List.head?_cons]
  decide

theorem tokenIsAnd_false_of_mem (t : Str) (x : Char) (hx : x ∈ t)
    (h : ucChar x ≠ 'A' ∧ ucChar x ≠ 'N' ∧ ucChar x ≠ 'D') :
    tokenIsAnd t = false := by
  rw [← Bool.not_eq_true, tokenIsAnd_iff]
  rintro ⟨a, b, c, rfl, h1, h2, h3⟩
  simp only [List.mem_cons, List.not_mem_nil, or_false] at hx
  rcases hx with rfl | rfl | rfl
  · exact h.1 h1
  · exact h.2.1 h2
  · exact h.2.2 h3

theorem nows_colon_clause (fs v : Str) (hf : ∀ c ∈ fs, isFieldChar c = true)
    (hv : NoWsStr v) : NoWsStr (fs ++ ':' :: v) := by
  intro c hc
  rcases List.mem_append.mp hc with h | h
  · exact fieldChar_not_ws c (hf c h)
  · rcases List.mem_cons.mp h with rfl | h
    · decide
    · exact hv c h

theorem noparen_colon_clause (fs v : Str) (hf : ∀ c ∈ fs, isFieldChar c = true)
    (hv : NoParenStr v) : NoParenStr (fs ++ ':' :: v) := by
  intro c hc
  rcases List.mem_append.mp hc with h | h
  · exact ⟨(fieldChar_ne c (hf c h)).2.1, (fieldChar_ne c (hf c h)).2.2⟩
  · rcases List.mem_cons.mp h with rfl | h
    · exact ⟨by decide, by decide⟩
    · exact hv c h

theorem nows_op_clause (fs : Str) (o1 o2 : Char) (v : Str)
    (hf : ∀ c ∈ fs, isFieldChar c = true) (h1 : isJsWs o1 = false)
    (h2 : isJsWs o2 = false) (hv : NoWsStr v) :
    NoWsStr (fs ++ o1 :: o2 :: v) := by
  intro c hc
  rcases List.mem_append.mp hc with h | h
  · exact fieldChar_not_ws c (hf c h)
  · rcases List.mem_cons.mp h with rfl | h
    · exact h1
    · rcases List.mem_cons.mp h with rfl | h
      · exact h2
      · exact hv c h

theorem noparen_op_clause (fs : Str) (o1 o2 : Char) (v : Str)
    (hf : ∀ c ∈ fs, isFieldChar c = true) (h1 : o1 ≠ '(' ∧ o1 ≠ ')')
    (h2 : o2 ≠ '(' ∧ o2 ≠ ')') (hv : NoParenStr v) :
    NoParenStr (fs ++ o1 :: o2 :: v) := by
  intro c hc
  rcases List.mem_append.mp hc with h | h
  · exact ⟨(fieldChar_ne c (hf c h)).2.1, (fieldChar_ne c (hf c h)).2.2⟩
  · rcases List.mem_cons.mp h with rfl | h
    · exact h1
    · rcases List.mem_cons.mp h with rfl | h
      · exact h2
      · exact hv c h

theorem good_colon_clause (fs v : Str) (hf : ∀ c ∈ fs, isFieldChar c = true)
    (hvws : NoWsStr v) (hvpar : NoParenStr v) :
    GoodPart (fs ++ ':' :: v) := by
  left
  refine ⟨by simp, nows_colon_clause fs v hf hvws,
    noparen_colon_clause fs v hf hvpar, ?_⟩
  exact tokenIsAnd_false_of_mem _ ':' (by simp) ⟨by decide, by decide, by decide⟩

theorem good_op_clause (fs : Str) (o1 o2 : Char) (v : Str)
    (hf : ∀ c ∈ fs, isFieldChar c = true)
    (h1 : isJsWs o1 = false) (h2 : isJsWs o2 = false)
    (hp1 : o1 ≠ '(' ∧ o1 ≠ ')') (hp2 : o2 ≠ '(' ∧ o2 ≠ ')')
    (ho : ucChar o1 ≠ 'A' ∧ ucChar o1 ≠ 'N' ∧ ucChar o1 ≠ 'D')
    (hvws : NoWsStr v) (hvpar : NoParenStr v) :
    GoodPart (fs ++ o1 :: o2 :: v) := by
  left
  refine ⟨by simp, nows_op_clause fs o1 o2 v hf h1 h2 hvws,
    noparen_op_clause fs o1 o2 v hf hp1 hp2 hvpar, ?_⟩
  exact tokenIsAnd_false_of_mem _ o1 (by simp) ho

theorem good_group_clause (w1 w2 : Str) (h1 : w1 ≠ []) (h2 : w2 ≠ [])
    (hw1 : NoWsStr w1) (hw2 : NoWsStr w2)
    (hp1 : NoParenStr w1) (hp2 : NoParenStr w2) :
    GoodPart ('(' :: (w1 ++ " AND ".toList ++ w2) ++ [')']) :=
  Or.inr ⟨w1, w2, rfl, h1, h2, hw1, hw2, hp1, hp2⟩

theorem clause_not_group (fs rest : Str)
    (hf : ∀ c ∈ fs, isFieldChar c = true) (hfne : fs ≠ []) :
    ¬((fs ++ rest).head? = some '(' ∧ (fs ++ rest).getLast? = some ')') := by
  rintro ⟨hh, -⟩
  obtain ⟨c, fs2, rfl⟩ := List.exists_cons_of_ne_nil hfne
  rw [List.cons_append, List.head?_cons] at hh
  simp only [Option.some.injEq] at hh
  exact (fieldChar_ne c (hf c (by simp))).2.1 hh

theorem step_plain_clause (N : Nat) (s : SearchFilters) (fs v : Str)
    (hf : ∀ c ∈ fs, isFieldChar c = true) (hfne : fs ≠ [])
    (hv : plainStr v = true) :
    parseKqlPartF (N + 1) s (jsTrim (fs ++ ':' :: v)) =
      knownFieldUpdate s (fs.map lcChar) v := by
  rw [jsTrim_nows _ (nows_colon_clause fs v hf (nows_plain v hv))]
  exact parse_plain_clause N s fs v hf hfne hv

theorem step_range_ge (N : Nat) (s : SearchFilters) (fs val : Str)
    (hf : ∀ c ∈ fs, isFieldChar c = true) (hfne : fs ≠ [])
    (hvne : val ≠ []) (hvws : NoWsStr val)
    (hvl : ∀ c ∈ val, isLineTerm c = false) :
    parseKqlPartF (N + 1) s (jsTrim (fs ++ '>' :: '=' :: val)) =
      applyRangeToFilters s (fs.map lcChar)
        ⟨fs.map lcChar, ">=".toList, val⟩ none := by
  rw [jsTrim_nows _ (nows_op_clause fs '>' '=' val hf (by decide) (by decide) hvws)]
  rw [parseKqlPartF_range N s _ _ (clause_not_group fs _ hf hfne)
    (parseRangePart_ge fs val hf hfne hvne hvl)]

theorem step_range_le (N : Nat) (s : SearchFilters) (fs val : Str)
    (hf : ∀ c ∈ fs, isFieldChar c = true) (hfne : fs ≠ [])
    (hvne : val ≠ []) (hvws : NoWsStr val)
    (hvl : ∀ c ∈ val, isLineTerm c = false) :
    parseKqlPartF (N + 1) s (jsTrim (fs ++ '<' :: '=' :: val)) =
      applyRangeToFilters s (fs.map lcChar)
        ⟨fs.map lcChar, "<=".toList, val⟩ none := by
  rw [jsTrim_nows _ (nows_op_clause fs '<' '=' val hf (by decide) (by decide) hvws)]
  rw [parseKqlPartF_range N s _ _ (clause_not_group fs _ hf hfne)
    (parseRangePart_le fs val hf hfne hvne hvl)]

theorem step_range_group (N : Nat) (s : SearchFilters) (fs v1 v2 : Str)
    (hf : ∀ c ∈ fs, isFieldChar c = true) (hfne : fs ≠ [])
    (hv1ne : v1 ≠ []) (hv2ne : v2 ≠ [])
    (hv1ws : NoWsStr v1) (hv2ws : NoWsStr v2)
    (hv1l : ∀ c ∈ v1, isLineTerm c = false)
    (hv2l : ∀ c ∈ v2, isLineTerm c = false) :
    parseKqlPartF (N + 1) s
      (jsTrim ('(' :: ((fs ++ '>' :: '=' :: v1) ++ " AND ".toList ++
        (fs ++ '<' :: '=' :: v2)) ++ [')'])) =
      applyRangeToFilters s (fs.map lcChar)
        ⟨fs.map lcChar, ">=".toList, v1⟩
        (some ⟨fs.map lcChar, "<=".toList, v2⟩) := by
  rw [group_trim]
  rw [parseKqlPartF_merge N s _ _ _ _
    (parseRangePart_ge fs v1 hf hfne hv1ne hv1l)
    (parseRangePart_le fs v2 hf hfne hv2ne hv2l) rfl
    (nows_op_clause fs '>' '=' v1 hf (by decide) (by decide) hv1ws)
    (nows_op_clause fs '<' '=' v2 hf (by decide) (by decide) hv2ws)]

theorem splitOn_no_sep (sep : Char) (s : Str) (h : ∀ c ∈ s, c ≠ sep) :
    splitOn sep s = [s] := by
  induction s with
  | nil => rfl
  | cons a t ih =>
    unfold splitOn
    rw [if_neg (h a (by simp))]
    rw [ih (fun c hc => h c (by simp [hc]))]


/-! ## Serializer-chunk round-trip lemmas (claim C1)

For each serializer chunk: the emitted parts are `GoodPart`s not starting
with `*`, an empty chunk means the field was absent, and folding the
parser step over the chunk writes exactly the field back. -/

theorem c1_name (v : Str) (hv : plainStr v = true) :
    (∀ p ∈ (if v ≠ [] then ["name:".toList ++ escapeKQL v] else ([] : List Str)),
      GoodPart p ∧ p.head? ≠ some '*') ∧
    ((if v ≠ [] then ["name:".toList ++ escapeKQL v] else ([] : List Str)) = [] →
      v = []) ∧
    (∀ (N : Nat) (s : SearchFilters), s.standard.name = [] →
      (if v ≠ [] then ["name:".toList ++ escapeKQL v] else ([] : List Str)).foldl
        (fun g p => parseKqlPartF (N + 1) g (jsTrim p)) s =
      {s with standard.name := v}) := by
  by_cases hve : v = []
  · subst hve
    rw [if_neg (by simp)]
    refine ⟨by simp, fun _ => rfl, fun N s hs => ?_⟩
    show s = {s with standard.name := ([] : Str)}
    rw [← hs]
  · rw [if_pos hve, escapeKQL_plain v hv]
    refine ⟨?_, by simp, fun N s hs => ?_⟩
    · intro p hp
      simp only [List.mem_singleton] at hp
      subst hp
      constructor
      · exact good_colon_clause "name".toList v (by decide)
          (nows_plain v hv) (noparen_plain v hv)
      · exact head_ne_star_field "name".toList (':' :: v) (by decide) (by decide)
    · show parseKqlPartF (N + 1) s (jsTrim ("name:".toList ++ v)) =
        {s with standard.name := v}
      rw [show ("name:".toList ++ v : Str) = "name".toList ++ ':' :: v from rfl]
      rw [step_plain_clause N s "name".toList v (by decide) (by decide) hv]
      rw [(by decide : (("name".toList : Str).map lcChar) = "name".toList)]
      rw [kfu_name]

theorem c1_type (v : Str)
    (hv : v = [] ∨ v = "file".toList ∨ v = "folder".toList) :
    (∀ p ∈ (if v = "file".toList then ["Type:1".toList]
        else if v = "folder".toList then ["Type:2".toList]
        else ([] : List Str)), GoodPart p ∧ p.head? ≠ some '*') ∧
    ((if v = "file".toList then ["Type:1".toList]
        else if v = "folder".toList then ["Type:2".toList]
        else ([] : List Str)) = [] → v = []) ∧
    (∀ (N : Nat) (s : SearchFilters), s.standard.type = [] →
      (if v = "file".toList then ["Type:1".toList]
        else if v = "folder".toList then ["Type:2".toList]
        else ([] : List Str)).foldl
        (fun g p => parseKqlPartF (N + 1) g (jsTrim p)) s =
      {s with standard.type := v}) := by
  rcases hv with rfl | rfl | rfl
  · rw [if_neg (by decide), if_neg (by decide)]
    refine ⟨by simp, fun _ => rfl, fun N s hs => ?_⟩
    show s = {s with standard.type := ([] : Str)}
    rw [← hs]
  · rw [if_pos rfl]
    refine ⟨?_, by simp, fun N s hs => ?_⟩
    · intro p hp
      simp only [List.mem_singleton] at hp
      subst hp
      exact ⟨Or.inl ⟨by decide, by decide, by decide, by decide⟩, by decide⟩
    · show parseKqlPartF (N + 1) s (jsTrim "Type:1".toList) =
        {s with standard.type := "file".toList}
      rw [show ("Type:1".toList : Str) = "Type".toList ++ ':' :: ['1'] from rfl]
      rw [step_plain_clause N s "Type".toList ['1'] (by decide) (by decide)
        (by decide)]
      rw [(by decide : (("Type".toList : Str).map lcChar) = "type".toList)]
      rw [kfu_type, if_pos rfl]
  · rw [if_neg (by decide), if_pos rfl]
    refine ⟨?_, by simp, fun N s hs => ?_⟩
    · intro p hp
      simp only [List.mem_singleton] at hp
      subst hp
      exact ⟨Or.inl ⟨by decide, by decide, by decide, by decide⟩, by decide⟩
    · show parseKqlPartF (N + 1) s (jsTrim "Type:2".toList) =
        {s with standard.type := "folder".toList}
      rw [show ("Type:2".toList : Str) = "Type".toList ++ ':' :: ['2'] from rfl]
      rw [step_plain_clause N s "Type".toList ['2'] (by decide) (by decide)
        (by decide)]
      rw [(by decide : (("Type".toList : Str).map lcChar) = "type".toList)]
      rw [kfu_type, if_neg (by decide), if_pos rfl]

theorem c1_mediatype (v : Str) (hv : plainStr v = true) :
    (∀ p ∈ (if v ≠ [] then ["mediatype:".toList ++ escapeKQL v]
        else ([] : List Str)), GoodPart p ∧ p.head? ≠ some '*') ∧
    ((if v ≠ [] then ["mediatype:".toList ++ escapeKQL v]
        else ([] : List Str)) = [] → v = []) ∧
    (∀ (N : Nat) (s : SearchFilters), s.standard.mediaType = [] →
      (if v ≠ [] then ["mediatype:".toList ++ escapeKQL v]
        else ([] : List Str)).foldl
        (fun g p => parseKqlPartF (N + 1) g (jsTrim p)) s =
      {s with standard.mediaType := v}) := by
  by_cases hve : v = []
  · subst hve
    rw [if_neg (by simp)]
    refine ⟨by simp, fun _ => rfl, fun N s hs => ?_⟩
    show s = {s with standard.mediaType := ([] : Str)}
    rw [← hs]
  · rw [if_pos hve, escapeKQL_plain v hv]
    refine ⟨?_, by simp, fun N s hs => ?_⟩
    · intro p hp
      simp only [List.mem_singleton] at hp
      subst hp
      constructor
      · exact good_colon_clause "mediatype".toList v (by decide)
          (nows_plain v hv) (noparen_plain v hv)
      · exact head_ne_star_field "mediatype".toList (':' :: v)
          (by decide) (by decide)
    · show parseKqlPartF (N + 1) s (jsTrim ("mediatype:".toList ++ v)) =
        {s with standard.mediaType := v}
      rw [show ("mediatype:".toList ++ v : Str) =
        "mediatype".toList ++ ':' :: v from rfl]
      rw [step_plain_clause N s "mediatype".toList v (by decide) (by decide) hv]
      rw [(by decide : (("mediatype".toList : Str).map lcChar) =
        "mediatype".toList)]
      rw [kfu_mediatype]

theorem c1_content (v : Str) (hv : plainStr v = true) :
    (∀ p ∈ (if v ≠ [] then ["content:".toList ++ escapeKQL v]
        else ([] : List Str)), GoodPart p ∧ p.head? ≠ some '*') ∧
    ((if v ≠ [] then ["content:".toList ++ escapeKQL v]
        else ([] : List Str)) = [] → v = []) ∧
    (∀ (N : Nat) (s : SearchFilters), s.standard.content = [] →
      (if v ≠ [] then ["content:".toList ++ escapeKQL v]
        else ([] : List Str)).foldl
        (fun g p => parseKqlPartF (N + 1) g (jsTrim p)) s =
      {s with standard.content := v}) := by
  by_cases hve : v = []
  · subst hve
    rw [if_neg (by simp)]
    refine ⟨by simp, fun _ => rfl, fun N s hs => ?_⟩
    show s = {s with standard.content := ([] : Str)}
    rw [← hs]
  · rw [if_pos hve, escapeKQL_plain v hv]
    refine ⟨?_, by simp, fun N s hs => ?_⟩
    · intro p hp
      simp only [List.mem_singleton] at hp
      subst hp
      constructor
      · exact good_colon_clause "content".toList v (by decide)
          (nows_plain v hv) (noparen_plain v hv)
      · exact head_ne_star_field "content".toList (':' :: v)
          (by decide) (by decide)
    · show parseKqlPartF (N + 1) s (jsTrim ("content:".toList ++ v)) =
        {s with standard.content := v}
      rw [show ("content:".toList ++ v : Str) =
        "content".toList ++ ':' :: v from rfl]
      rw [step_plain_clause N s "content".toList v (by decide) (by decide) hv]
      rw [(by decide : (("content".toList : Str).map lcChar) = "content".toList)]
      rw [kfu_content]

theorem c1_cameramake (v : Str) (hv : plainStr v = true) :
    (∀ p ∈ (if v ≠ [] then ["photo.cameramake:".toList ++ escapeKQL v]
        else ([] : List Str)), GoodPart p ∧ p.head? ≠ some '*') ∧
    ((if v ≠ [] then ["photo.cameramake:".toList ++ escapeKQL v]
        else ([] : List Str)) = [] → v = []) ∧
    (∀ (N : Nat) (s : SearchFilters), s.photo.cameraMake = [] →
      (if v ≠ [] then ["photo.cameramake:".toList ++ escapeKQL v]
        else ([] : List Str)).foldl
        (fun g p => parseKqlPartF (N + 1) g (jsTrim p)) s =
      {s with photo.cameraMake := v}) := by
  by_cases hve : v = []
  · subst hve
    rw [if_neg (by simp)]
    refine ⟨by simp, fun _ => rfl, fun N s hs => ?_⟩
    show s = {s with photo.cameraMake := ([] : Str)}
    rw [← hs]
  · rw [if_pos hve, escapeKQL_plain v hv]
    refine ⟨?_, by simp, fun N s hs => ?_⟩
    · intro p hp
      simp only [List.mem_singleton] at hp
      subst hp
      constructor
      · exact good_colon_clause "photo.cameramake".toList v (by decide)
          (nows_plain v hv) (noparen_plain v hv)
      · exact head_ne_star_field "photo.cameramake".toList (':' :: v)
          (by decide) (by decide)
    · show parseKqlPartF (N + 1) s (jsTrim ("photo.cameramake:".toList ++ v)) =
        {s with photo.cameraMake := v}
      rw [show ("photo.cameramake:".toList ++ v : Str) =
        "photo.cameramake".toList ++ ':' :: v from rfl]
      rw [step_plain_clause N s "photo.cameramake".toList v (by decide)
        (by decide) hv]
      rw [(by decide : (("photo.cameramake".toList : Str).map lcChar) =
        "photo.cameramake".toList)]
      rw [kfu_cameramake]

theorem c1_cameramodel (v : Str) (hv : plainStr v = true) :
    (∀ p ∈ (if v ≠ [] then ["photo.cameramodel:".toList ++ escapeKQL v]
        else ([] : List Str)), GoodPart p ∧ p.head? ≠ some '*') ∧
    ((if v ≠ [] then ["photo.cameramodel:".toList ++ escapeKQL v]
        else ([] : List Str)) = [] → v = []) ∧
    (∀ (N : Nat) (s : SearchFilters), s.photo.cameraModel = [] →
      (if v ≠ [] then ["photo.cameramodel:".toList ++ escapeKQL v]
        else ([] : List Str)).foldl
        (fun g p => parseKqlPartF (N + 1) g (jsTrim p)) s =
      {s with photo.cameraModel := v}) := by
  by_cases hve : v = []
  · subst hve
    rw [if_neg (by simp)]
    refine ⟨by simp, fun _ => rfl, fun N s hs => ?_⟩
    show s = {s with photo.cameraModel := ([] : Str)}
    rw [← hs]
  · rw [if_pos hve, escapeKQL_plain v hv]
    refine ⟨?_, by simp, fun N s hs => ?_⟩
    · intro p hp
      simp only [List.mem_singleton] at hp
      subst hp
      constructor
      · exact good_colon_clause "photo.cameramodel".toList v (by decide)
          (nows_plain v hv) (noparen_plain v hv)
      · exact head_ne_star_field "photo.cameramodel".toList (':' :: v)
          (by decide) (by decide)
    · show parseKqlPartF (N + 1) s (jsTrim ("photo.cameramodel:".toList ++ v)) =
        {s with photo.cameraModel := v}
      rw [show ("photo.cameramodel:".toList ++ v : Str) =
        "photo.cameramodel".toList ++ ':' :: v from rfl]
      rw [step_plain_clause N s "photo.cameramodel".toList v (by decide)
        (by decide) hv]
      rw [(by decide : (("photo.cameramodel".toList : Str).map lcChar) =
        "photo.cameramodel".toList)]
      rw [kfu_cameramodel]

theorem c1_tags (v : Str) (hv : plainStr v = true) :
    (∀ p ∈ (if v ≠ [] then
        (let tagList := ((splitOn ',' v).map jsTrim).filter (· ≠ [])
         match tagList with
         | [t] => ["tags:".toList ++ escapeKQL t]
         | [] => []
         | ts =>
           ['(' :: joinSep " OR ".toList
             (ts.map (fun t => "tags:".toList ++ escapeKQL t)) ++ [')']])
       else ([] : List Str)), GoodPart p ∧ p.head? ≠ some '*') ∧
    ((if v ≠ [] then
        (let tagList := ((splitOn ',' v).map jsTrim).filter (· ≠ [])
         match tagList with
         | [t] => ["tags:".toList ++ escapeKQL t]
         | [] => []
         | ts =>
           ['(' :: joinSep " OR ".toList
             (ts.map (fun t => "tags:".toList ++ escapeKQL t)) ++ [')']])
       else ([] : List Str)) = [] → v = []) ∧
    (∀ (N : Nat) (s : SearchFilters), s.standard.tags = [] →
      (if v ≠ [] then
        (let tagList := ((splitOn ',' v).map jsTrim).filter (· ≠ [])
         match tagList with
         | [t] => ["tags:".toList ++ escapeKQL t]
         | [] => []
         | ts =>
           ['(' :: joinSep " OR ".toList
             (ts.map (fun t => "tags:".toList ++ escapeKQL t)) ++ [')']])
       else ([] : List Str)).foldl
        (fun g p => parseKqlPartF (N + 1) g (jsTrim p)) s =
      {s with standard.tags := v}) := by
  by_cases hve : v = []
  · subst hve
    rw [if_neg (by simp)]
    refine ⟨by simp, fun _ => rfl, fun N s hs => ?_⟩
    show s = {s with standard.tags := ([] : Str)}
    rw [← hs]
  · rw [if_pos hve]
    have hsp : ((splitOn ',' v).map jsTrim).filter (· ≠ []) = [v] := by
      rw [splitOn_no_sep ',' v
        (fun c hc => (plain_ne c (plainStr_mem v hv c hc)).2.2.2.2.2.2.2.2.1)]
      rw [List.map_cons, List.map_nil, jsTrim_nows v (nows_plain v hv)]
      simp [hve]
    have hchunk : (let tagList := ((splitOn ',' v).map jsTrim).filter (· ≠ [])
         match tagList with
         | [t] => ["tags:".toList ++ escapeKQL t]
         | [] => []
         | ts =>
           ['(' :: joinSep " OR ".toList
             (ts.map (fun t => "tags:".toList ++ escapeKQL t)) ++ [')']]) =
        ["tags:".toList ++ escapeKQL v] := by
      show (match ((splitOn ',' v).map jsTrim).filter (· ≠ []) with
         | [t] => ["tags:".toList ++ escapeKQL t]
         | [] => []
         | ts =>
           ['(' :: joinSep " OR ".toList
             (ts.map (fun t => "tags:".toList ++ escapeKQL t)) ++ [')']]) =
        ["tags:".toList ++ escapeKQL v]
      rw [hsp]
    rw [hchunk, escapeKQL_plain v hv]
    refine ⟨?_, by simp, fun N s hs => ?_⟩
    · intro p hp
      simp only [List.mem_singleton] at hp
      subst hp
      constructor
      · exact good_colon_clause "tags".toList v (by decide)
          (nows_plain v hv) (noparen_plain v hv)
      · exact head_ne_star_field "tags".toList (':' :: v) (by decide) (by decide)
    · show parseKqlPartF (N + 1) s (jsTrim ("tags:".toList ++ v)) =
        {s with standard.tags := v}
      rw [show ("tags:".toList ++ v : Str) = "tags".toList ++ ':' :: v from rfl]
      rw [step_plain_clause N s "tags".toList v (by decide) (by decide) hv]
      rw [(by decide : (("tags".toList : Str).map lcChar) = "tags".toList)]
      rw [kfu_tags, hs, if_neg (by simp)]


theorem c1_size (v : Option NumericRange) (hv : goodNumRange v = true) :
    (∀ p ∈ (match v with
        | some r => (buildRangeQuery "size".toList r).toList
        | none => ([] : List Str)), GoodPart p ∧ p.head? ≠ some '*') ∧
    ((match v with
        | some r => (buildRangeQuery "size".toList r).toList
        | none => ([] : List Str)) = [] → v = none) ∧
    (∀ (N : Nat) (s : SearchFilters), s.standard.sizeRange = none →
      (match v with
        | some r => (buildRangeQuery "size".toList r).toList
        | none => ([] : List Str)).foldl
        (fun g p => parseKqlPartF (N + 1) g (jsTrim p)) s =
      {s with standard.sizeRange := v}) := by
  cases v with
  | none =>
    have hm : (match (none : Option NumericRange) with
        | some r => (buildRangeQuery "size".toList r).toList
        | none => ([] : List Str)) = ([] : List Str) := rfl
    rw [hm]
    refine ⟨by simp, fun _ => rfl, fun N s hs => ?_⟩
    show s = {s with standard.sizeRange := (none : Option NumericRange)}
    rw [← hs]
  | some r =>
    have hm : (match (some r : Option NumericRange) with
        | some r => (buildRangeQuery "size".toList r).toList
        | none => ([] : List Str)) = (buildRangeQuery "size".toList r).toList := rfl
    rw [hm]
    obtain ⟨mn, mx⟩ := r
    simp only [goodNumRange, Bool.and_eq_true, Bool.or_eq_true] at hv
    obtain ⟨⟨hmn, hmx⟩, hor⟩ := hv
    cases mn with
    | none =>
      cases mx with
      | none => simp at hor
      | some M =>
        cases M with
        | nan => simp [intBound] at hmx
        | num q =>
          simp only [intBound, Bool.and_eq_true, decide_eq_true_eq] at hmx
          obtain ⟨hden, habs⟩ := hmx
          obtain ⟨w, hw, hwne, hwchars, hwparse, -⟩ := int_render_spec q hden habs
          rw [buildRangeQuery_max, hw, Option.toList_some]
          rw [show ("size".toList ++ "<=".toList ++ w : Str) =
            "size".toList ++ '<' :: '=' :: w from rfl]
          refine ⟨?_, by simp, fun N s hs => ?_⟩
          · intro p hp
            simp only [List.mem_singleton] at hp
            subst hp
            constructor
            · exact good_op_clause "size".toList '<' '=' w
                (by decide) (by decide) (by decide) ⟨by decide, by decide⟩
                ⟨by decide, by decide⟩ ⟨by decide, by decide, by decide⟩
                (fun c hc => numValChar_not_ws c (hwchars c hc))
                (fun c hc => numValChar_noparen c (hwchars c hc))
            · exact head_ne_star_field "size".toList ('<' :: '=' :: w)
                (by decide) (by decide)
          · simp only [List.foldl_cons, List.foldl_nil]
            rw [step_range_le N s "size".toList w (by decide) (by decide) hwne
              (fun c hc => numValChar_not_ws c (hwchars c hc))
              (fun c hc => numValChar_not_lineterm c (hwchars c hc))]
            rw [(by decide : (("size".toList : Str).map lcChar) =
              "size".toList)]
            rw [applyRange_size]
            rw [applyBounds_single_le ⟨"size".toList, "<=".toList, w⟩
              (Or.inl rfl)]
            simp only [Option.map_some', Option.map_none', hwparse]
    | some m =>
      cases mx with
      | none =>
        cases m with
        | nan => simp [intBound] at hmn
        | num q =>
          simp only [intBound, Bool.and_eq_true, decide_eq_true_eq] at hmn
          obtain ⟨hden, habs⟩ := hmn
          obtain ⟨w, hw, hwne, hwchars, hwparse, -⟩ := int_render_spec q hden habs
          rw [buildRangeQuery_min, hw, Option.toList_some]
          rw [show ("size".toList ++ ">=".toList ++ w : Str) =
            "size".toList ++ '>' :: '=' :: w from rfl]
          refine ⟨?_, by simp, fun N s hs => ?_⟩
          · intro p hp
            simp only [List.mem_singleton] at hp
            subst hp
            constructor
            · exact good_op_clause "size".toList '>' '=' w
                (by decide) (by decide) (by decide) ⟨by decide, by decide⟩
                ⟨by decide, by decide⟩ ⟨by decide, by decide, by decide⟩
                (fun c hc => numValChar_not_ws c (hwchars c hc))
                (fun c hc => numValChar_noparen c (hwchars c hc))
            · exact head_ne_star_field "size".toList ('>' :: '=' :: w)
                (by decide) (by decide)
          · simp only [List.foldl_cons, List.foldl_nil]
            rw [step_range_ge N s "size".toList w (by decide) (by decide) hwne
              (fun c hc => numValChar_not_ws c (hwchars c hc))
              (fun c hc => numValChar_not_lineterm c (hwchars c hc))]
            rw [(by decide : (("size".toList : Str).map lcChar) =
              "size".toList)]
            rw [applyRange_size]
            rw [applyBounds_single_ge ⟨"size".toList, ">=".toList, w⟩
              (Or.inl rfl)]
            simp only [Option.map_some', Option.map_none', hwparse]
      | some M =>
        cases m with
        | nan => simp [intBound] at hmn
        | num q1 =>
          cases M with
          | nan => simp [intBound] at hmx
          | num q2 =>
            simp only [intBound, Bool.and_eq_true, decide_eq_true_eq] at hmn hmx
            obtain ⟨hden1, habs1⟩ := hmn
            obtain ⟨hden2, habs2⟩ := hmx
            obtain ⟨w1, hw1, hw1ne, hw1chars, hw1parse, -⟩ := int_render_spec q1 hden1 habs1
            obtain ⟨w2, hw2, hw2ne, hw2chars, hw2parse, -⟩ := int_render_spec q2 hden2 habs2
            rw [buildRangeQuery_both, hw1, hw2, Option.toList_some]
            rw [show ("size".toList ++ ">=".toList ++ w1 : Str) =
              "size".toList ++ '>' :: '=' :: w1 from rfl]
            rw [show ("size".toList ++ "<=".toList ++ w2 : Str) =
              "size".toList ++ '<' :: '=' :: w2 from rfl]
            refine ⟨?_, by simp, fun N s hs => ?_⟩
            · intro p hp
              simp only [List.mem_singleton] at hp
              subst hp
              constructor
              · exact good_group_clause _ _ (by simp) (by simp)
                  (nows_op_clause "size".toList '>' '=' w1
                    (by decide) (by decide) (by decide)
                    (fun c hc => numValChar_not_ws c (hw1chars c hc)))
                  (nows_op_clause "size".toList '<' '=' w2
                    (by decide) (by decide) (by decide)
                    (fun c hc => numValChar_not_ws c (hw2chars c hc)))
                  (noparen_op_clause "size".toList '>' '=' w1 (by decide)
                    ⟨by decide, by decide⟩ ⟨by decide, by decide⟩
                    (fun c hc => numValChar_noparen c (hw1chars c hc)))
                  (noparen_op_clause "size".toList '<' '=' w2 (by decide)
                    ⟨by decide, by decide⟩ ⟨by decide, by decide⟩
                    (fun c hc => numValChar_noparen c (hw2chars c hc)))
              · exact head_ne_star_group _
            · simp only [List.foldl_cons, List.foldl_nil]
              rw [step_range_group N s "size".toList w1 w2
                (by decide) (by decide) hw1ne hw2ne
                (fun c hc => numValChar_not_ws c (hw1chars c hc))
                (fun c hc => numValChar_not_ws c (hw2chars c hc))
                (fun c hc => numValChar_not_lineterm c (hw1chars c hc))
                (fun c hc => numValChar_not_lineterm c (hw2chars c hc))]
              rw [(by decide : (("size".toList : Str).map lcChar) =
                "size".toList)]
              rw [applyRange_size]
              rw [applyBounds_ge_le ⟨"size".toList, ">=".toList, w1⟩
                ⟨"size".toList, "<=".toList, w2⟩ (Or.inl rfl) (Or.inl rfl)]
              simp only [Option.map_some', hw1parse, hw2parse]


theorem c1_iso (v : Option NumericRange) (hv : goodNumRange v = true) :
    (∀ p ∈ (match v with
        | some r => (buildRangeQuery "photo.iso".toList r).toList
        | none => ([] : List Str)), GoodPart p ∧ p.head? ≠ some '*') ∧
    ((match v with
        | some r => (buildRangeQuery "photo.iso".toList r).toList
        | none => ([] : List Str)) = [] → v = none) ∧
    (∀ (N : Nat) (s : SearchFilters), s.photo.isoRange = none →
      (match v with
        | some r => (buildRangeQuery "photo.iso".toList r).toList
        | none => ([] : List Str)).foldl
        (fun g p => parseKqlPartF (N + 1) g (jsTrim p)) s =
      {s with photo.isoRange := v}) := by
  cases v with
  | none =>
    have hm : (match (none : Option NumericRange) with
        | some r => (buildRangeQuery "photo.iso".toList r).toList
        | none => ([] : List Str)) = ([] : List Str) := rfl
    rw [hm]
    refine ⟨by simp, fun _ => rfl, fun N s hs => ?_⟩
    show s = {s with photo.isoRange := (none : Option NumericRange)}
    rw [← hs]
  | some r =>
    have hm : (match (some r : Option NumericRange) with
        | some r => (buildRangeQuery "photo.iso".toList r).toList
        | none => ([] : List Str)) = (buildRangeQuery "photo.iso".toList r).toList := rfl
    rw [hm]
    obtain ⟨mn, mx⟩ := r
    simp only [goodNumRange, Bool.and_eq_true, Bool.or_eq_true] at hv
    obtain ⟨⟨hmn, hmx⟩, hor⟩ := hv
    cases mn with
    | none =>
      cases mx with
      | none => simp at hor
      | some M =>
        cases M with
        | nan => simp [intBound] at hmx
        | num q =>
          simp only [intBound, Bool.and_eq_true, decide_eq_true_eq] at hmx
          obtain ⟨hden, habs⟩ := hmx
          obtain ⟨w, hw, hwne, hwchars, hwparse, -⟩ := int_render_spec q hden habs
          rw [buildRangeQuery_max, hw, Option.toList_some]
          rw [show ("photo.iso".toList ++ "<=".toList ++ w : Str) =
            "photo.iso".toList ++ '<' :: '=' :: w from rfl]
          refine ⟨?_, by simp, fun N s hs => ?_⟩
          · intro p hp
            simp only [List.mem_singleton] at hp
            subst hp
            constructor
            · exact good_op_clause "photo.iso".toList '<' '=' w
                (by decide) (by decide) (by decide) ⟨by decide, by decide⟩
                ⟨by decide, by decide⟩ ⟨by decide, by decide, by decide⟩
                (fun c hc => numValChar_not_ws c (hwchars c hc))
                (fun c hc => numValChar_noparen c (hwchars c hc))
            · exact head_ne_star_field "photo.iso".toList ('<' :: '=' :: w)
                (by decide) (by decide)
          · simp only [List.foldl_cons, List.foldl_nil]
            rw [step_range_le N s "photo.iso".toList w (by decide) (by decide) hwne
              (fun c hc => numValChar_not_ws c (hwchars c hc))
              (fun c hc => numValChar_not_lineterm c (hwchars c hc))]
            rw [(by decide : (("photo.iso".toList : Str).map lcChar) =
              "photo.iso".toList)]
            rw [applyRange_iso]
            rw [applyBounds_single_le ⟨"photo.iso".toList, "<=".toList, w⟩
              (Or.inl rfl)]
            simp only [Option.map_some', Option.map_none', hwparse]
    | some m =>
      cases mx with
      | none =>
        cases m with
        | nan => simp [intBound] at hmn
        | num q =>
          simp only [intBound, Bool.and_eq_true, decide_eq_true_eq] at hmn
          obtain ⟨hden, habs⟩ := hmn
          obtain ⟨w, hw, hwne, hwchars, hwparse, -⟩ := int_render_spec q hden habs
          rw [buildRangeQuery_min, hw, Option.toList_some]
          rw [show ("photo.iso".toList ++ ">=".toList ++ w : Str) =
            "photo.iso".toList ++ '>' :: '=' :: w from rfl]
          refine ⟨?_, by simp, fun N s hs => ?_⟩
          · intro p hp
            simp only [List.mem_singleton] at hp
            subst hp
            constructor
            · exact good_op_clause "photo.iso".toList '>' '=' w
                (by decide) (by decide) (by decide) ⟨by decide, by decide⟩
                ⟨by decide, by decide⟩ ⟨by decide, by decide, by decide⟩
                (fun c hc => numValChar_not_ws c (hwchars c hc))
                (fun c hc => numValChar_noparen c (hwchars c hc))
            · exact head_ne_star_field "photo.iso".toList ('>' :: '=' :: w)
                (by decide) (by decide)
          · simp only [List.foldl_cons, List.foldl_nil]
            rw [step_range_ge N s "photo.iso".toList w (by decide) (by decide) hwne
              (fun c hc => numValChar_not_ws c (hwchars c hc))
              (fun c hc => numValChar_not_lineterm c (hwchars c hc))]
            rw [(by decide : (("photo.iso".toList : Str).map lcChar) =
              "photo.iso".toList)]
            rw [applyRange_iso]
            rw [applyBounds_single_ge ⟨"photo.iso".toList, ">=".toList, w⟩
              (Or.inl rfl)]
            simp only [Option.map_some', Option.map_none', hwparse]
      | some M =>
        cases m with
        | nan => simp [intBound] at hmn
        | num q1 =>
          cases M with
          | nan => simp [intBound] at hmx
          | num q2 =>
            simp only [intBound, Bool.and_eq_true, decide_eq_true_eq] at hmn hmx
            obtain ⟨hden1, habs1⟩ := hmn
            obtain ⟨hden2, habs2⟩ := hmx
            obtain ⟨w1, hw1, hw1ne, hw1chars, hw1parse, -⟩ := int_render_spec q1 hden1 habs1
            obtain ⟨w2, hw2, hw2ne, hw2chars, hw2parse, -⟩ := int_render_spec q2 hden2 habs2
            rw [buildRangeQuery_both, hw1, hw2, Option.toList_some]
            rw [show ("photo.iso".toList ++ ">=".toList ++ w1 : Str) =
              "photo.iso".toList ++ '>' :: '=' :: w1 from rfl]
            rw [show ("photo.iso".toList ++ "<=".toList ++ w2 : Str) =
              "photo.iso".toList ++ '<' :: '=' :: w2 from rfl]
            refine ⟨?_, by simp, fun N s hs => ?_⟩
            · intro p hp
              simp only [List.mem_singleton] at hp
              subst hp
              constructor
              · exact good_group_clause _ _ (by simp) (by simp)
                  (nows_op_clause "photo.iso".toList '>' '=' w1
                    (by decide) (by decide) (by decide)
                    (fun c hc => numValChar_not_ws c (hw1chars c hc)))
                  (nows_op_clause "photo.iso".toList '<' '=' w2
                    (by decide) (by decide) (by decide)
                    (fun c hc => numValChar_not_ws c (hw2chars c hc)))
                  (noparen_op_clause "photo.iso".toList '>' '=' w1 (by decide)
                    ⟨by decide, by decide⟩ ⟨by decide, by decide⟩
                    (fun c hc => numValChar_noparen c (hw1chars c hc)))
                  (noparen_op_clause "photo.iso".toList '<' '=' w2 (by decide)
                    ⟨by decide, by decide⟩ ⟨by decide, by decide⟩
                    (fun c hc => numValChar_noparen c (hw2chars c hc)))
              · exact head_ne_star_group _
            · simp only [List.foldl_cons, List.foldl_nil]
              rw [step_range_group N s "photo.iso".toList w1 w2
                (by decide) (by decide) hw1ne hw2ne
                (fun c hc => numValChar_not_ws c (hw1chars c hc))
                (fun c hc => numValChar_not_ws c (hw2chars c hc))
                (fun c hc => numValChar_not_lineterm c (hw1chars c hc))
                (fun c hc => numValChar_not_lineterm c (hw2chars c hc))]
              rw [(by decide : (("photo.iso".toList : Str).map lcChar) =
                "photo.iso".toList)]
              rw [applyRange_iso]
              rw [applyBounds_ge_le ⟨"photo.iso".toList, ">=".toList, w1⟩
                ⟨"photo.iso".toList, "<=".toList, w2⟩ (Or.inl rfl) (Or.inl rfl)]
              simp only [Option.map_some', hw1parse, hw2parse]


theorem c1_fnumber (v : Option NumericRange) (hv : goodFloatRange v = true) :
    (∀ p ∈ (match v with
        | some r => (buildRangeQuery "photo.fnumber".toList r).toList
        | none => ([] : List Str)), GoodPart p ∧ p.head? ≠ some '*') ∧
    ((match v with
        | some r => (buildRangeQuery "photo.fnumber".toList r).toList
        | none => ([] : List Str)) = [] → v = none) ∧
    (∀ (N : Nat) (s : SearchFilters), s.photo.fNumberRange = none →
      (match v with
        | some r => (buildRangeQuery "photo.fnumber".toList r).toList
        | none => ([] : List Str)).foldl
        (fun g p => parseKqlPartF (N + 1) g (jsTrim p)) s =
      {s with photo.fNumberRange := v}) := by
  cases v with
  | none =>
    have hm : (match (none : Option NumericRange) with
        | some r => (buildRangeQuery "photo.fnumber".toList r).toList
        | none => ([] : List Str)) = ([] : List Str) := rfl
    rw [hm]
    refine ⟨by simp, fun _ => rfl, fun N s hs => ?_⟩
    show s = {s with photo.fNumberRange := (none : Option NumericRange)}
    rw [← hs]
  | some r =>
    have hm : (match (some r : Option NumericRange) with
        | some r => (buildRangeQuery "photo.fnumber".toList r).toList
        | none => ([] : List Str)) = (buildRangeQuery "photo.fnumber".toList r).toList := rfl
    rw [hm]
    obtain ⟨mn, mx⟩ := r
    simp only [goodFloatRange, Bool.and_eq_true, Bool.or_eq_true] at hv
    obtain ⟨⟨hmn, hmx⟩, hor⟩ := hv
    cases mn with
    | none =>
      cases mx with
      | none => simp at hor
      | some M =>
        cases M with
        | nan => simp [floatBound] at hmx
        | num q =>
          simp only [floatBound, Bool.and_eq_true, decide_eq_true_eq] at hmx
          obtain ⟨hden, habs⟩ := hmx
          obtain ⟨w, hw, hwne, hwchars, hwparse⟩ := float_render_spec q hden habs
          rw [buildRangeQuery_max, hw, Option.toList_some]
          rw [show ("photo.fnumber".toList ++ "<=".toList ++ w : Str) =
            "photo.fnumber".toList ++ '<' :: '=' :: w from rfl]
          refine ⟨?_, by simp, fun N s hs => ?_⟩
          · intro p hp
            simp only [List.mem_singleton] at hp
            subst hp
            constructor
            · exact good_op_clause "photo.fnumber".toList '<' '=' w
                (by decide) (by decide) (by decide) ⟨by decide, by decide⟩
                ⟨by decide, by decide⟩ ⟨by decide, by decide, by decide⟩
                (fun c hc => numValChar_not_ws c (hwchars c hc))
                (fun c hc => numValChar_noparen c (hwchars c hc))
            · exact head_ne_star_field "photo.fnumber".toList ('<' :: '=' :: w)
                (by decide) (by decide)
          · simp only [List.foldl_cons, List.foldl_nil]
            rw [step_range_le N s "photo.fnumber".toList w (by decide) (by decide) hwne
              (fun c hc => numValChar_not_ws c (hwchars c hc))
              (fun c hc => numValChar_not_lineterm c (hwchars c hc))]
            rw [(by decide : (("photo.fnumber".toList : Str).map lcChar) =
              "photo.fnumber".toList)]
            rw [applyRange_fnumber]
            rw [applyBounds_single_le ⟨"photo.fnumber".toList, "<=".toList, w⟩
              (Or.inl rfl)]
            simp only [Option.map_some', Option.map_none', hwparse]
    | some m =>
      cases mx with
      | none =>
        cases m with
        | nan => simp [floatBound] at hmn
        | num q =>
          simp only [floatBound, Bool.and_eq_true, decide_eq_true_eq] at hmn
          obtain ⟨hden, habs⟩ := hmn
          obtain ⟨w, hw, hwne, hwchars, hwparse⟩ := float_render_spec q hden habs
          rw [buildRangeQuery_min, hw, Option.toList_some]
          rw [show ("photo.fnumber".toList ++ ">=".toList ++ w : Str) =
            "photo.fnumber".toList ++ '>' :: '=' :: w from rfl]
          refine ⟨?_, by simp, fun N s hs => ?_⟩
          · intro p hp
            simp only [List.mem_singleton] at hp
            subst hp
            constructor
            · exact good_op_clause "photo.fnumber".toList '>' '=' w
                (by decide) (by decide) (by decide) ⟨by decide, by decide⟩
                ⟨by decide, by decide⟩ ⟨by decide, by decide, by decide⟩
                (fun c hc => numValChar_not_ws c (hwchars c hc))
                (fun c hc => numValChar_noparen c (hwchars c hc))
            · exact head_ne_star_field "photo.fnumber".toList ('>' :: '=' :: w)
                (by decide) (by decide)
          · simp only [List.foldl_cons, List.foldl_nil]
            rw [step_range_ge N s "photo.fnumber".toList w (by decide) (by decide) hwne
              (fun c hc => numValChar_not_ws c (hwchars c hc))
              (fun c hc => numValChar_not_lineterm c (hwchars c hc))]
            rw [(by decide : (("photo.fnumber".toList : Str).map lcChar) =
              "photo.fnumber".toList)]
            rw [applyRange_fnumber]
            rw [applyBounds_single_ge ⟨"photo.fnumber".toList, ">=".toList, w⟩
              (Or.inl rfl)]
            simp only [Option.map_some', Option.map_none', hwparse]
      | some M =>
        cases m with
        | nan => simp [floatBound] at hmn
        | num q1 =>
          cases M with
          | nan => simp [floatBound] at hmx
          | num q2 =>
            simp only [floatBound, Bool.and_eq_true, decide_eq_true_eq] at hmn hmx
            obtain ⟨hden1, habs1⟩ := hmn
            obtain ⟨hden2, habs2⟩ := hmx
            obtain ⟨w1, hw1, hw1ne, hw1chars, hw1parse⟩ := float_render_spec q1 hden1 habs1
            obtain ⟨w2, hw2, hw2ne, hw2chars, hw2parse⟩ := float_render_spec q2 hden2 habs2
            rw [buildRangeQuery_both, hw1, hw2, Option.toList_some]
            rw [show ("photo.fnumber".toList ++ ">=".toList ++ w1 : Str) =
              "photo.fnumber".toList ++ '>' :: '=' :: w1 from rfl]
            rw [show ("photo.fnumber".toList ++ "<=".toList ++ w2 : Str) =
              "photo.fnumber".toList ++ '<' :: '=' :: w2 from rfl]
            refine ⟨?_, by simp, fun N s hs => ?_⟩
            · intro p hp
              simp only [List.mem_singleton] at hp
              subst hp
              constructor
              · exact good_group_clause _ _ (by simp) (by simp)
                  (nows_op_clause "photo.fnumber".toList '>' '=' w1
                    (by decide) (by decide) (by decide)
                    (fun c hc => numValChar_not_ws c (hw1chars c hc)))
                  (nows_op_clause "photo.fnumber".toList '<' '=' w2
                    (by decide) (by decide) (by decide)
                    (fun c hc => numValChar_not_ws c (hw2chars c hc)))
                  (noparen_op_clause "photo.fnumber".toList '>' '=' w1 (by decide)
                    ⟨by decide, by decide⟩ ⟨by decide, by decide⟩
                    (fun c hc => numValChar_noparen c (hw1chars c hc)))
                  (noparen_op_clause "photo.fnumber".toList '<' '=' w2 (by decide)
                    ⟨by decide, by decide⟩ ⟨by decide, by decide⟩
                    (fun c hc => numValChar_noparen c (hw2chars c hc)))
              · exact head_ne_star_group _
            · simp only [List.foldl_cons, List.foldl_nil]
              rw [step_range_group N s "photo.fnumber".toList w1 w2
                (by decide) (by decide) hw1ne hw2ne
                (fun c hc => numValChar_not_ws c (hw1chars c hc))
                (fun c hc => numValChar_not_ws c (hw2chars c hc))
                (fun c hc => numValChar_not_lineterm c (hw1chars c hc))
                (fun c hc => numValChar_not_lineterm c (hw2chars c hc))]
              rw [(by decide : (("photo.fnumber".toList : Str).map lcChar) =
                "photo.fnumber".toList)]
              rw [applyRange_fnumber]
              rw [applyBounds_ge_le ⟨"photo.fnumber".toList, ">=".toList, w1⟩
                ⟨"photo.fnumber".toList, "<=".toList, w2⟩ (Or.inl rfl) (Or.inl rfl)]
              simp only [Option.map_some', hw1parse, hw2parse]


theorem c1_focal (v : Option NumericRange) (hv : goodFloatRange v = true) :
    (∀ p ∈ (match v with
        | some r => (buildRangeQuery "photo.focallength".toList r).toList
        | none => ([] : List Str)), GoodPart p ∧ p.head? ≠ some '*') ∧
    ((match v with
        | some r => (buildRangeQuery "photo.focallength".toList r).toList
        | none => ([] : List Str)) = [] → v = none) ∧
    (∀ (N : Nat) (s : SearchFilters), s.photo.focalLengthRange = none →
      (match v with
        | some r => (buildRangeQuery "photo.focallength".toList r).toList
        | none => ([] : List Str)).foldl
        (fun g p => parseKqlPartF (N + 1) g (jsTrim p)) s =
      {s with photo.focalLengthRange := v}) := by
  cases v with
  | none =>
    have hm : (match (none : Option NumericRange) with
        | some r => (buildRangeQuery "photo.focallength".toList r).toList
        | none => ([] : List Str)) = ([] : List Str) := rfl
    rw [hm]
    refine ⟨by simp, fun _ => rfl, fun N s hs => ?_⟩
    show s = {s with photo.focalLengthRange := (none : Option NumericRange)}
    rw [← hs]
  | some r =>
    have hm : (match (some r : Option NumericRange) with
        | some r => (buildRangeQuery "photo.focallength".toList r).toList
        | none => ([] : List Str)) = (buildRangeQuery "photo.focallength".toList r).toList := rfl
    rw [hm]
    obtain ⟨mn, mx⟩ := r
    simp only [goodFloatRange, Bool.and_eq_true, Bool.or_eq_true] at hv
    obtain ⟨⟨hmn, hmx⟩, hor⟩ := hv
    cases mn with
    | none =>
      cases mx with
      | none => simp at hor
      | some M =>
        cases M with
        | nan => simp [floatBound] at hmx
        | num q =>
          simp only [floatBound, Bool.and_eq_true, decide_eq_true_eq] at hmx
          obtain ⟨hden, habs⟩ := hmx
          obtain ⟨w, hw, hwne, hwchars, hwparse⟩ := float_render_spec q hden habs
          rw [buildRangeQuery_max, hw, Option.toList_some]
          rw [show ("photo.focallength".toList ++ "<=".toList ++ w : Str) =
            "photo.focallength".toList ++ '<' :: '=' :: w from rfl]
          refine ⟨?_, by simp, fun N s hs => ?_⟩
          · intro p hp
            simp only [List.mem_singleton] at hp
            subst hp
            constructor
            · exact good_op_clause "photo.focallength".toList '<' '=' w
                (by decide) (by decide) (by decide) ⟨by decide, by decide⟩
                ⟨by decide, by decide⟩ ⟨by decide, by decide, by decide⟩
                (fun c hc => numValChar_not_ws c (hwchars c hc))
                (fun c hc => numValChar_noparen c (hwchars c hc))
            · exact head_ne_star_field "photo.focallength".toList ('<' :: '=' :: w)
                (by decide) (by decide)
          · simp only [List.foldl_cons, List.foldl_nil]
            rw [step_range_le N s "photo.focallength".toList w (by decide) (by decide) hwne
              (fun c hc => numValChar_not_ws c (hwchars c hc))
              (fun c hc => numValChar_not_lineterm c (hwchars c hc))]
            rw [(by decide : (("photo.focallength".toList : Str).map lcChar) =
              "photo.focallength".toList)]
            rw [applyRange_focal]
            rw [applyBounds_single_le ⟨"photo.focallength".toList, "<=".toList, w⟩
              (Or.inl rfl)]
            simp only [Option.map_some', Option.map_none', hwparse]
    | some m =>
      cases mx with
      | none =>
        cases m with
        | nan => simp [floatBound] at hmn
        | num q =>
          simp only [floatBound, Bool.and_eq_true, decide_eq_true_eq] at hmn
          obtain ⟨hden, habs⟩ := hmn
          obtain ⟨w, hw, hwne, hwchars, hwparse⟩ := float_render_spec q hden habs
          rw [buildRangeQuery_min, hw, Option.toList_some]
          rw [show ("photo.focallength".toList ++ ">=".toList ++ w : Str) =
            "photo.focallength".toList ++ '>' :: '=' :: w from rfl]
          refine ⟨?_, by simp, fun N s hs => ?_⟩
          · intro p hp
            simp only [List.mem_singleton] at hp
            subst hp
            constructor
            · exact good_op_clause "photo.focallength".toList '>' '=' w
                (by decide) (by decide) (by decide) ⟨by decide, by decide⟩
                ⟨by decide, by decide⟩ ⟨by decide, by decide, by decide⟩
                (fun c hc => numValChar_not_ws c (hwchars c hc))
                (fun c hc => numValChar_noparen c (hwchars c hc))
            · exact head_ne_star_field "photo.focallength".toList ('>' :: '=' :: w)
                (by decide) (by decide)
          · simp only [List.foldl_cons, List.foldl_nil]
            rw [step_range_ge N s "photo.focallength".toList w (by decide) (by decide) hwne
              (fun c hc => numValChar_not_ws c (hwchars c hc))
              (fun c hc => numValChar_not_lineterm c (hwchars c hc))]
            rw [(by decide : (("photo.focallength".toList : Str).map lcChar) =
              "photo.focallength".toList)]
            rw [applyRange_focal]
            rw [applyBounds_single_ge ⟨"photo.focallength".toList, ">=".toList, w⟩
              (Or.inl rfl)]
            simp only [Option.map_some', Option.map_none', hwparse]
      | some M =>
        cases m with
        | nan => simp [floatBound] at hmn
        | num q1 =>
          cases M with
          | nan => simp [floatBound] at hmx
          | num q2 =>
            simp only [floatBound, Bool.and_eq_true, decide_eq_true_eq] at hmn hmx
            obtain ⟨hden1, habs1⟩ := hmn
            obtain ⟨hden2, habs2⟩ := hmx
            obtain ⟨w1, hw1, hw1ne, hw1chars, hw1parse⟩ := float_render_spec q1 hden1 habs1
            obtain ⟨w2, hw2, hw2ne, hw2chars, hw2parse⟩ := float_render_spec q2 hden2 habs2
            rw [buildRangeQuery_both, hw1, hw2, Option.toList_some]
            rw [show ("photo.focallength".toList ++ ">=".toList ++ w1 : Str) =
              "photo.focallength".toList ++ '>' :: '=' :: w1 from rfl]
            rw [show ("photo.focallength".toList ++ "<=".toList ++ w2 : Str) =
              "photo.focallength".toList ++ '<' :: '=' :: w2 from rfl]
            refine ⟨?_, by simp, fun N s hs => ?_⟩
            · intro p hp
              simp only [List.mem_singleton] at hp
              subst hp
              constructor
              · exact good_group_clause _ _ (by simp) (by simp)
                  (nows_op_clause "photo.focallength".toList '>' '=' w1
                    (by decide) (by decide) (by decide)
                    (fun c hc => numValChar_not_ws c (hw1chars c hc)))
                  (nows_op_clause "photo.focallength".toList '<' '=' w2
                    (by decide) (by decide) (by decide)
                    (fun c hc => numValChar_not_ws c (hw2chars c hc)))
                  (noparen_op_clause "photo.focallength".toList '>' '=' w1 (by decide)
                    ⟨by decide, by decide⟩ ⟨by decide, by decide⟩
                    (fun c hc => numValChar_noparen c (hw1chars c hc)))
                  (noparen_op_clause "photo.focallength".toList '<' '=' w2 (by decide)
                    ⟨by decide, by decide⟩ ⟨by decide, by decide⟩
                    (fun c hc => numValChar_noparen c (hw2chars c hc)))
              · exact head_ne_star_group _
            · simp only [List.foldl_cons, List.foldl_nil]
              rw [step_range_group N s "photo.focallength".toList w1 w2
                (by decide) (by decide) hw1ne hw2ne
                (fun c hc => numValChar_not_ws c (hw1chars c hc))
                (fun c hc => numValChar_not_ws c (hw2chars c hc))
                (fun c hc => numValChar_not_lineterm c (hw1chars c hc))
                (fun c hc => numValChar_not_lineterm c (hw2chars c hc))]
              rw [(by decide : (("photo.focallength".toList : Str).map lcChar) =
                "photo.focallength".toList)]
              rw [applyRange_focal]
              rw [applyBounds_ge_le ⟨"photo.focallength".toList, ">=".toList, w1⟩
                ⟨"photo.focallength".toList, "<=".toList, w2⟩ (Or.inl rfl) (Or.inl rfl)]
              simp only [Option.map_some', hw1parse, hw2parse]

theorem c1_mtime (fb : Str → Str) (v : Option DateRange)
    (hv : goodDateRange v = true) :
    (∀ p ∈ (match v with
        | some r => (buildDateRangeQuery fb "mtime".toList r).toList
        | none => ([] : List Str)), GoodPart p ∧ p.head? ≠ some '*') ∧
    ((match v with
        | some r => (buildDateRangeQuery fb "mtime".toList r).toList
        | none => ([] : List Str)) = [] → v = none) ∧
    (∀ (N : Nat) (s : SearchFilters), s.standard.modifiedRange = none →
      (match v with
        | some r => (buildDateRangeQuery fb "mtime".toList r).toList
        | none => ([] : List Str)).foldl
        (fun g p => parseKqlPartF (N + 1) g (jsTrim p)) s =
      {s with standard.modifiedRange := v}) := by
  cases v with
  | none =>
    have hm : (match (none : Option DateRange) with
        | some r => (buildDateRangeQuery fb "mtime".toList r).toList
        | none => ([] : List Str)) = ([] : List Str) := rfl
    rw [hm]
    refine ⟨by simp, fun _ => rfl, fun N s hs => ?_⟩
    show s = {s with standard.modifiedRange := (none : Option DateRange)}
    rw [← hs]
  | some r =>
    have hm : (match (some r : Option DateRange) with
        | some r => (buildDateRangeQuery fb "mtime".toList r).toList
        | none => ([] : List Str)) =
        (buildDateRangeQuery fb "mtime".toList r).toList := rfl
    rw [hm]
    obtain ⟨st, en⟩ := r
    simp only [goodDateRange, Bool.and_eq_true, Bool.or_eq_true,
      decide_eq_true_eq] at hv
    obtain ⟨⟨hst0, hen0⟩, hor⟩ := hv
    by_cases hst : st = []
    · subst hst
      have hen : en ≠ [] := by
        rcases hor with h | h
        · exact absurd rfl h
        · exact h
      have hymd : isYMDShape en = true := by
        rcases hen0 with h | h
        · exact absurd h hen
        · exact h
      rw [buildDateRangeQuery_stop fb _ en hen, formatDate_ymd fb en hymd,
        Option.toList_some]
      rw [show ("mtime".toList ++ "<=".toList ++ en : Str) =
        "mtime".toList ++ '<' :: '=' :: en from rfl]
      refine ⟨?_, by simp, fun N s hs => ?_⟩
      · intro p hp
        simp only [List.mem_singleton] at hp
        subst hp
        constructor
        · exact good_op_clause "mtime".toList '<' '=' en
            (by decide) (by decide) (by decide) ⟨by decide, by decide⟩
            ⟨by decide, by decide⟩ ⟨by decide, by decide, by decide⟩
            (ymd_not_ws en hymd) (ymd_noparen en hymd)
        · exact head_ne_star_field "mtime".toList ('<' :: '=' :: en)
            (by decide) (by decide)
      · simp only [List.foldl_cons, List.foldl_nil]
        rw [step_range_le N s "mtime".toList en (by decide) (by decide) hen
          (ymd_not_ws en hymd) (ymd_not_lineterm en hymd)]
        rw [(by decide : (("mtime".toList : Str).map lcChar) = "mtime".toList)]
        rw [applyRange_mtime]
        rw [applyBounds_single_le ⟨"mtime".toList, "<=".toList, en⟩ (Or.inl rfl)]
        simp only [Option.getD_some, Option.getD_none]
    · have hymds : isYMDShape st = true := by
        rcases hst0 with h | h
        · exact absurd h hst
        · exact h
      by_cases hen : en = []
      · subst hen
        rw [buildDateRangeQuery_start fb _ st hst, formatDate_ymd fb st hymds,
          Option.toList_some]
        rw [show ("mtime".toList ++ ">=".toList ++ st : Str) =
          "mtime".toList ++ '>' :: '=' :: st from rfl]
        refine ⟨?_, by simp, fun N s hs => ?_⟩
        · intro p hp
          simp only [List.mem_singleton] at hp
          subst hp
          constructor
          · exact good_op_clause "mtime".toList '>' '=' st
              (by decide) (by decide) (by decide) ⟨by decide, by decide⟩
              ⟨by decide, by decide⟩ ⟨by decide, by decide, by decide⟩
              (ymd_not_ws st hymds) (ymd_noparen st hymds)
          · exact head_ne_star_field "mtime".toList ('>' :: '=' :: st)
              (by decide) (by decide)
        · simp only [List.foldl_cons, List.foldl_nil]
          rw [step_range_ge N s "mtime".toList st (by decide) (by decide) hst
            (ymd_not_ws st hymds) (ymd_not_lineterm st hymds)]
          rw [(by decide : (("mtime".toList : Str).map lcChar) =
            "mtime".toList)]
          rw [applyRange_mtime]
          rw [applyBounds_single_ge ⟨"mtime".toList, ">=".toList, st⟩
            (Or.inl rfl)]
          simp only [Option.getD_some, Option.getD_none]
      · have hymde : isYMDShape en = true := by
          rcases hen0 with h | h
          · exact absurd h hen
          · exact h
        rw [buildDateRangeQuery_both fb _ st en hst hen,
          formatDate_ymd fb st hymds, formatDate_ymd fb en hymde,
          Option.toList_some]
        rw [show ("mtime".toList ++ ">=".toList ++ st : Str) =
          "mtime".toList ++ '>' :: '=' :: st from rfl]
        rw [show ("mtime".toList ++ "<=".toList ++ en : Str) =
          "mtime".toList ++ '<' :: '=' :: en from rfl]
        refine ⟨?_, by simp, fun N s hs => ?_⟩
        · intro p hp
          simp only [List.mem_singleton] at hp
          subst hp
          constructor
          · exact good_group_clause _ _ (by simp) (by simp)
              (nows_op_clause "mtime".toList '>' '=' st (by decide) (by decide)
                (by decide) (ymd_not_ws st hymds))
              (nows_op_clause "mtime".toList '<' '=' en (by decide) (by decide)
                (by decide) (ymd_not_ws en hymde))
              (noparen_op_clause "mtime".toList '>' '=' st (by decide)
                ⟨by decide, by decide⟩ ⟨by decide, by decide⟩
                (ymd_noparen st hymds))
              (noparen_op_clause "mtime".toList '<' '=' en (by decide)
                ⟨by decide, by decide⟩ ⟨by decide, by decide⟩
                (ymd_noparen en hymde))
          · exact head_ne_star_group _
        · simp only [List.foldl_cons, List.foldl_nil]
          rw [step_range_group N s "mtime".toList st en (by decide) (by decide)
            hst hen (ymd_not_ws st hymds) (ymd_not_ws en hymde)
            (ymd_not_lineterm st hymds) (ymd_not_lineterm en hymde)]
          rw [(by decide : (("mtime".toList : Str).map lcChar) =
            "mtime".toList)]
          rw [applyRange_mtime]
          rw [applyBounds_ge_le ⟨"mtime".toList, ">=".toList, st⟩
            ⟨"mtime".toList, "<=".toList, en⟩ (Or.inl rfl) (Or.inl rfl)]
          simp only [Option.getD_some]


theorem c1_taken (fb : Str → Str) (v : Option DateRange)
    (hv : goodDateRange v = true) :
    (∀ p ∈ (match v with
        | some r => (buildDateRangeQuery fb "photo.takendatetime".toList r).toList
        | none => ([] : List Str)), GoodPart p ∧ p.head? ≠ some '*') ∧
    ((match v with
        | some r => (buildDateRangeQuery fb "photo.takendatetime".toList r).toList
        | none => ([] : List Str)) = [] → v = none) ∧
    (∀ (N : Nat) (s : SearchFilters), s.photo.takenDateRange = none →
      (match v with
        | some r => (buildDateRangeQuery fb "photo.takendatetime".toList r).toList
        | none => ([] : List Str)).foldl
        (fun g p => parseKqlPartF (N + 1) g (jsTrim p)) s =
      {s with photo.takenDateRange := v}) := by
  cases v with
  | none =>
    have hm : (match (none : Option DateRange) with
        | some r => (buildDateRangeQuery fb "photo.takendatetime".toList r).toList
        | none => ([] : List Str)) = ([] : List Str) := rfl
    rw [hm]
    refine ⟨by simp, fun _ => rfl, fun N s hs => ?_⟩
    show s = {s with photo.takenDateRange := (none : Option DateRange)}
    rw [← hs]
  | some r =>
    have hm : (match (some r : Option DateRange) with
        | some r => (buildDateRangeQuery fb "photo.takendatetime".toList r).toList
        | none => ([] : List Str)) =
        (buildDateRangeQuery fb "photo.takendatetime".toList r).toList := rfl
    rw [hm]
    obtain ⟨st, en⟩ := r
    simp only [goodDateRange, Bool.and_eq_true, Bool.or_eq_true,
      decide_eq_true_eq] at hv
    obtain ⟨⟨hst0, hen0⟩, hor⟩ := hv
    by_cases hst : st = []
    · subst hst
      have hen : en ≠ [] := by
        rcases hor with h | h
        · exact absurd rfl h
        · exact h
      have hymd : isYMDShape en = true := by
        rcases hen0 with h | h
        · exact absurd h hen
        · exact h
      rw [buildDateRangeQuery_stop fb _ en hen, formatDate_ymd fb en hymd,
        Option.toList_some]
      rw [show ("photo.takendatetime".toList ++ "<=".toList ++ en : Str) =
        "photo.takendatetime".toList ++ '<' :: '=' :: en from rfl]
      refine ⟨?_, by simp, fun N s hs => ?_⟩
      · intro p hp
        simp only [List.mem_singleton] at hp
        subst hp
        constructor
        · exact good_op_clause "photo.takendatetime".toList '<' '=' en
            (by decide) (by decide) (by decide) ⟨by decide, by decide⟩
            ⟨by decide, by decide⟩ ⟨by decide, by decide, by decide⟩
            (ymd_not_ws en hymd) (ymd_noparen en hymd)
        · exact head_ne_star_field "photo.takendatetime".toList ('<' :: '=' :: en)
            (by decide) (by decide)
      · simp only [List.foldl_cons, List.foldl_nil]
        rw [step_range_le N s "photo.takendatetime".toList en (by decide) (by decide) hen
          (ymd_not_ws en hymd) (ymd_not_lineterm en hymd)]
        rw [(by decide : (("photo.takendatetime".toList : Str).map lcChar) = "photo.takendatetime".toList)]
        rw [applyRange_taken]
        rw [applyBounds_single_le ⟨"photo.takendatetime".toList, "<=".toList, en⟩ (Or.inl rfl)]
        simp only [Option.getD_some, Option.getD_none]
    · have hymds : isYMDShape st = true := by
        rcases hst0 with h | h
        · exact absurd h hst
        · exact h
      by_cases hen : en = []
      · subst hen
        rw [buildDateRangeQuery_start fb _ st hst, formatDate_ymd fb st hymds,
          Option.toList_some]
        rw [show ("photo.takendatetime".toList ++ ">=".toList ++ st : Str) =
          "photo.takendatetime".toList ++ '>' :: '=' :: st from rfl]
        refine ⟨?_, by simp, fun N s hs => ?_⟩
        · intro p hp
          simp only [List.mem_singleton] at hp
          subst hp
          constructor
          · exact good_op_clause "photo.takendatetime".toList '>' '=' st
              (by decide) (by decide) (by decide) ⟨by decide, by decide⟩
              ⟨by decide, by decide⟩ ⟨by decide, by decide, by decide⟩
              (ymd_not_ws st hymds) (ymd_noparen st hymds)
          · exact head_ne_star_field "photo.takendatetime".toList ('>' :: '=' :: st)
              (by decide) (by decide)
        · simp only [List.foldl_cons, List.foldl_nil]
          rw [step_range_ge N s "photo.takendatetime".toList st (by decide) (by decide) hst
            (ymd_not_ws st hymds) (ymd_not_lineterm st hymds)]
          rw [(by decide : (("photo.takendatetime".toList : Str).map lcChar) =
            "photo.takendatetime".toList)]
          rw [applyRange_taken]
          rw [applyBounds_single_ge ⟨"photo.takendatetime".toList, ">=".toList, st⟩
            (Or.inl rfl)]
          simp only [Option.getD_some, Option.getD_none]
      · have hymde : isYMDShape en = true := by
          rcases hen0 with h | h
          · exact absurd h hen
          · exact h
        rw [buildDateRangeQuery_both fb _ st en hst hen,
          formatDate_ymd fb st hymds, formatDate_ymd fb en hymde,
          Option.toList_some]
        rw [show ("photo.takendatetime".toList ++ ">=".toList ++ st : Str) =
          "photo.takendatetime".toList ++ '>' :: '=' :: st from rfl]
        rw [show ("photo.takendatetime".toList ++ "<=".toList ++ en : Str) =
          "photo.takendatetime".toList ++ '<' :: '=' :: en from rfl]
        refine ⟨?_, by simp, fun N s hs => ?_⟩
        · intro p hp
          simp only [List.mem_singleton] at hp
          subst hp
          constructor
          · exact good_group_clause _ _ (by simp) (by simp)
              (nows_op_clause "photo.takendatetime".toList '>' '=' st (by decide) (by decide)
                (by decide) (ymd_not_ws st hymds))
              (nows_op_clause "photo.takendatetime".toList '<' '=' en (by decide) (by decide)
                (by decide) (ymd_not_ws en hymde))
              (noparen_op_clause "photo.takendatetime".toList '>' '=' st (by decide)
                ⟨by decide, by decide⟩ ⟨by decide, by decide⟩
                (ymd_noparen st hymds))
              (noparen_op_clause "photo.takendatetime".toList '<' '=' en (by decide)
                ⟨by decide, by decide⟩ ⟨by decide, by decide⟩
                (ymd_noparen en hymde))
          · exact head_ne_star_group _
        · simp only [List.foldl_cons, List.foldl_nil]
          rw [step_range_group N s "photo.takendatetime".toList st en (by decide) (by decide)
            hst hen (ymd_not_ws st hymds) (ymd_not_ws en hymde)
            (ymd_not_lineterm st hymds) (ymd_not_lineterm en hymde)]
          rw [(by decide : (("photo.takendatetime".toList : Str).map lcChar) =
            "photo.takendatetime".toList)]
          rw [applyRange_taken]
          rw [applyBounds_ge_le ⟨"photo.takendatetime".toList, ">=".toList, st⟩
            ⟨"photo.takendatetime".toList, "<=".toList, en⟩ (Or.inl rfl) (Or.inl rfl)]
          simp only [Option.getD_some]


theorem c1_orient (v : Option JsNum)
    (hv : v = none ∨ ∃ q : ℚ, v = some (.num q) ∧ q.den = 1 ∧ 1 ≤ q.num ∧
      q.num.natAbs < 10 ^ 21) :
    (∀ p ∈ (match v with
        | some o =>
          if jsNumPos o then ["photo.orientation:".toList ++ jsNumRender o]
          else []
        | none => ([] : List Str)), GoodPart p ∧ p.head? ≠ some '*') ∧
    ((match v with
        | some o =>
          if jsNumPos o then ["photo.orientation:".toList ++ jsNumRender o]
          else []
        | none => ([] : List Str)) = [] → v = none) ∧
    (∀ (N : Nat) (s : SearchFilters), s.photo.orientation = none →
      (match v with
        | some o =>
          if jsNumPos o then ["photo.orientation:".toList ++ jsNumRender o]
          else []
        | none => ([] : List Str)).foldl
        (fun g p => parseKqlPartF (N + 1) g (jsTrim p)) s =
      {s with photo.orientation := v}) := by
  rcases hv with rfl | ⟨q, rfl, hden, hnum, habs⟩
  · have hm : (match (none : Option JsNum) with
        | some o =>
          if jsNumPos o then ["photo.orientation:".toList ++ jsNumRender o]
          else []
        | none => ([] : List Str)) = ([] : List Str) := rfl
    rw [hm]
    refine ⟨by simp, fun _ => rfl, fun N s hs => ?_⟩
    show s = {s with photo.orientation := (none : Option JsNum)}
    rw [← hs]
  · have hm : (match (some (JsNum.num q) : Option JsNum) with
        | some o =>
          if jsNumPos o then ["photo.orientation:".toList ++ jsNumRender o]
          else []
        | none => ([] : List Str)) =
        (if jsNumPos (JsNum.num q) then
          ["photo.orientation:".toList ++ jsNumRender (JsNum.num q)]
         else []) := rfl
    rw [hm]
    have hpos : jsNumPos (JsNum.num q) = true := by
      simp only [jsNumPos, decide_eq_true_eq]
      exact Rat.num_pos.mp (by omega)
    rw [if_pos hpos, jsNumRender_nonnegInt q hden (by omega) habs]
    refine ⟨?_, by simp, fun N s hs => ?_⟩
    · intro p hp
      simp only [List.mem_singleton] at hp
      subst hp
      constructor
      · exact good_colon_clause "photo.orientation".toList
          (natToStr q.num.toNat) (by decide)
          (nows_digits _ (natToStr_digits _))
          (noparen_digits _ (natToStr_digits _))
      · exact head_ne_star_field "photo.orientation".toList
          (':' :: natToStr q.num.toNat) (by decide) (by decide)
    · simp only [List.foldl_cons, List.foldl_nil]
      rw [show ("photo.orientation:".toList ++ natToStr q.num.toNat : Str) =
        "photo.orientation".toList ++ ':' :: natToStr q.num.toNat from rfl]
      rw [step_plain_clause N s "photo.orientation".toList
        (natToStr q.num.toNat) (by decide) (by decide)
        (plainStr_digits _ (natToStr_digits _))]
      rw [(by decide : (("photo.orientation".toList : Str).map lcChar) =
        "photo.orientation".toList)]
      rw [kfu_orientation, jsParseInt_natToStr, rat_coe_toNat q hden (by omega)]

set_option maxHeartbeats 1600000 in
/-- `buildKQL` on a FilterState with empty free-text term, written as the
explicit list of serializer chunks. -/
theorem buildKQL_clauses (fb : Str → Str) (nm tp mt : Str)
    (sz : Option NumericRange) (md : Option DateRange) (tg ct mk ml : Str)
    (td : Option DateRange) (iso fnr flr : Option NumericRange)
    (orn : Option JsNum) :
    buildKQL fb ⟨[], ⟨nm, tp, mt, sz, md, tg, ct⟩,
      ⟨mk, ml, td, iso, fnr, flr, orn⟩⟩ =
      (if ((if nm ≠ [] then ["name:".toList ++ escapeKQL nm] else []) ++
      (if tp = "file".toList then ["Type:1".toList]
        else if tp = "folder".toList then ["Type:2".toList] else []) ++
      (match sz with
        | some r => (buildRangeQuery "size".toList r).toList
        | none => []) ++
      (match md with
        | some r => (buildDateRangeQuery fb "mtime".toList r).toList
        | none => []) ++
      (if mt ≠ [] then ["mediatype:".toList ++ escapeKQL mt] else []) ++
      (if tg ≠ [] then
        (let tagList := ((splitOn ',' tg).map jsTrim).filter (· ≠ [])
         match tagList with
         | [t] => ["tags:".toList ++ escapeKQL t]
         | [] => []
         | ts =>
           ['(' :: joinSep " OR ".toList
             (ts.map (fun t => "tags:".toList ++ escapeKQL t)) ++ [')']])
       else []) ++
      (if ct ≠ [] then ["content:".toList ++ escapeKQL ct] else []) ++
      ((if mk ≠ [] then ["photo.cameramake:".toList ++ escapeKQL mk] else []) ++
       (if ml ≠ [] then ["photo.cameramodel:".toList ++ escapeKQL ml] else []) ++
       (match td with
        | some r =>
          (buildDateRangeQuery fb "photo.takendatetime".toList r).toList
        | none => []) ++
       (match iso with
        | some r => (buildRangeQuery "photo.iso".toList r).toList
        | none => []) ++
       (match fnr with
        | some r => (buildRangeQuery "photo.fnumber".toList r).toList
        | none => []) ++
       (match flr with
        | some r => (buildRangeQuery "photo.focallength".toList r).toList
        | none => []) ++
       (match orn with
        | some o =>
          if jsNumPos o then ["photo.orientation:".toList ++ jsNumRender o]
          else []
        | none => []))) ≠ [] then
        joinSep " AND ".toList
          ((if nm ≠ [] then ["name:".toList ++ escapeKQL nm] else []) ++
      (if tp = "file".toList then ["Type:1".toList]
        else if tp = "folder".toList then ["Type:2".toList] else []) ++
      (match sz with
        | some r => (buildRangeQuery "size".toList r).toList
        | none => []) ++
      (match md with
        | some r => (buildDateRangeQuery fb "mtime".toList r).toList
        | none => []) ++
      (if mt ≠ [] then ["mediatype:".toList ++ escapeKQL mt] else []) ++
      (if tg ≠ [] then
        (let tagList := ((splitOn ',' tg).map jsTrim).filter (· ≠ [])
         match tagList with
         | [t] => ["tags:".toList ++ escapeKQL t]
         | [] => []
         | ts =>
           ['(' :: joinSep " OR ".toList
             (ts.map (fun t => "tags:".toList ++ escapeKQL t)) ++ [')']])
       else []) ++
      (if ct ≠ [] then ["content:".toList ++ escapeKQL ct] else []) ++
      ((if mk ≠ [] then ["photo.cameramake:".toList ++ escapeKQL mk] else []) ++
       (if ml ≠ [] then ["photo.cameramodel:".toList ++ escapeKQL ml] else []) ++
       (match td with
        | some r =>
          (buildDateRangeQuery fb "photo.takendatetime".toList r).toList
        | none => []) ++
       (match iso with
        | some r => (buildRangeQuery "photo.iso".toList r).toList
        | none => []) ++
       (match fnr with
        | some r => (buildRangeQuery "photo.fnumber".toList r).toList
        | none => []) ++
       (match flr with
        | some r => (buildRangeQuery "photo.focallength".toList r).toList
        | none => []) ++
       (match orn with
        | some o =>
          if jsNumPos o then ["photo.orientation:".toList ++ jsNumRender o]
          else []
        | none => [])))
       else "*".toList) := rfl

/-- C1 counterexample: the round trip is NOT the identity on every
FilterState built from the documented fields.  First, a free-text `term`
is serialized as `name:*term*` (kql.ts line 111), which the parser stores
in `standard.name`, not in `term`.  Second, an integer bound of magnitude
`1e21` renders in exponent notation (`size>=1e+21`), which
`parseInt(_, 10)` reads back as `1` — so the magnitude restriction of the
amended class is forced as well. -/
theorem claim_C1_counterexample :
    parseKqlToFilters (buildKQL (fun s => s) {term := "banana".toList}) ≠
      {term := "banana".toList} ∧
    parseKqlToFilters (buildKQL (fun s => s) {term := "banana".toList}) =
      {standard := {name := "*banana*".toList}} ∧
    parseKqlToFilters (buildKQL (fun s => s)
        {standard := {sizeRange := some ⟨some (.num 1000000000000000000000), none⟩}}) ≠
      {standard := {sizeRange := some ⟨some (.num 1000000000000000000000), none⟩}} ∧
    buildKQL (fun s => s)
        {standard := {sizeRange := some ⟨some (.num 1000000000000000000000), none⟩}} =
      "size>=1e+21".toList ∧
    parseKqlToFilters "size>=1e+21".toList =
      {standard := {sizeRange := some ⟨some (.num 1), none⟩}} := by
  refine ⟨by decide, by decide, by decide, by decide, by decide⟩

set_option maxHeartbeats 1600000 in
/-- C1 (amended): `parseKqlToFilters (buildKQL fb f) = f` — per-field and
per-range-bound equality — holds for every `roundTrippable` FilterState:
empty free-text `term`, plain-character string values, a legal `type`,
ranges with at least one bound whose `size`/`iso` bounds are integers and
whose `fNumber`/`focalLength` bounds are finite decimals (negative and
fractional values included), all below `1e21` in magnitude, `YYYY-MM-DD`
dates, and an absent or positive-integer orientation.  The claim as
frozen (every FilterState built from the documented field set) is refuted
by the counterexample: a non-empty `term` lands in `standard.name`, and a
bound of magnitude `1e21` or more renders in exponent notation and is
destroyed by `parseInt`. -/
theorem claim_C1 (fb : Str → Str) (f : SearchFilters)
    (h : roundTrippable f = true) :
    parseKqlToFilters (buildKQL fb f) = f := by
  obtain ⟨ft, ⟨nm, tp, mt, sz, md, tg, ct⟩, ⟨mk, ml, td, iso, fnr, flr, orn⟩⟩ := f
  simp only [roundTrippable, Bool.and_eq_true, Bool.or_eq_true,
    decide_eq_true_eq] at h
  have hterm : ft = [] := h.1.1.1.1.1.1.1.1.1.1.1.1.1.1
  subst hterm
  revert h
  rw [buildKQL_clauses fb nm tp mt sz md tg ct mk ml td iso fnr flr orn]
  set P : List Str :=
    (if nm ≠ [] then ["name:".toList ++ escapeKQL nm] else []) ++
      (if tp = "file".toList then ["Type:1".toList]
        else if tp = "folder".toList then ["Type:2".toList] else []) ++
      (match sz with
        | some r => (buildRangeQuery "size".toList r).toList
        | none => []) ++
      (match md with
        | some r => (buildDateRangeQuery fb "mtime".toList r).toList
        | none => []) ++
      (if mt ≠ [] then ["mediatype:".toList ++ escapeKQL mt] else []) ++
      (if tg ≠ [] then
        (let tagList := ((splitOn ',' tg).map jsTrim).filter (· ≠ [])
         match tagList with
         | [t] => ["tags:".toList ++ escapeKQL t]
         | [] => []
         | ts =>
           ['(' :: joinSep " OR ".toList
             (ts.map (fun t => "tags:".toList ++ escapeKQL t)) ++ [')']])
       else []) ++
      (if ct ≠ [] then ["content:".toList ++ escapeKQL ct] else []) ++
      ((if mk ≠ [] then ["photo.cameramake:".toList ++ escapeKQL mk] else []) ++
       (if ml ≠ [] then ["photo.cameramodel:".toList ++ escapeKQL ml] else []) ++
       (match td with
        | some r =>
          (buildDateRangeQuery fb "photo.takendatetime".toList r).toList
        | none => []) ++
       (match iso with
        | some r => (buildRangeQuery "photo.iso".toList r).toList
        | none => []) ++
       (match fnr with
        | some r => (buildRangeQuery "photo.fnumber".toList r).toList
        | none => []) ++
       (match flr with
        | some r => (buildRangeQuery "photo.focallength".toList r).toList
        | none => []) ++
       (match orn with
        | some o =>
          if jsNumPos o then ["photo.orientation:".toList ++ jsNumRender o]
          else []
        | none => [])) with hP
  intro h
  obtain ⟨⟨⟨⟨⟨⟨⟨⟨⟨⟨⟨⟨⟨⟨-, hnm⟩, htp⟩, hmt⟩, hsz⟩, hmd⟩, htg⟩, hct⟩, hmk⟩,
    hml⟩, htd⟩, hiso⟩, hfn⟩, hfl⟩, horn⟩ := h
  have horn2 : orn = none ∨
      ∃ q : ℚ, orn = some (JsNum.num q) ∧ q.den = 1 ∧ 1 ≤ q.num ∧
        q.num.natAbs < 10 ^ 21 := by
    cases orn with
    | none => exact Or.inl rfl
    | some o =>
      cases o with
      | nan => exact absurd horn (by decide)
      | num q =>
        have h2 : ((decide (q.den = 1) && decide (1 ≤ q.num)) &&
            decide (q.num.natAbs < 10 ^ 21)) = true := horn
        simp only [Bool.and_eq_true, decide_eq_true_eq] at h2
        exact Or.inr ⟨q, rfl, h2.1.1, h2.1.2, h2.2⟩
  have Hnm := c1_name nm hnm
  have Htp := c1_type tp (by tauto)
  have Hsz := c1_size sz hsz
  have Hmd := c1_mtime fb md hmd
  have Hmt := c1_mediatype mt hmt
  have Htg := c1_tags tg htg
  have Hct := c1_content ct hct
  have Hmk := c1_cameramake mk hmk
  have Hml := c1_cameramodel ml hml
  have Htd := c1_taken fb td htd
  have Hiso := c1_iso iso hiso
  have Hfn := c1_fnumber fnr hfn
  have Hfl := c1_focal flr hfl
  have Hor := c1_orient orn horn2
  by_cases hp : P = []
  · have hall := hP.symm.trans hp
    simp only [List.append_eq_nil] at hall
    obtain ⟨⟨⟨⟨⟨⟨⟨hc1, hc2⟩, hc3⟩, hc4⟩, hc5⟩, hc6⟩, hc7⟩,
      ⟨⟨⟨⟨⟨⟨hd1, hd2⟩, hd3⟩, hd4⟩, hd5⟩, hd6⟩, hd7⟩⟩ := hall
    obtain rfl := Hnm.2.1 hc1
    obtain rfl := Htp.2.1 hc2
    obtain rfl := Hsz.2.1 hc3
    obtain rfl := Hmd.2.1 hc4
    obtain rfl := Hmt.2.1 hc5
    obtain rfl := Htg.2.1 hc6
    obtain rfl := Hct.2.1 hc7
    obtain rfl := Hmk.2.1 hd1
    obtain rfl := Hml.2.1 hd2
    obtain rfl := Htd.2.1 hd3
    obtain rfl := Hiso.2.1 hd4
    obtain rfl := Hfn.2.1 hd5
    obtain rfl := Hfl.2.1 hd6
    obtain rfl := Hor.2.1 hd7
    rw [if_neg (not_not_intro hp)]
    decide
  · rw [if_pos hp]
    have hgood : ∀ p ∈ P, GoodPart p ∧ p.head? ≠ some '*' := by
      rw [hP]
      intro p hmem
      simp only [List.mem_append] at hmem
      rcases hmem with ((((((hmm | hmm) | hmm) | hmm) | hmm) | hmm) | hmm) |
        ((((((hmm | hmm) | hmm) | hmm) | hmm) | hmm) | hmm)
      exacts [Hnm.1 p hmm, Htp.1 p hmm, Hsz.1 p hmm, Hmd.1 p hmm, Hmt.1 p hmm,
        Htg.1 p hmm, Hct.1 p hmm, Hmk.1 p hmm, Hml.1 p hmm, Htd.1 p hmm,
        Hiso.1 p hmm, Hfn.1 p hmm, Hfl.1 p hmm, Hor.1 p hmm]
    obtain ⟨q0, qs0, hq0⟩ := List.exists_cons_of_ne_nil hp
    have hq0good := hgood q0 (by rw [hq0]; simp)
    obtain ⟨c0, t0, hc0, -⟩ := good_head q0 hq0good.1
    have htail : ∃ tail, joinSep " AND ".toList P = c0 :: (t0 ++ tail) := by
      rw [hq0, hc0]
      cases qs0 with
      | nil => exact ⟨[], by simp [joinSep]⟩
      | cons r rs =>
        refine ⟨" AND ".toList ++ joinSep " AND ".toList (r :: rs), ?_⟩
        rw [joinSep_cons2]
        simp [List.append_assoc]
    obtain ⟨tail, htail⟩ := htail
    have hcond : ¬(joinSep " AND ".toList P = [] ∨
        joinSep " AND ".toList P = ['*']) := by
      rw [htail]
      rintro (hx | hx)
      · exact absurd hx (by simp)
      · have hstar : c0 = '*' := by
          have h0 := congrArg List.head? hx
          simpa using h0
        exact hq0good.2 (by rw [hc0, List.head?_cons, hstar])
    simp only [parseKqlToFilters]
    rw [if_neg hcond]
    rw [splitKqlParts_joinSep P (fun p hm => (hgood p hm).1)]
    rw [hP]
    simp only [List.foldl_append]
    simp only [Hnm.2.2, Htp.2.2, Hsz.2.2, Hmd.2.2, Hmt.2.2, Htg.2.2,
      Hct.2.2, Hmk.2.2, Hml.2.2, Htd.2.2, Hiso.2.2, Hfn.2.2, Hfl.2.2,
      Hor.2.2, createEmptyFilters]

theorem claim_C1_witness :
    roundTrippable
      ⟨[], ⟨"report".toList, "file".toList, "pdf".toList,
        some ⟨some (.num 100), some (.num 1000)⟩,
        some ⟨"2024-01-01".toList, "2024-12-31".toList⟩,
        "work".toList, "hello".toList⟩,
      ⟨"Canon".toList, "EOS5".toList, some ⟨"2023-05-05".toList, []⟩,
        some ⟨some (.num 100), none⟩, some ⟨some (.num (-2)), some (.num 8)⟩,
        some ⟨some (.num 35), some (.num 70)⟩, some (.num 6)⟩⟩ = true ∧
    parseKqlToFilters (buildKQL (fun s => s)
      ⟨[], ⟨"report".toList, "file".toList, "pdf".toList,
        some ⟨some (.num 100), some (.num 1000)⟩,
        some ⟨"2024-01-01".toList, "2024-12-31".toList⟩,
        "work".toList, "hello".toList⟩,
      ⟨"Canon".toList, "EOS5".toList, some ⟨"2023-05-05".toList, []⟩,
        some ⟨some (.num 100), none⟩, some ⟨some (.num (-2)), some (.num 8)⟩,
        some ⟨some (.num 35), some (.num 70)⟩, some (.num 6)⟩⟩) =
      ⟨[], ⟨"report".toList, "file".toList, "pdf".toList,
        some ⟨some (.num 100), some (.num 1000)⟩,
        some ⟨"2024-01-01".toList, "2024-12-31".toList⟩,
        "work".toList, "hello".toList⟩,
      ⟨"Canon".toList, "EOS5".toList, some ⟨"2023-05-05".toList, []⟩,
        some ⟨some (.num 100), none⟩, some ⟨some (.num (-2)), some (.num 8)⟩,
        some ⟨some (.num 35), some (.num 70)⟩, some (.num 6)⟩⟩ :=
  ⟨by decide, claim_C1 (fun s => s) _ (by decide)⟩

end OcisKql
